import Mathlib

/-!
# Auction records (legacy v0.13 types), incentive rewards and genesis, validator vesting

Shallow embedding of `x/auction/legacy/v0_13/types.go` (namespace `v0_13`), of
`x/incentive/keeper/rewards.go` (namespace `keeper`), of `x/validator-vesting/abci.go`
(namespace `validatorvesting`) and of `x/incentive/genesis.go` (namespace `incentive`). The
definitions of all four come first, the results about them follow.

Conventions of the embedding
* A Go `error` result is an `Option ValidationError`; `none` is Go's `nil`.
* A call that can panic in Go returns an `Option` of its result; `none` is the panic. A
  validation that can panic thus returns an `Option (Option ValidationError)`: `some none` is
  the return of nil, `some (some err)` the return of an error, and `none` the panic.
* `uint64` identifiers are natural numbers; only comparisons are made on them.
* `sdk.Int` is an initialised arbitrary-precision integer and is embedded as `Int`. The SDK
  (release v0.39) lets the result of an operation on `sdk.Int` values have at most 255 bits
  and panics otherwise: `sdkInt.Add` and `sdkInt.Mul` embed the two operations the sources
  reach, with their checks of the bit length. Comparisons and the tests of the sign are made
  on the integers as they are.
* `sdk.AccAddress` is a byte slice, embedded as a list of bytes.
* `time.Time` is an instant, embedded as the number of nanoseconds elapsed since the zero
  time (January 1, year 1, 00:00:00 UTC); `time.Duration` is a number of nanoseconds. The
  difference of two instants saturates at the bounds of the `int64` behind a duration, as
  `time.Time.Sub` does.
* A finite `float64` is embedded as the rational number it stands for; an operation on
  `float64` values rounds its exact result to the nearest `float64`.
-/

set_option autoImplicit false

namespace v0_13

/-! ## Library types used by the module -/

/-- Byte slice holding an account address (`sdk.AccAddress`). -/
abbrev AccAddress := List (Fin 256)

/-- Length in bytes of a well-formed address (`sdk.AddrLen`). -/
def AddrLen : Nat := 20

/-- Method `Empty` of `sdk.AccAddress`: true for the nil slice and for the slice of length 0. -/
def AccAddress.Empty (aa : AccAddress) : Bool := aa.length == 0

/-- Instant in time (`time.Time`), as nanoseconds since the zero time. -/
structure Time where
  ns : Int
deriving DecidableEq, Repr

/-- Method `IsZero` of `time.Time`. -/
def Time.IsZero (t : Time) : Bool := t.ns == 0

/-- Method `After` of `time.Time`: `t.After u` reports whether `t` is later than `u`. -/
def Time.After (t u : Time) : Bool := decide (u.ns < t.ns)

/-- Elapsed time in nanoseconds (`time.Duration`). -/
abbrev Duration := Int

/-- Fixed-point decimal (`sdk.Dec`): a pointer to the decimal scaled by `10^18`, `none` when
the pointer is nil (as in the zero value `sdk.Dec{}`). -/
structure Dec where
  i : Option Int
deriving DecidableEq, Repr

/-- Method `IsNil` of `sdk.Dec`. -/
def Dec.IsNil (d : Dec) : Bool := d.i.isNone

/-- Method `IsNegative` of `sdk.Dec`. Every call site tests `IsNil` first, so the value given
to the nil decimal is never used. -/
def Dec.IsNegative (d : Dec) : Bool :=
  match d.i with
  | some v => decide (v < 0)
  | none => false

/-- The zero value `sdk.Dec{}` (module variable `emptyDec`). -/
def emptyDec : Dec := ⟨none⟩

/-- Coin denomination check of the SDK (`sdk.ValidateDenom`, pattern `[a-z][a-z0-9]{2,15}`
in the release v0.39 that the module is built against): a lowercase letter followed by 2 to
15 lowercase letters or digits. -/
def ValidateDenom (denom : String) : Bool :=
  match denom.toList with
  | [] => false
  | c :: cs =>
    c.isLower && decide (2 ≤ cs.length) && decide (cs.length ≤ 15) &&
      cs.all (fun x => x.isLower || x.isDigit)

/-- The loop behind `BitLen`: the number of binary digits of `n`, counted by halving `n`
until it is zero; `fuel` bounds the number of halvings. -/
def bitLenLoop : Nat → Nat → Nat
  | 0, _ => 0
  | fuel + 1, n => if n = 0 then 0 else bitLenLoop fuel (n / 2) + 1

/-- Method `BitLen` of `big.Int`: the length of the absolute value in bits; the bit length
of 0 is 0. A number reaches zero after at most as many halvings as its value, which is the
bound given to the loop. -/
def BitLen (x : Int) : Nat := bitLenLoop x.natAbs x.natAbs

/-- SDK constant `maxBitLen`: the largest bit length of an `sdk.Int`. -/
def maxBitLen : Nat := 255

/-- Method `Add` of `sdk.Int`: the sum; panics (`Int overflow`) when the sum needs more than
`maxBitLen` bits. -/
def sdkInt.Add (i i2 : Int) : Option Int :=
  let res := i + i2
  if BitLen res > maxBitLen then none else some res

/-- Method `Mul` of `sdk.Int`: the product; panics (`Int overflow`) when the bit lengths of
the factors add up to more than `maxBitLen + 1`, or when the product needs more than
`maxBitLen` bits. -/
def sdkInt.Mul (i i2 : Int) : Option Int :=
  if (BitLen i : Int) + (BitLen i2 : Int) - 1 > (maxBitLen : Int) then none
  else
    let res := i * i2
    if BitLen res > maxBitLen then none else some res

/-- An amount of one denomination (`sdk.Coin`). -/
structure Coin where
  Denom : String
  Amount : Int
deriving DecidableEq, Repr

/-- Method `IsValid` of `sdk.Coin`: the denomination is valid and the amount is not negative. -/
def Coin.IsValid (coin : Coin) : Bool :=
  ValidateDenom coin.Denom && !decide (coin.Amount < 0)

/-- Method `IsEqual` of `sdk.Coin`: compares the amounts; panics when the denominations
differ. -/
def Coin.IsEqual (coin other : Coin) : Option Bool :=
  if coin.Denom ≠ other.Denom then none
  else some (decide (coin.Amount = other.Amount))

/-- Constructor `sdk.NewInt64Coin` (through `sdk.NewCoin`): panics when the denomination is
invalid or the amount is negative. -/
def NewInt64Coin (denom : String) (amount : Int) : Option Coin :=
  if ValidateDenom denom && !decide (amount < 0) then some ⟨denom, amount⟩ else none

/-- White space in the sense of Go's `unicode.IsSpace`. -/
def isSpace (c : Char) : Bool :=
  c == '\t' || c == '\n' || c.toNat == 0x0B || c.toNat == 0x0C || c == '\r' || c == ' ' ||
  c.toNat == 0x85 || c.toNat == 0xA0 || c.toNat == 0x1680 ||
  (decide (0x2000 ≤ c.toNat) && decide (c.toNat ≤ 0x200A)) ||
  c.toNat == 0x2028 || c.toNat == 0x2029 || c.toNat == 0x202F || c.toNat == 0x205F ||
  c.toNat == 0x3000

/-- Go's `strings.TrimSpace`: removes leading and trailing white space. -/
def TrimSpace (s : String) : String :=
  String.mk ((s.toList.dropWhile isSpace).reverse.dropWhile isSpace).reverse

/-! ## Constants of the module -/

def CollateralAuctionType : String := "collateral"
def SurplusAuctionType : String := "surplus"
def DebtAuctionType : String := "debt"
def ForwardAuctionPhase : String := "forward"
def ReverseAuctionPhase : String := "reverse"
def DefaultNextAuctionID : Nat := 1

/-! ## Errors -/

/-- The error values built by the validation functions of the module, one constructor per
`errors.New` or `fmt.Errorf` call of the source. -/
inductive ValidationError where
  | invalidParameterType
  | negativeBidDuration (d : Duration)
  | negativeMaxAuctionDuration (d : Duration)
  | bidDurationTooLarge
  | nilSurplusIncrement
  | negativeSurplusIncrement (d : Dec)
  | nilDebtIncrement
  | negativeDebtIncrement (d : Dec)
  | nilCollateralIncrement
  | negativeCollateralIncrement (d : Dec)
  | blankInitiator
  | invalidLot (lot : Coin)
  | bidderLength (expected actual : Nat)
  | invalidBid (bid : Coin)
  | zeroEndTime
  | endTimeAfterMax (maxEndTime endTime : Time)
  | invalidCorrespondingDebt (debt : Coin)
  | invalidMaxBid (maxBid : Coin)
  | invalidLotReturns (cause : ValidationError)
  | noWeightedAddress
  | lengthMismatch (addresses weights : Nat)
  | emptyAddress (index : Nat)
  | addressLength (index expected actual : Nat)
  | negativeWeight (index : Nat) (weight : Int)
  | totalWeightNotPositive
  | invalidAuction (cause : ValidationError)
  | duplicateAuctionID (id : Nat)
  | idNotBelowNext (id nextAuctionID : Nat)
deriving DecidableEq, Repr

/-! ## Parameters -/

/-- Governance parameters of the auction module. -/
structure Params where
  MaxAuctionDuration : Duration
  BidDuration : Duration
  IncrementSurplus : Dec
  IncrementDebt : Dec
  IncrementCollateral : Dec
deriving DecidableEq, Repr

/-- A value passed as Go's empty interface to the parameter validators: a duration, a
decimal, or a value of any other dynamic type. -/
inductive ParamValue where
  | duration (d : Duration)
  | dec (d : Dec)
  | other
deriving DecidableEq, Repr

def validateBidDurationParam (i : ParamValue) : Option ValidationError :=
  match i with
  | .duration bidDuration =>
    if bidDuration < 0 then some (.negativeBidDuration bidDuration) else none
  | _ => some .invalidParameterType

def validateMaxAuctionDurationParam (i : ParamValue) : Option ValidationError :=
  match i with
  | .duration maxAuctionDuration =>
    if maxAuctionDuration < 0 then some (.negativeMaxAuctionDuration maxAuctionDuration)
    else none
  | _ => some .invalidParameterType

def validateIncrementSurplusParam (i : ParamValue) : Option ValidationError :=
  match i with
  | .dec incrementSurplus =>
    if incrementSurplus = emptyDec || incrementSurplus.IsNil then some .nilSurplusIncrement
    else if incrementSurplus.IsNegative then some (.negativeSurplusIncrement incrementSurplus)
    else none
  | _ => some .invalidParameterType

def validateIncrementDebtParam (i : ParamValue) : Option ValidationError :=
  match i with
  | .dec incrementDebt =>
    if incrementDebt = emptyDec || incrementDebt.IsNil then some .nilDebtIncrement
    else if incrementDebt.IsNegative then some (.negativeDebtIncrement incrementDebt)
    else none
  | _ => some .invalidParameterType

def validateIncrementCollateralParam (i : ParamValue) : Option ValidationError :=
  match i with
  | .dec incrementCollateral =>
    if incrementCollateral = emptyDec || incrementCollateral.IsNil then
      some .nilCollateralIncrement
    else if incrementCollateral.IsNegative then
      some (.negativeCollateralIncrement incrementCollateral)
    else none
  | _ => some .invalidParameterType

/-- Method `Validate` of `Params`: checks that the parameters have valid values. -/
def Params.Validate (p : Params) : Option ValidationError :=
  match validateBidDurationParam (.duration p.BidDuration) with
  | some err => some err
  | none =>
  match validateMaxAuctionDurationParam (.duration p.MaxAuctionDuration) with
  | some err => some err
  | none =>
  if p.BidDuration > p.MaxAuctionDuration then some .bidDurationTooLarge
  else
  match validateIncrementSurplusParam (.dec p.IncrementSurplus) with
  | some err => some err
  | none =>
  match validateIncrementDebtParam (.dec p.IncrementDebt) with
  | some err => some err
  | none => validateIncrementCollateralParam (.dec p.IncrementCollateral)

/-! ## Auction records -/

/-- Common type shared by all auctions. -/
structure BaseAuction where
  ID : Nat
  Initiator : String
  Lot : Coin
  Bidder : AccAddress
  Bid : Coin
  HasReceivedBids : Bool
  EndTime : Time
  MaxEndTime : Time
deriving DecidableEq, Repr

def BaseAuction.GetID (a : BaseAuction) : Nat := a.ID

/-- Method `Validate` of `BaseAuction`. The identifier is not inspected: it can be 0 for
surplus, debt and collateral auctions. -/
def BaseAuction.Validate (a : BaseAuction) : Option ValidationError :=
  if TrimSpace a.Initiator = "" then some .blankInitiator
  else if !a.Lot.IsValid then some (.invalidLot a.Lot)
  else if !a.Bidder.Empty && a.Bidder.length ≠ AddrLen then
    some (.bidderLength AddrLen a.Bidder.length)
  else if !a.Bid.IsValid then some (.invalidBid a.Bid)
  else if a.EndTime.IsZero || a.MaxEndTime.IsZero then some .zeroEndTime
  else if a.EndTime.After a.MaxEndTime then some (.endTimeAfterMax a.MaxEndTime a.EndTime)
  else none

/-- Addresses with associated weights. -/
structure WeightedAddresses where
  Addresses : List AccAddress
  Weights : List Int
deriving DecidableEq, Repr

/-- The loop of `WeightedAddresses.Validate` from index `i` on, over the addresses and
weights still to visit, with the total weight accumulated so far. It returns the error of
the first failing check, or the final total weight; `none` is the panic of `sdk.Int.Add`
when the total weight overflows. The loop runs after the check that both slices have the
same length, so the weight at each visited index exists. -/
def WeightedAddresses.validateLoop :
    List (AccAddress × Int) → Nat → Int → Option (Except ValidationError Int)
  | [], _, totalWeight => some (.ok totalWeight)
  | (address, weight) :: rest, i, totalWeight =>
    if address.Empty then some (.error (.emptyAddress i))
    else if address.length ≠ AddrLen then
      some (.error (.addressLength i AddrLen address.length))
    else if weight < 0 then some (.error (.negativeWeight i weight))
    else
      match sdkInt.Add totalWeight weight with
      | none => none
      | some totalWeight => WeightedAddresses.validateLoop rest (i + 1) totalWeight

/-- Method `Validate` of `WeightedAddresses`: the weights are not negative, not all zero,
and the lengths match. The result `some none` is the return of nil, `some (some err)` the
return of an error, and `none` the panic of `sdk.Int.Add` in the loop. -/
def WeightedAddresses.Validate (wa : WeightedAddresses) : Option (Option ValidationError) :=
  if wa.Weights.length < 1 then some (some .noWeightedAddress)
  else if wa.Addresses.length ≠ wa.Weights.length then
    some (some (.lengthMismatch wa.Addresses.length wa.Weights.length))
  else
    match WeightedAddresses.validateLoop (wa.Addresses.zip wa.Weights) 0 0 with
    | none => none
    | some (.error err) => some (some err)
    | some (.ok totalWeight) =>
      if !decide (0 < totalWeight) then some (some .totalWeightNotPositive) else some none

/-- Forward auction that burns what it receives from bids. -/
structure SurplusAuction extends BaseAuction
deriving DecidableEq, Repr

/-- Reverse auction that mints what it pays out. -/
structure DebtAuction extends BaseAuction where
  CorrespondingDebt : Coin
deriving DecidableEq, Repr

/-- Two phase auction: forward up to a maximum bid, then reverse. -/
structure CollateralAuction extends BaseAuction where
  CorrespondingDebt : Coin
  MaxBid : Coin
  LotReturns : WeightedAddresses
deriving DecidableEq, Repr

def SurplusAuction.WithID (a : SurplusAuction) (id : Nat) : SurplusAuction :=
  { a with ID := id }

def SurplusAuction.GetType (_a : SurplusAuction) : String := SurplusAuctionType

/-- Direction of a surplus auction, which never changes. -/
def SurplusAuction.GetPhase (_a : SurplusAuction) : String := ForwardAuctionPhase

/-- Method `Validate` of `SurplusAuction`, promoted from the embedded `BaseAuction`. -/
def SurplusAuction.Validate (a : SurplusAuction) : Option ValidationError :=
  a.toBaseAuction.Validate

/-- Constructor `NewSurplusAuction`. No result when `sdk.NewInt64Coin` panics. -/
def NewSurplusAuction (seller : String) (lot : Coin) (bidDenom : String) (endTime : Time) :
    Option SurplusAuction :=
  match NewInt64Coin bidDenom 0 with
  | none => none
  | some bid =>
    some { ID := 0
           Initiator := seller
           Lot := lot
           Bidder := []
           Bid := bid
           HasReceivedBids := false
           EndTime := endTime
           MaxEndTime := endTime }

def DebtAuction.WithID (a : DebtAuction) (id : Nat) : DebtAuction :=
  { a with ID := id }

def DebtAuction.GetType (_a : DebtAuction) : String := DebtAuctionType

/-- Direction of a debt auction, which never changes. -/
def DebtAuction.GetPhase (_a : DebtAuction) : String := ReverseAuctionPhase

/-- Method `Validate` of `DebtAuction`. -/
def DebtAuction.Validate (a : DebtAuction) : Option ValidationError :=
  if !a.CorrespondingDebt.IsValid then some (.invalidCorrespondingDebt a.CorrespondingDebt)
  else a.toBaseAuction.Validate

/-- Constructor `NewDebtAuction`. The address of a module account is computed outside this
package (`supply.NewModuleAddress`, a hash of the module name) and is taken as the
parameter `NewModuleAddress`. -/
def NewDebtAuction (NewModuleAddress : String → AccAddress) (buyerModAccName : String)
    (bid : Coin) (initialLot : Coin) (endTime : Time) (debt : Coin) : DebtAuction :=
  { ID := 0
    Initiator := buyerModAccName
    Lot := initialLot
    Bidder := NewModuleAddress buyerModAccName
    Bid := bid
    HasReceivedBids := false
    EndTime := endTime
    MaxEndTime := endTime
    CorrespondingDebt := debt }

def CollateralAuction.WithID (a : CollateralAuction) (id : Nat) : CollateralAuction :=
  { a with ID := id }

def CollateralAuction.GetType (_a : CollateralAuction) : String := CollateralAuctionType

/-- Method `IsReversePhase` of `CollateralAuction`: whether the auction has switched over to
reverse phase. No result when `sdk.Coin.IsEqual` panics. -/
def CollateralAuction.IsReversePhase (a : CollateralAuction) : Option Bool :=
  a.Bid.IsEqual a.MaxBid

/-- Direction of a collateral auction. -/
def CollateralAuction.GetPhase (a : CollateralAuction) : Option String :=
  match a.IsReversePhase with
  | none => none
  | some true => some ReverseAuctionPhase
  | some false => some ForwardAuctionPhase

def CollateralAuction.GetLotReturns (a : CollateralAuction) : WeightedAddresses :=
  a.LotReturns

/-- Method `Validate` of `CollateralAuction`. The result `some none` is the return of nil,
`some (some err)` the return of an error, and `none` the panic of `LotReturns.Validate`. -/
def CollateralAuction.Validate (a : CollateralAuction) : Option (Option ValidationError) :=
  if !a.CorrespondingDebt.IsValid then
    some (some (.invalidCorrespondingDebt a.CorrespondingDebt))
  else if !a.MaxBid.IsValid then some (some (.invalidMaxBid a.MaxBid))
  else
    match a.LotReturns.Validate with
    | none => none
    | some (some err) => some (some (.invalidLotReturns err))
    | some none => some a.toBaseAuction.Validate

/-- Constructor `NewCollateralAuction`. No result when `sdk.NewInt64Coin` panics. -/
def NewCollateralAuction (seller : String) (lot : Coin) (endTime : Time) (maxBid : Coin)
    (lotReturns : WeightedAddresses) (debt : Coin) : Option CollateralAuction :=
  match NewInt64Coin maxBid.Denom 0 with
  | none => none
  | some bid =>
    some { ID := 0
           Initiator := seller
           Lot := lot
           Bidder := []
           Bid := bid
           HasReceivedBids := false
           EndTime := endTime
           MaxEndTime := endTime
           CorrespondingDebt := debt
           MaxBid := maxBid
           LotReturns := lotReturns }

/-! ## Genesis state -/

/-- The auctions that can appear at genesis (interface `GenesisAuction`): the three
concrete auction types of the module. -/
inductive GenesisAuction where
  | surplus (a : SurplusAuction)
  | debt (a : DebtAuction)
  | collateral (a : CollateralAuction)
deriving DecidableEq, Repr

def GenesisAuction.GetID : GenesisAuction → Nat
  | .surplus a => a.GetID
  | .debt a => a.GetID
  | .collateral a => a.GetID

/-- Method `Validate` of a genesis auction. The result `some none` is the return of nil,
`some (some err)` the return of an error, and `none` a panic, which only the validation of
a collateral auction can raise. -/
def GenesisAuction.Validate : GenesisAuction → Option (Option ValidationError)
  | .surplus a => some a.Validate
  | .debt a => some a.Validate
  | .collateral a => a.Validate

/-- Method `WithID` of the three auction types: the auction with the ID set. -/
def GenesisAuction.WithID : GenesisAuction → Nat → GenesisAuction
  | .surplus a, id => .surplus (a.WithID id)
  | .debt a, id => .debt (a.WithID id)
  | .collateral a, id => .collateral (a.WithID id)

/-- Auction state that must be provided at chain genesis. -/
structure GenesisState where
  NextAuctionID : Nat
  Params : Params
  Auctions : List GenesisAuction
deriving DecidableEq, Repr

/-- The loop of `GenesisState.Validate` over the auctions still to visit; `ids` is the map
of the identifiers seen so far (a missing key reads as `false`). The loop panics (`none`)
when the validation of the auction it visits panics. -/
def GenesisState.validateLoop (NextAuctionID : Nat) :
    List GenesisAuction → (Nat → Bool) → Option (Option ValidationError)
  | [], _ => some none
  | a :: rest, ids =>
    match a.Validate with
    | none => none
    | some (some err) => some (some (.invalidAuction err))
    | some none =>
      if ids a.GetID then some (some (.duplicateAuctionID a.GetID))
      else
        let ids := Function.update ids a.GetID true
        if a.GetID ≥ NextAuctionID then some (some (.idNotBelowNext a.GetID NextAuctionID))
        else GenesisState.validateLoop NextAuctionID rest ids

/-- Method `Validate` of `GenesisState`: validates genesis inputs; it returns an error if
validation of any input fails. The result `some none` is the return of nil,
`some (some err)` the return of an error, and `none` a panic in the validation of an
auction. -/
def GenesisState.Validate (gs : GenesisState) : Option (Option ValidationError) :=
  match gs.Params.Validate with
  | some err => some (some err)
  | none => GenesisState.validateLoop gs.NextAuctionID gs.Auctions (fun _ => false)

/-! ## Defaults -/

/-- One hour, as a `time.Duration`. -/
def Hour : Duration := 3600 * 1000000000

/-- Maximum length of an auction: two days. -/
def DefaultMaxAuctionDuration : Duration := 2 * 24 * Hour

/-- How long an auction gets extended when someone bids: one hour. -/
def DefaultBidDuration : Duration := 1 * Hour

/-- The smallest percent change a new bid must have from the old one: the decimal `0.05`,
scaled by `10^18`. -/
def DefaultIncrement : Dec := ⟨some 50000000000000000⟩

def NewParams (maxAuctionDuration bidDuration : Duration)
    (incrementSurplus incrementDebt incrementCollateral : Dec) : Params :=
  { MaxAuctionDuration := maxAuctionDuration
    BidDuration := bidDuration
    IncrementSurplus := incrementSurplus
    IncrementDebt := incrementDebt
    IncrementCollateral := incrementCollateral }

def DefaultParams : Params :=
  NewParams DefaultMaxAuctionDuration DefaultBidDuration DefaultIncrement DefaultIncrement
    DefaultIncrement

def NewGenesisState (nextID : Nat) (ap : Params) (ga : List GenesisAuction) : GenesisState :=
  { NextAuctionID := nextID, Params := ap, Auctions := ga }

def DefaultGenesisState : GenesisState :=
  NewGenesisState DefaultNextAuctionID DefaultParams []

/-! ## Sample records -/

/-- An address of `AddrLen` bytes. -/
def sampleAddress : AccAddress := List.replicate 20 7

/-- A non-zero instant. -/
def sampleTime : Time := ⟨1600000000⟩

/-- The module address function used in the samples: every module name is sent to
`sampleAddress`. -/
def sampleModuleAddress (_name : String) : AccAddress := sampleAddress

/-- A surplus auction that passes validation and carries no identifier yet (ID 0). -/
def sampleSurplus : SurplusAuction :=
  { ID := 0
    Initiator := "cdp"
    Lot := ⟨"usdx", 100⟩
    Bidder := []
    Bid := ⟨"ukava", 0⟩
    HasReceivedBids := false
    EndTime := sampleTime
    MaxEndTime := sampleTime }

/-- A debt auction that passes validation. -/
def sampleDebt : DebtAuction :=
  { ID := 0
    Initiator := "cdp"
    Lot := ⟨"ukava", 1000⟩
    Bidder := sampleAddress
    Bid := ⟨"usdx", 50⟩
    HasReceivedBids := false
    EndTime := sampleTime
    MaxEndTime := sampleTime
    CorrespondingDebt := ⟨"debt", 50⟩ }

/-- Weighted addresses in which the same address occurs twice. -/
def sampleLotReturns : WeightedAddresses :=
  { Addresses := [sampleAddress, sampleAddress], Weights := [0, 1] }

/-- A collateral auction in forward phase that passes validation. -/
def sampleCollateral : CollateralAuction :=
  { ID := 0
    Initiator := "cdp"
    Lot := ⟨"bnb", 100⟩
    Bidder := []
    Bid := ⟨"usdx", 0⟩
    HasReceivedBids := false
    EndTime := sampleTime
    MaxEndTime := sampleTime
    CorrespondingDebt := ⟨"debt", 50⟩
    MaxBid := ⟨"usdx", 50⟩
    LotReturns := sampleLotReturns }

/-- A genesis state with the default counter 1 whose only auction has ID 0. -/
def genesisWithZeroID : GenesisState :=
  { NextAuctionID := 1, Params := DefaultParams, Auctions := [.surplus sampleSurplus] }

/-- A genesis state in which the auctions at positions 0 and 2 share the ID 1. -/
def genesisWithDuplicateID : GenesisState :=
  { NextAuctionID := 5
    Params := DefaultParams
    Auctions := [.surplus (sampleSurplus.WithID 1), .debt (sampleDebt.WithID 2),
      .collateral (sampleCollateral.WithID 1)] }

/-- A genesis state whose second auction has the ID 3, equal to the counter. -/
def genesisWithIDAtCounter : GenesisState :=
  { NextAuctionID := 3
    Params := DefaultParams
    Auctions := [.surplus (sampleSurplus.WithID 1), .debt (sampleDebt.WithID 3)] }

/-- A genesis state that passes validation. -/
def genesisValid : GenesisState :=
  { NextAuctionID := 3
    Params := DefaultParams
    Auctions := [.surplus (sampleSurplus.WithID 1), .collateral (sampleCollateral.WithID 2)] }

/-- Weighted addresses whose two weights, `2^255 - 1` and 1, are within the range of
`sdk.Int` while their sum `2^255` is not. -/
def overflowLotReturns : WeightedAddresses :=
  { Addresses := [sampleAddress, sampleAddress], Weights := [2 ^ 255 - 1, 1] }

/-- The sample collateral auction with the lot returns whose total weight overflows. -/
def sampleCollateralOverflow : CollateralAuction :=
  { sampleCollateral with LotReturns := overflowLotReturns }

/-- A genesis state with the counter 1 whose two auctions share the ID 1, the first being
the collateral auction whose total weight overflows. -/
def genesisWithOverflow : GenesisState :=
  { NextAuctionID := 1
    Params := DefaultParams
    Auctions := [.collateral (sampleCollateralOverflow.WithID 1),
      .surplus (sampleSurplus.WithID 1)] }

/-- A genesis state with the counter 0 whose only auction, of ID 0, is the collateral
auction whose total weight overflows. -/
def genesisWithOverflowZeroCounter : GenesisState :=
  { NextAuctionID := 0
    Params := DefaultParams
    Auctions := [.collateral sampleCollateralOverflow] }

/-- A maximum bid of amount zero. -/
def sampleZeroMaxBid : Coin := ⟨"usdx", 0⟩

/-- Parameters whose three increments are the decimal `2.0`, above 100 percent. -/
def sampleParamsLargeIncrement : Params :=
  NewParams DefaultMaxAuctionDuration DefaultBidDuration ⟨some 2000000000000000000⟩
    ⟨some 2000000000000000000⟩ ⟨some 2000000000000000000⟩

/-! ## Coin sets -/

/-- A set of coins (`sdk.Coins`): a slice of coins, kept sorted by denomination and without
zero coins by the SDK constructors. -/
abbrev Coins := List Coin

/-- Method `IsZero` of `sdk.Coin`. -/
def Coin.IsZero (coin : Coin) : Bool := coin.Amount == 0

/-- Method `IsPositive` of `sdk.Coin`. -/
def Coin.IsPositive (coin : Coin) : Bool := decide (0 < coin.Amount)

/-- Method `Add` of `sdk.Coin`: adds the amounts with `sdk.Int.Add`; panics when the
denominations differ or when the sum of the amounts leaves the range of `sdk.Int`. -/
def Coin.Add (coin coinB : Coin) : Option Coin :=
  if coin.Denom ≠ coinB.Denom then none
  else
    match sdkInt.Add coin.Amount coinB.Amount with
    | none => none
    | some amount => some ⟨coin.Denom, amount⟩

/-- SDK helper `removeZeroCoins`: drops the coins whose amount is zero. -/
def removeZeroCoins (coins : Coins) : Coins := coins.filter (fun coin => !coin.IsZero)

/-- Constructor `sdk.NewCoins` applied to one coin, which is how the module calls it. A zero
coin is removed and gives the empty set. Otherwise the set holds the coin, and the
constructor panics unless the coin has a valid denomination and a positive amount (sorting
and the search for a duplicate denomination do nothing on one coin). -/
def NewCoins (coin : Coin) : Option Coins :=
  let newCoins := removeZeroCoins [coin]
  if newCoins.length = 0 then some []
  else if !(ValidateDenom coin.Denom && coin.IsPositive) then none
  else some newCoins

/-- The steps of `safeAdd` while the current coin `coinA` of the first set stays the same:
the second set is consumed until a coin with a denomination not below that of `coinA`
turns up. `addRest` continues the merge with the coins after `coinA`. No result when
`coinA.Add(coinB)` panics. -/
def Coins.safeAddStep (coinA : Coin) (restA : Coins) (addRest : Coins → Option Coins) :
    Coins → Option Coins
  | [] => some (removeZeroCoins (coinA :: restA))
  | coinB :: restB =>
    match compare coinA.Denom coinB.Denom with
    | .lt =>
      match addRest (coinB :: restB) with
      | none => none
      | some sum => some ((if !coinA.IsZero then [coinA] else []) ++ sum)
    | .eq =>
      match coinA.Add coinB with
      | none => none
      | some res =>
        match addRest restB with
        | none => none
        | some sum => some ((if !res.IsZero then [res] else []) ++ sum)
    | .gt =>
      match Coins.safeAddStep coinA restA addRest restB with
      | none => none
      | some sum => some ((if !coinB.IsZero then [coinB] else []) ++ sum)

/-- SDK helper `safeAdd` behind `sdk.Coins.Add`: merges two sorted sets by denomination,
adds the amounts of a denomination present in both with `coinA.Add(coinB)`, and leaves out
zero coins. No result when an addition of amounts panics. -/
def Coins.safeAdd : Coins → Coins → Option Coins
  | [], coinsB => some (removeZeroCoins coinsB)
  | coinA :: restA, coinsB => Coins.safeAddStep coinA restA (Coins.safeAdd restA) coinsB

/-- Method `Add` of `sdk.Coins`. -/
def Coins.Add (coins coinsB : Coins) : Option Coins := coins.safeAdd coinsB

/-- Method `GetModuleAccountCoins` of `SurplusAuction`: the coins held in the module account
for this auction. The bid is paid out on bids, so is never stored in the module account. No
result when `sdk.NewCoins` panics. -/
def SurplusAuction.GetModuleAccountCoins (a : SurplusAuction) : Option Coins :=
  NewCoins a.Lot

/-- Method `GetModuleAccountCoins` of `DebtAuction`. The lot is minted at auction close and
the bid is paid out on bids, so neither is stored in the module account. -/
def DebtAuction.GetModuleAccountCoins (a : DebtAuction) : Option Coins :=
  NewCoins a.CorrespondingDebt

/-- Method `GetModuleAccountCoins` of `CollateralAuction`:
`sdk.NewCoins(a.Lot).Add(sdk.NewCoins(a.CorrespondingDebt)...)`. No result when a
constructor or the addition panics. -/
def CollateralAuction.GetModuleAccountCoins (a : CollateralAuction) : Option Coins :=
  match NewCoins a.Lot with
  | none => none
  | some lot =>
    match NewCoins a.CorrespondingDebt with
    | none => none
    | some debt => lot.Add debt

/-- A collateral auction whose lot and corresponding debt have the same denomination. -/
def sampleCollateralSameDenom : CollateralAuction :=
  { sampleCollateral with Lot := ⟨"usdx", 100⟩, CorrespondingDebt := ⟨"usdx", 50⟩ }

/-- A collateral auction whose lot and corresponding debt have the same denomination and
amounts that add up to `2^255`, one more than the largest `sdk.Int`. -/
def sampleCollateralAmountOverflow : CollateralAuction :=
  { sampleCollateral with Lot := ⟨"usdx", 2 ^ 255 - 1⟩, CorrespondingDebt := ⟨"usdx", 1⟩ }

/-! ## Library functions used by the incentive keeper -/

/-- Constructor `sdk.NewCoin`: panics when the denomination is invalid or the amount is
negative. -/
def NewCoin (denom : String) (amount : Int) : Option Coin :=
  if ValidateDenom denom && !decide (amount < 0) then some ⟨denom, amount⟩ else none

/-- Largest value of the `int64` type `time.Duration`. -/
def maxDuration : Duration := 9223372036854775807

/-- Smallest value of the `int64` type `time.Duration`. -/
def minDuration : Duration := -9223372036854775808

/-- Method `Before` of `time.Time`. -/
def Time.Before (t u : Time) : Bool := decide (t.ns < u.ns)

/-- Method `Equal` of `time.Time`. -/
def Time.Equal (t u : Time) : Bool := decide (t.ns = u.ns)

/-- Method `Sub` of `time.Time`: the duration `t - u`. If the difference does not fit the
`int64` of a duration, the smallest or the largest duration is returned. -/
def Time.Sub (t u : Time) : Duration :=
  let d := t.ns - u.ns
  if minDuration ≤ d ∧ d ≤ maxDuration then d
  else if t.Before u then minDuration
  else maxDuration

/-- Rounding of a rational number to the nearest integer, halves going to the even
neighbour. -/
def roundHalfEven (q : ℚ) : Int :=
  let f := ⌊q⌋
  let r := q - f
  if r < 1 / 2 then f
  else if 1 / 2 < r then f + 1
  else if f % 2 = 0 then f
  else f + 1

/-- The `float64` nearest to a real number, for a number in the range of the normal
`float64` values: the number is rounded to 53 significant binary digits, halves going to
the even neighbour. A finite `float64` is embedded as the rational number it stands for. -/
def float64 (q : ℚ) : ℚ :=
  if q = 0 then 0
  else
    let ulp : ℚ := 2 ^ (Int.log 2 |q| - 52)
    (roundHalfEven (q / ulp) : ℚ) * ulp

/-- Method `Seconds` of `time.Duration`: the duration as a floating point number of seconds,
computed as `float64(sec) + float64(nsec) / 1e9` from the truncated quotient and remainder
of the division by a second. -/
def Duration.Seconds (d : Duration) : ℚ :=
  let sec := Int.tdiv d 1000000000
  let nsec := Int.tmod d 1000000000
  float64 (float64 (sec : ℚ) + float64 (float64 (nsec : ℚ) / 1000000000))

/-- Function `math.RoundToEven`: the nearest integer, halves going to the even neighbour.
The result is an integer below `2^53` in absolute value for every argument met here, so it
is a `float64`. -/
def RoundToEven (x : ℚ) : ℚ := (roundHalfEven x : ℚ)

/-- Conversion `int64(x)` of a `float64` within the range of `int64`: the fraction is
discarded. -/
def int64 (x : ℚ) : Int := if 0 ≤ x then ⌊x⌋ else ⌈x⌉

/-- The binary search of `sdk.Coins.AmountOf`, with a bound on the number of halvings. A
set of no coin gives 0; a set of one coin gives the amount of the coin if it has the
denomination, 0 otherwise; a longer set is searched in the half before or after its middle
coin, unless that coin has the denomination. -/
def Coins.amountOfSearch (denom : String) : Nat → Coins → Int
  | 0, _ => 0
  | fuel + 1, coins =>
    match coins with
    | [] => 0
    | [coin] => if coin.Denom = denom then coin.Amount else 0
    | _ =>
      let midIdx := coins.length / 2
      match coins[midIdx]? with
      | none => 0
      | some coin =>
        if denom < coin.Denom then Coins.amountOfSearch denom fuel (coins.take midIdx)
        else if denom = coin.Denom then coin.Amount
        else Coins.amountOfSearch denom fuel (coins.drop (midIdx + 1))

/-- Method `AmountOf` of `sdk.Coins`: the amount of a denomination in a sorted set, found
by binary search; panics when the denomination is invalid. Each step of the search drops at
least the middle coin, so the length of the set bounds the number of steps. -/
def Coins.AmountOf (coins : Coins) (denom : String) : Option Int :=
  if ValidateDenom denom then some (Coins.amountOfSearch denom coins.length coins) else none

/-- Method `Unix` of `time.Time`: the number of whole seconds elapsed since January 1, 1970
UTC, which is 62135596800 seconds after the zero time. An instant within a second counts
for the start of that second. -/
def Time.Unix (t : Time) : Int := t.ns / 1000000000 - 62135596800

end v0_13

namespace keeper

open v0_13 (Time Duration Coin Coins AccAddress NewCoin RoundToEven int64 BitLen maxBitLen
  sdkInt.Mul)

/-!
# Incentive keeper: accumulation and synchronisation of USDX minting rewards

Shallow embedding of `x/incentive/keeper/rewards.go`.

Conventions of the embedding, in addition to those of the auction module
* A keeper method reads and writes the store reached through its `sdk.Context`; it is
  embedded as a function from the context before the call to the context after it. A method
  that can panic returns an `Option`; `none` is the panic.
* Every `sdk.Dec` met by the keeper is initialised (it is decoded from the store or built by
  the SDK), so a decimal is embedded as its value scaled by `10^18`. The SDK lets the scaled
  result of an operation have at most `255 + 60` bits and panics otherwise; the operations
  `Add`, `Sub`, `Mul`, `Quo` and `RoundInt` are embedded with these checks.
* The types of the `types` packages and the store accessors of `keeper.go` are not among the
  sources; they are embedded from their use in `rewards.go` and in the tests.
-/

/-! ## Decimals -/

/-- An initialised fixed-point decimal (`sdk.Dec`): the integer `i` stands for the decimal
`i / 10^18`. -/
structure Dec where
  i : Int
deriving DecidableEq, Repr

/-- The scale of a decimal, `10^18` (SDK variable `precisionReuse`). -/
def precisionReuse : Int := 1000000000000000000

/-- Half of the scale (SDK variable `fivePrecision`). -/
def fivePrecision : Int := 500000000000000000

/-- SDK helper `chopPrecisionAndRound`: divides a scaled value by `10^18` and rounds the
result to the nearest integer, halves going to the even neighbour. A negative value is
negated, rounded, and negated back. -/
def chopPrecisionAndRound (d : Int) : Int :=
  let chop := fun (x : Int) =>
    let quo := Int.tdiv x precisionReuse
    let rem := Int.tmod x precisionReuse
    if rem = 0 then quo
    else if rem < fivePrecision then quo
    else if rem > fivePrecision then quo + 1
    else if quo % 2 = 0 then quo
    else quo + 1
  if d < 0 then -(chop (-d)) else chop d

/-- Constructor `sdk.ZeroDec`. -/
def ZeroDec : Dec := ⟨0⟩

/-- Method `ToDec` of `sdk.Int`: the integer as a decimal. -/
def ToDec (i : Int) : Dec := ⟨i * precisionReuse⟩

/-- Method `IsZero` of `sdk.Dec`. -/
def Dec.IsZero (d : Dec) : Bool := d.i == 0

/-- Number of bits that hold the decimal places of a decimal (SDK constant
`DecimalPrecisionBits`): a scaled value may have up to `255 + 60` bits. -/
def DecimalPrecisionBits : Nat := 60

/-- Method `Add` of `sdk.Dec`: panics when the scaled sum has more than `255 + 60` bits. -/
def Dec.Add (d d2 : Dec) : Option Dec :=
  let res := d.i + d2.i
  if BitLen res > 255 + DecimalPrecisionBits then none else some ⟨res⟩

/-- Method `Sub` of `sdk.Dec`: panics when the scaled difference has more than `255 + 60`
bits. -/
def Dec.Sub (d d2 : Dec) : Option Dec :=
  let res := d.i - d2.i
  if BitLen res > 255 + DecimalPrecisionBits then none else some ⟨res⟩

/-- Method `Mul` of `sdk.Dec`: the product of the scaled values, chopped and rounded; panics
when the result has more than `255 + 60` bits. -/
def Dec.Mul (d d2 : Dec) : Option Dec :=
  let mul := d.i * d2.i
  let chopped := chopPrecisionAndRound mul
  if BitLen chopped > 255 + DecimalPrecisionBits then none else some ⟨chopped⟩

/-- Method `Quo` of `sdk.Dec`: the scaled value of `d` is multiplied by the scale twice,
divided by the scaled value of `d2` with truncation, then chopped and rounded. The division
panics when `d2` is zero, and the method panics when the result has more than `255 + 60`
bits. -/
def Dec.Quo (d d2 : Dec) : Option Dec :=
  if d2.i = 0 then none
  else
    let mul := d.i * precisionReuse * precisionReuse
    let quo := Int.tdiv mul d2.i
    let chopped := chopPrecisionAndRound quo
    if BitLen chopped > 255 + DecimalPrecisionBits then none else some ⟨chopped⟩

/-- Method `RoundInt` of `sdk.Dec`: the decimal rounded to the nearest integer, halves going
to the even neighbour. The result is built by `sdk.NewIntFromBigInt`, which panics when it
has more than 255 bits. -/
def Dec.RoundInt (d : Dec) : Option Int :=
  let chopped := chopPrecisionAndRound d.i
  if BitLen chopped > maxBitLen then none else some chopped

/-! ## Types of the incentive and cdp modules -/

/-- Modelled from the spec: constant `types.USDXMintingRewardDenom`, declared outside the
sources: the denomination of the rewards for minting USDX, a valid denomination. -/
def USDXMintingRewardDenom : String := "ukava"

/-- Modelled from the spec: constant `types.PrincipalDenom`, declared outside the sources: the
denomination of the principal of a CDP. -/
def PrincipalDenom : String := "usdx"

/-- Modelled from the spec: type `types.RewardPeriod`, declared outside the sources: the
period over which rewards are paid for one collateral type. `rewards.go` reads its fields
`CollateralType`, `End` and `RewardsPerSecond`. -/
structure RewardPeriod where
  Active : Bool
  CollateralType : String
  Start : Time
  End : Time
  RewardsPerSecond : Coin
deriving DecidableEq, Repr

/-- Modelled from the spec: type `types.RewardIndex`, declared outside the sources: the global
or per-claim reward factor of one collateral type. -/
structure RewardIndex where
  CollateralType : String
  RewardFactor : Dec
deriving DecidableEq, Repr

/-- Modelled from the spec: constructor `types.NewRewardIndex`, declared outside the
sources. -/
def NewRewardIndex (collateralType : String) (factor : Dec) : RewardIndex :=
  { CollateralType := collateralType, RewardFactor := factor }

/-- Modelled from the spec: type `types.RewardIndexes`, declared outside the sources: a slice
of reward indexes. -/
abbrev RewardIndexes := List RewardIndex

/-- Modelled from the spec: type `types.USDXMintingClaim`, declared outside the sources: a
claim on the rewards for minting USDX, with the fields `Owner` and `Reward` of its embedded
`BaseClaim` (see the test `TestGetSetDeleteUSDXMintingClaim`). -/
structure USDXMintingClaim where
  Owner : AccAddress
  Reward : Coin
  RewardIndexes : RewardIndexes
deriving DecidableEq, Repr

/-- Modelled from the spec: constructor `types.NewUSDXMintingClaim`, declared outside the
sources. -/
def NewUSDXMintingClaim (owner : AccAddress) (reward : Coin) (rewardIndexes : RewardIndexes) :
    USDXMintingClaim :=
  { Owner := owner, Reward := reward, RewardIndexes := rewardIndexes }

/-- The loop of `HasRewardIndex` from position `index` on: the position of the first reward
index for the collateral type, if there is one. -/
def hasRewardIndexLoop (collateralType : String) : List RewardIndex → Nat → Nat × Bool
  | [], _ => (0, false)
  | ri :: rest, index =>
    if ri.CollateralType = collateralType then (index, true)
    else hasRewardIndexLoop collateralType rest (index + 1)

/-- Modelled from the spec: method `HasRewardIndex` of `types.USDXMintingClaim`, declared
outside the sources. From its use in `rewards.go`: it reports whether the claim has a reward
index for the collateral type, and the position of the first such index. -/
def USDXMintingClaim.HasRewardIndex (c : USDXMintingClaim) (collateralType : String) :
    Nat × Bool :=
  hasRewardIndexLoop collateralType c.RewardIndexes 0

/-- Modelled from the spec: type `cdptypes.CDP`, declared outside the sources: a
collateralised debt position, with its fields in the order of the literals of
`cdp_test.go`. The field `Type_` is the field `Type` of the source, the collateral type of
the position. -/
structure CDP where
  ID : Nat
  Owner : AccAddress
  Type_ : String
  Collateral : Coin
  Principal : Coin
  AccumulatedFees : Coin
  FeesUpdated : Time
  InterestFactor : Dec
deriving DecidableEq, Repr

/-- Modelled from the spec: method `GetTotalPrincipal` of `cdptypes.CDP`, declared outside
the sources. By the test `TestCdpGetTotalPrinciple` it is `Principal.Add(AccumulatedFees)`,
which panics when the two denominations differ or the sum of the amounts leaves the range
of `sdk.Int`. -/
def CDP.GetTotalPrincipal (cdp : CDP) : Option Coin := cdp.Principal.Add cdp.AccumulatedFees

/-! ## Store -/

/-- Modelled from the spec: the part of the state behind an `sdk.Context` that the reward
functions read or write, reached in the source through store accessors declared outside the
sources:
the block time, the reward periods of the parameters, the accrual times, the global reward
factors and the claims of the incentive store, and the total principal kept by the cdp
keeper. The store keeps each claim under the address of its owner, so a stored claim is
held as its reward and reward indexes; a stored hard liquidity provider claim is held as
its reward and its supply, borrow and delegator reward indexes. -/
structure Context where
  blockTime : Time
  rewardPeriods : String → Option RewardPeriod
  previousUSDXMintingAccrualTime : String → Option Time
  usdxMintingRewardFactor : String → Option Dec
  usdxMintingClaim : AccAddress → Option (Coin × RewardIndexes)
  totalPrincipal : String → String → Int
  hardBorrowRewardFactor : String → Option Dec
  hardLiquidityProviderClaim :
    AccAddress → Option (Coin × RewardIndexes × RewardIndexes × RewardIndexes)

/-- Method `BlockTime` of `sdk.Context`. -/
def Context.BlockTime (ctx : Context) : Time := ctx.blockTime

/-- Modelled from the spec: keeper method `GetRewardPeriod`, declared outside the sources:
the reward period of a collateral type, if the type is incentivised. -/
def GetRewardPeriod (ctx : Context) (collateralType : String) : Option RewardPeriod :=
  ctx.rewardPeriods collateralType

/-- Modelled from the spec: keeper method `GetPreviousUSDXMintingAccrualTime`, declared
outside the sources: the stored accrual time of a collateral type, if any. -/
def GetPreviousUSDXMintingAccrualTime (ctx : Context) (ctype : String) : Option Time :=
  ctx.previousUSDXMintingAccrualTime ctype

/-- Modelled from the spec: keeper method `SetPreviousUSDXMintingAccrualTime`, declared
outside the sources: stores the accrual time of a collateral type. -/
def SetPreviousUSDXMintingAccrualTime (ctx : Context) (ctype : String) (blockTime : Time) :
    Context :=
  { ctx with
    previousUSDXMintingAccrualTime :=
      Function.update ctx.previousUSDXMintingAccrualTime ctype (some blockTime) }

/-- Modelled from the spec: keeper method `GetUSDXMintingRewardFactor`, declared outside the
sources: the stored global reward factor of a collateral type, if any. -/
def GetUSDXMintingRewardFactor (ctx : Context) (ctype : String) : Option Dec :=
  ctx.usdxMintingRewardFactor ctype

/-- Modelled from the spec: keeper method `SetUSDXMintingRewardFactor`, declared outside the
sources: stores the global reward factor of a collateral type. -/
def SetUSDXMintingRewardFactor (ctx : Context) (ctype : String) (factor : Dec) : Context :=
  { ctx with
    usdxMintingRewardFactor := Function.update ctx.usdxMintingRewardFactor ctype (some factor) }

/-- Modelled from the spec: keeper method `GetUSDXMintingClaim`, declared outside the
sources: the claim stored under the address of an owner, if any (see the test
`TestGetSetDeleteUSDXMintingClaim`). -/
def GetUSDXMintingClaim (ctx : Context) (owner : AccAddress) : Option USDXMintingClaim :=
  (ctx.usdxMintingClaim owner).map fun stored => NewUSDXMintingClaim owner stored.1 stored.2

/-- Modelled from the spec: keeper method `SetUSDXMintingClaim`, declared outside the
sources: stores the claim under the address of its owner. -/
def SetUSDXMintingClaim (ctx : Context) (c : USDXMintingClaim) : Context :=
  { ctx with
    usdxMintingClaim :=
      Function.update ctx.usdxMintingClaim c.Owner (some (c.Reward, c.RewardIndexes)) }

/-- Modelled from the spec: method `GetTotalPrincipal` of the cdp keeper, declared outside
the sources: the total principal of the CDPs of a collateral type, in a principal
denomination. -/
def GetTotalPrincipal (ctx : Context) (collateralType principalDenom : String) : Int :=
  ctx.totalPrincipal collateralType principalDenom

/-! ## Reward functions -/

/-- Function `CalculateTimeElapsed`: the number of reward-eligible seconds that have passed
since the previous time rewards were accrued, taking into account the end time of the reward
period. -/
def CalculateTimeElapsed (rewardPeriod : RewardPeriod) (blockTime : Time)
    (previousAccrualTime : Time) : Int :=
  if rewardPeriod.End.Before blockTime &&
      (rewardPeriod.End.Before previousAccrualTime ||
        rewardPeriod.End.Equal previousAccrualTime) then
    0
  else if rewardPeriod.End.Before blockTime then
    int64 (RoundToEven (rewardPeriod.End.Sub previousAccrualTime).Seconds)
  else
    int64 (RoundToEven (blockTime.Sub previousAccrualTime).Seconds)

/-- Keeper method `AccumulateUSDXMintingRewards`: updates the rewards accumulated for the
input reward period. The result is the context after the call and the returned error; there
is no result when `sdk.Int.Mul`, `sdk.Dec.Quo` or `sdk.Dec.Add` panics. -/
def AccumulateUSDXMintingRewards (ctx : Context) (rewardPeriod : RewardPeriod) :
    Option (Context × Option String) :=
  match GetPreviousUSDXMintingAccrualTime ctx rewardPeriod.CollateralType with
  | none =>
    some (SetPreviousUSDXMintingAccrualTime ctx rewardPeriod.CollateralType ctx.BlockTime,
      none)
  | some previousAccrualTime =>
    let timeElapsed := CalculateTimeElapsed rewardPeriod ctx.BlockTime previousAccrualTime
    if timeElapsed = 0 then some (ctx, none)
    else if rewardPeriod.RewardsPerSecond.Amount = 0 then
      some (SetPreviousUSDXMintingAccrualTime ctx rewardPeriod.CollateralType ctx.BlockTime,
        none)
    else
      let totalPrincipal :=
        ToDec (GetTotalPrincipal ctx rewardPeriod.CollateralType PrincipalDenom)
      if totalPrincipal.IsZero then
        some (SetPreviousUSDXMintingAccrualTime ctx rewardPeriod.CollateralType ctx.BlockTime,
          none)
      else
        match sdkInt.Mul timeElapsed rewardPeriod.RewardsPerSecond.Amount with
        | none => none
        | some newRewards =>
          match (ToDec newRewards).Quo totalPrincipal with
          | none => none
          | some rewardFactor =>
            let previousRewardFactor :=
              match GetUSDXMintingRewardFactor ctx rewardPeriod.CollateralType with
              | some factor => factor
              | none => ZeroDec
            match previousRewardFactor.Add rewardFactor with
            | none => none
            | some newRewardFactor =>
              let ctx :=
                SetUSDXMintingRewardFactor ctx rewardPeriod.CollateralType newRewardFactor
              let ctx :=
                SetPreviousUSDXMintingAccrualTime ctx rewardPeriod.CollateralType ctx.BlockTime
              some (ctx, none)

/-- Keeper method `InitializeUSDXMintingClaim`: creates or updates a claim such that no new
rewards are accrued, but any existing rewards are not lost. -/
def InitializeUSDXMintingClaim (ctx : Context) (cdp : CDP) : Option Context :=
  match GetRewardPeriod ctx cdp.Type_ with
  | none => some ctx
  | some _ =>
    let rewardFactor :=
      match GetUSDXMintingRewardFactor ctx cdp.Type_ with
      | some factor => factor
      | none => ZeroDec
    match GetUSDXMintingClaim ctx cdp.Owner with
    | none =>
      match NewCoin USDXMintingRewardDenom 0 with
      | none => none
      | some reward =>
        let claim :=
          NewUSDXMintingClaim cdp.Owner reward [NewRewardIndex cdp.Type_ rewardFactor]
        some (SetUSDXMintingClaim ctx claim)
    | some claim =>
      let (index, hasRewardIndex) := claim.HasRewardIndex cdp.Type_
      if !hasRewardIndex then
        let claim :=
          { claim with
            RewardIndexes := claim.RewardIndexes ++ [NewRewardIndex cdp.Type_ rewardFactor] }
        some (SetUSDXMintingClaim ctx claim)
      else
        let claim :=
          { claim with
            RewardIndexes :=
              claim.RewardIndexes.set index (NewRewardIndex cdp.Type_ rewardFactor) }
        some (SetUSDXMintingClaim ctx claim)

/-- Keeper method `SynchronizeUSDXMintingReward`: updates the claim object by adding any
accumulated rewards and updating the reward index value. -/
def SynchronizeUSDXMintingReward (ctx : Context) (cdp : CDP) : Option Context :=
  match GetRewardPeriod ctx cdp.Type_ with
  | none => some ctx
  | some _ =>
    let globalRewardFactor :=
      match GetUSDXMintingRewardFactor ctx cdp.Type_ with
      | some factor => factor
      | none => ZeroDec
    match GetUSDXMintingClaim ctx cdp.Owner with
    | none =>
      match NewCoin USDXMintingRewardDenom 0 with
      | none => none
      | some reward =>
        let claim :=
          NewUSDXMintingClaim cdp.Owner reward [NewRewardIndex cdp.Type_ globalRewardFactor]
        some (SetUSDXMintingClaim ctx claim)
    | some claim =>
      let (index, hasRewardIndex) := claim.HasRewardIndex cdp.Type_
      if !hasRewardIndex then
        let claim :=
          { claim with
            RewardIndexes :=
              claim.RewardIndexes ++ [NewRewardIndex cdp.Type_ globalRewardFactor] }
        some (SetUSDXMintingClaim ctx claim)
      else
        match claim.RewardIndexes[index]? with
        | none => none
        | some userRewardIndex =>
          let userRewardFactor := userRewardIndex.RewardFactor
          match globalRewardFactor.Sub userRewardFactor with
          | none => none
          | some rewardsAccumulatedFactor =>
            if rewardsAccumulatedFactor.IsZero then some ctx
            else
              let claim :=
                { claim with
                  RewardIndexes :=
                    claim.RewardIndexes.set index
                      { userRewardIndex with RewardFactor := globalRewardFactor } }
              match cdp.GetTotalPrincipal with
              | none => none
              | some totalPrincipal =>
                match rewardsAccumulatedFactor.Mul (ToDec totalPrincipal.Amount) with
                | none => none
                | some product =>
                  match product.RoundInt with
                  | none => none
                  | some newRewardsAmount =>
                    if newRewardsAmount = 0 then some (SetUSDXMintingClaim ctx claim)
                    else
                      match NewCoin USDXMintingRewardDenom newRewardsAmount with
                      | none => none
                      | some newRewardsCoin =>
                        match claim.Reward.Add newRewardsCoin with
                        | none => none
                        | some reward =>
                          let claim := { claim with Reward := reward }
                          some (SetUSDXMintingClaim ctx claim)

/-! ## Sample values -/

/-- The zero time of Go, January 1, year 1. -/
def zeroTime : Time := ⟨0⟩

/-- The instant 2021-01-01 00:00:00 UTC, 63745056000 seconds after the zero time. -/
def sampleBlockTime : Time := ⟨63745056000000000000⟩

/-- A reward period for the collateral type `bnb-a` that ends on 2022-01-01 00:00:00 UTC and
pays `100 ukava` per second. -/
def sampleRewardPeriod : RewardPeriod :=
  { Active := true
    CollateralType := "bnb-a"
    Start := ⟨63713520000000000000⟩
    End := ⟨63776592000000000000⟩
    RewardsPerSecond := ⟨"ukava", 100⟩ }

/-- A reward period as `sampleRewardPeriod` that pays `2^254 ukava` per second, an amount of
255 bits. -/
def sampleOverflowRewardPeriod : RewardPeriod :=
  { sampleRewardPeriod with RewardsPerSecond := ⟨"ukava", 2 ^ 254⟩ }

/-- A reward period for `bnb-a` that ended five seconds before `sampleBlockTime`. -/
def sampleEndedRewardPeriod : RewardPeriod :=
  { sampleRewardPeriod with End := ⟨63745055995000000000⟩ }

/-- An accrual time ten seconds before `sampleBlockTime`. -/
def samplePreviousAccrualTime : Time := ⟨63745055990000000000⟩

/-- Position of the first reward index for a collateral type in a list, counted from the
head of the list. It is used to state what `HasRewardIndex` returns. -/
def firstRewardIndex (collateralType : String) : List RewardIndex → Option Nat
  | [] => none
  | ri :: rest =>
    if ri.CollateralType = collateralType then some 0
    else (firstRewardIndex collateralType rest).map (· + 1)

/-- An owner of a CDP, with an address of 20 bytes. -/
def sampleOwner : AccAddress := List.replicate 20 1

/-- A CDP of type `bnb-a` with the principal `1000000 usdx` and the fees `500 usdx`. -/
def sampleCDP : CDP :=
  { ID := 1
    Owner := sampleOwner
    Type_ := "bnb-a"
    Collateral := ⟨"bnb", 100000⟩
    Principal := ⟨"usdx", 1000000⟩
    AccumulatedFees := ⟨"usdx", 500⟩
    FeesUpdated := sampleBlockTime
    InterestFactor := ⟨1000000000000000000⟩ }

/-- A context at `sampleBlockTime` in which only `bnb-a` is incentivised: its previous
accrual was ten seconds ago, its global reward factor is `2.0`, the total principal of its
CDPs is `1000000 usdx`, and the sample owner has a claim of `7 ukava` with the reward
indexes `xrp-a` at `0.5` and `bnb-a` at `1.5`. No borrow reward factor and no hard liquidity
provider claim is stored. -/
def sampleContext : Context :=
  { blockTime := sampleBlockTime
    rewardPeriods := fun ctype => if ctype = "bnb-a" then some sampleRewardPeriod else none
    previousUSDXMintingAccrualTime := fun ctype =>
      if ctype = "bnb-a" then some samplePreviousAccrualTime else none
    usdxMintingRewardFactor := fun ctype =>
      if ctype = "bnb-a" then some ⟨2000000000000000000⟩ else none
    usdxMintingClaim := fun owner =>
      if owner = sampleOwner then
        some (⟨"ukava", 7⟩,
          [NewRewardIndex "xrp-a" ⟨500000000000000000⟩,
            NewRewardIndex "bnb-a" ⟨1500000000000000000⟩])
      else none
    totalPrincipal := fun ctype denom =>
      if ctype = "bnb-a" ∧ denom = "usdx" then 1000000 else 0
    hardBorrowRewardFactor := fun _ => none
    hardLiquidityProviderClaim := fun _ => none }

/-! ## Hard liquidity provider rewards, borrow side -/

/-- Modelled from the spec: constant `types.HardLiquidityRewardDenom`, declared outside the
sources: the denomination in which hard liquidity rewards are paid. -/
def HardLiquidityRewardDenom : String := "hard"

/-- Modelled from the spec: type `hardtypes.Borrow`, declared outside the sources: the coins
borrowed by an address, with the interest factor of each borrowed denomination. -/
structure Borrow where
  Borrower : AccAddress
  Amount : Coins
  Index : List (String × Dec)
deriving DecidableEq, Repr

/-- Modelled from the spec: type `types.HardLiquidityProviderClaim`, declared outside the
sources: the owner and the reward of the claim, and its supply, borrow and delegator reward
indexes, in the order of the arguments of `NewHardLiquidityProviderClaim` in `rewards.go`. -/
structure HardLiquidityProviderClaim where
  Owner : AccAddress
  Reward : Coin
  SupplyRewardIndexes : RewardIndexes
  BorrowRewardIndexes : RewardIndexes
  DelegatorRewardIndexes : RewardIndexes
deriving DecidableEq, Repr

/-- Modelled from the spec: constructor `types.NewHardLiquidityProviderClaim`, declared
outside the sources. -/
def NewHardLiquidityProviderClaim (owner : AccAddress) (reward : Coin)
    (supplyRewardIndexes borrowRewardIndexes delegatorRewardIndexes : RewardIndexes) :
    HardLiquidityProviderClaim :=
  { Owner := owner
    Reward := reward
    SupplyRewardIndexes := supplyRewardIndexes
    BorrowRewardIndexes := borrowRewardIndexes
    DelegatorRewardIndexes := delegatorRewardIndexes }

/-- Modelled from the spec: method `HasBorrowRewardIndex` of
`types.HardLiquidityProviderClaim`, declared outside the sources. From its use in
`rewards.go`: it reports whether the claim has a borrow reward index for the denomination,
and the position of the first such index (0 when there is none). -/
def HardLiquidityProviderClaim.HasBorrowRewardIndex (c : HardLiquidityProviderClaim)
    (denom : String) : Nat × Bool :=
  hasRewardIndexLoop denom c.BorrowRewardIndexes 0

/-- Modelled from the spec: keeper method `GetHardBorrowRewardFactor`, declared outside the
sources: the stored borrow reward factor of a denomination, if any. -/
def GetHardBorrowRewardFactor (ctx : Context) (denom : String) : Option Dec :=
  ctx.hardBorrowRewardFactor denom

/-- Modelled from the spec: keeper method `GetHardLiquidityProviderClaim`, declared outside
the sources: the hard liquidity provider claim stored under the address of an owner, if
any. -/
def GetHardLiquidityProviderClaim (ctx : Context) (owner : AccAddress) :
    Option HardLiquidityProviderClaim :=
  (ctx.hardLiquidityProviderClaim owner).map fun stored =>
    NewHardLiquidityProviderClaim owner stored.1 stored.2.1 stored.2.2.1 stored.2.2.2

/-- Modelled from the spec: keeper method `SetHardLiquidityProviderClaim`, declared outside
the sources: stores the claim under the address of its owner. -/
def SetHardLiquidityProviderClaim (ctx : Context) (c : HardLiquidityProviderClaim) :
    Context :=
  { ctx with
    hardLiquidityProviderClaim :=
      Function.update ctx.hardLiquidityProviderClaim c.Owner
        (some (c.Reward, c.SupplyRewardIndexes, c.BorrowRewardIndexes,
          c.DelegatorRewardIndexes)) }

/-- Keeper method `InitializeHardLiquidityBorrowReward`: initializes the borrow-side of a
hard liquidity provider claim by creating the claim and setting the borrow reward factor
index. -/
def InitializeHardLiquidityBorrowReward (ctx : Context) (borrow : Borrow) (denom : String) :
    Option Context :=
  match GetRewardPeriod ctx denom with
  | none => some ctx
  | some _ =>
    let borrowFactor :=
      match GetHardBorrowRewardFactor ctx denom with
      | some factor => factor
      | none => ZeroDec
    match GetHardLiquidityProviderClaim ctx borrow.Borrower with
    | none =>
      match NewCoin HardLiquidityRewardDenom 0 with
      | none => none
      | some reward =>
        let claim :=
          NewHardLiquidityProviderClaim borrow.Borrower reward []
            [NewRewardIndex denom borrowFactor] []
        some (SetHardLiquidityProviderClaim ctx claim)
    | some claim =>
      let (borrowIndex, hasBorrowRewardIndex) := claim.HasBorrowRewardIndex denom
      if !hasBorrowRewardIndex then
        let claim :=
          { claim with
            BorrowRewardIndexes :=
              claim.BorrowRewardIndexes ++ [NewRewardIndex denom borrowFactor] }
        some (SetHardLiquidityProviderClaim ctx claim)
      else
        let claim :=
          { claim with
            BorrowRewardIndexes :=
              claim.BorrowRewardIndexes.set borrowIndex (NewRewardIndex denom borrowFactor) }
        some (SetHardLiquidityProviderClaim ctx claim)

/-- Keeper method `SynchronizeHardLiquidityBorrowReward`: updates the claim object by adding
any accumulated rewards and updating the reward index value. When the claim has no borrow
reward index for the denomination, one is appended and the claim is stored, and the method
goes on with the claim so extended and the position 0 returned by `HasBorrowRewardIndex`. -/
def SynchronizeHardLiquidityBorrowReward (ctx : Context) (borrow : Borrow) (denom : String) :
    Option Context :=
  match GetRewardPeriod ctx denom with
  | none => some ctx
  | some _ =>
    let borrowFactor :=
      match GetHardBorrowRewardFactor ctx denom with
      | some factor => factor
      | none => ZeroDec
    match GetHardLiquidityProviderClaim ctx borrow.Borrower with
    | none =>
      match NewCoin HardLiquidityRewardDenom 0 with
      | none => none
      | some reward =>
        let claim :=
          NewHardLiquidityProviderClaim borrow.Borrower reward []
            [NewRewardIndex denom borrowFactor] []
        some (SetHardLiquidityProviderClaim ctx claim)
    | some claim =>
      let (borrowIndex, hasBorrowRewardIndex) := claim.HasBorrowRewardIndex denom
      let (ctx, claim) :=
        if !hasBorrowRewardIndex then
          let claim :=
            { claim with
              BorrowRewardIndexes :=
                claim.BorrowRewardIndexes ++ [NewRewardIndex denom borrowFactor] }
          (SetHardLiquidityProviderClaim ctx claim, claim)
        else (ctx, claim)
      match claim.BorrowRewardIndexes[borrowIndex]? with
      | none => none
      | some userRewardIndex =>
        let userRewardFactor := userRewardIndex.RewardFactor
        match borrowFactor.Sub userRewardFactor with
        | none => none
        | some rewardsAccumulatedFactor =>
          if rewardsAccumulatedFactor.IsZero then some ctx
          else
            let claim :=
              { claim with
                BorrowRewardIndexes :=
                  claim.BorrowRewardIndexes.set borrowIndex
                    { userRewardIndex with RewardFactor := borrowFactor } }
            match borrow.Amount.AmountOf denom with
            | none => none
            | some amount =>
              match rewardsAccumulatedFactor.Mul (ToDec amount) with
              | none => none
              | some product =>
                match product.RoundInt with
                | none => none
                | some newRewardsAmount =>
                  if newRewardsAmount = 0 then some (SetHardLiquidityProviderClaim ctx claim)
                  else
                    match NewCoin HardLiquidityRewardDenom newRewardsAmount with
                    | none => none
                    | some newRewardsCoin =>
                      match claim.Reward.Add newRewardsCoin with
                      | none => none
                      | some reward =>
                        let claim := { claim with Reward := reward }
                        some (SetHardLiquidityProviderClaim ctx claim)

/-- A CDP as `sampleCDP` whose principal and fees are `2^254 usdx` each, so that their sum
is `2^255`, one more than the largest `sdk.Int`. -/
def sampleCDPOverflow : CDP :=
  { sampleCDP with Principal := ⟨"usdx", 2 ^ 254⟩, AccumulatedFees := ⟨"usdx", 2 ^ 254⟩ }

/-- A CDP of the sample owner whose collateral type `xrp-a` has no reward period in the
sample context. -/
def sampleCDPNotIncentivised : CDP := { sampleCDP with Type_ := "xrp-a" }

/-- A borrow of `250 ukava` by the sample owner. -/
def sampleBorrow : Borrow :=
  { Borrower := sampleOwner, Amount := [⟨"ukava", 250⟩], Index := [] }

/-- The sample context after the reward period of `bnb-a` has been removed from the
parameters: the global reward factor `2.0` of `bnb-a` and the claim of the sample owner, with
its reward index `bnb-a` at `1.5`, are still stored. -/
def sampleContextNoPeriod : Context := { sampleContext with rewardPeriods := fun _ => none }

end keeper

namespace validatorvesting

open v0_13 (Time AccAddress)

/-!
# Validator vesting: the begin blocker

Shallow embedding of `x/validator-vesting/abci.go`.

Conventions of the embedding, in addition to those of the modules above
* The keeper of the module is not among the sources. Its two accessors of the previous block
  time are embedded as a read and a write of one entry of the store; its other methods are
  embedded as an interface, over every type `σ` of the rest of the state the methods reach
  (the account keys of the module store and the stores of the account, bank, supply and
  staking keepers). A method of the interface sees the whole context and writes only that
  rest; a method that can panic returns an `Option`, `none` being the panic.
* The ABCI types of Tendermint are embedded with the fields the begin blocker reads.
* To state how often the begin blocker calls a method of an arbitrary keeper, the keeper is
  wrapped so that the calls of its writing methods are kept in a record beside its state
  (`Keeper.recording`), and the begin blockers of consecutive blocks are run on the wrapped
  keeper (`runBlocks`).
-/

/-- A consensus address (`sdk.ConsAddress`), a byte slice. -/
abbrev ConsAddress := List (Fin 256)

/-- A validator as Tendermint reports it (`abci.Validator`). -/
structure Validator where
  Address : List (Fin 256)
  Power : Int
deriving DecidableEq, Repr

/-- The vote of a validator on the last block (`abci.VoteInfo`). -/
structure VoteInfo where
  Validator : Validator
  SignedLastBlock : Bool
deriving DecidableEq, Repr

/-- Type `VoteInfos`: an array of `abci.VoteInfo`. -/
abbrev VoteInfos := List VoteInfo

/-- The commit of the last block (`abci.LastCommitInfo`). -/
structure LastCommitInfo where
  Round : Int
  Votes : List VoteInfo
deriving DecidableEq, Repr

/-- Method `GetVotes` of `abci.LastCommitInfo`. -/
def LastCommitInfo.GetVotes (m : LastCommitInfo) : List VoteInfo := m.Votes

/-- The request of a begin block (`abci.RequestBeginBlock`), of which the begin blocker
reads the commit of the last block. -/
structure RequestBeginBlock where
  LastCommitInfo : LastCommitInfo
deriving DecidableEq, Repr

/-- The zero value `abci.VoteInfo{}`. -/
def zeroVoteInfo : VoteInfo := { Validator := { Address := [], Power := 0 }, SignedLastBlock := false }

/-- Method `FilterByValidatorAddress` of `VoteInfos`: returns the `VoteInfo` of the
validator address matching the input validator address and a boolean for if the address was
found. -/
def VoteInfos.FilterByValidatorAddress (vis : VoteInfos) (consAddress : ConsAddress) :
    VoteInfo × Bool :=
  match vis with
  | [] => (zeroVoteInfo, false)
  | vi :: rest =>
    let votingAddress : ConsAddress := vi.Validator.Address
    if consAddress = votingAddress then (vi, true)
    else VoteInfos.FilterByValidatorAddress rest consAddress

/-- Modelled from the spec: type `types.ValidatorVestingAccount`, declared outside the
sources: of an account the begin blocker reads the address and the consensus address of
the validator. -/
structure ValidatorVestingAccount where
  Address : AccAddress
  ValidatorAddress : ConsAddress
deriving DecidableEq, Repr

/-- Modelled from the spec: method `GetAddress` of an account. -/
def ValidatorVestingAccount.GetAddress (acc : ValidatorVestingAccount) : AccAddress :=
  acc.Address

/-- Modelled from the spec: the state behind an `sdk.Context` that the begin blocker
reaches: the time and the height of the block, the previous block time kept in the module
store, and the rest of the state, of a type `σ` left open. -/
structure Context (σ : Type) where
  blockTime : Time
  blockHeight : Int
  previousBlockTime : Option Time
  store : σ
deriving DecidableEq, Repr

/-- Method `BlockTime` of `sdk.Context`. -/
def Context.BlockTime {σ : Type} (ctx : Context σ) : Time := ctx.blockTime

/-- Method `BlockHeight` of `sdk.Context`. -/
def Context.BlockHeight {σ : Type} (ctx : Context σ) : Int := ctx.blockHeight

/-- Modelled from the spec: keeper method `GetPreviousBlockTime`, declared outside the
sources: the previous block time kept in the module store, if one is stored. -/
def GetPreviousBlockTime {σ : Type} (ctx : Context σ) : Option Time := ctx.previousBlockTime

/-- Modelled from the spec: keeper method `SetPreviousBlockTime`, declared outside the
sources: stores the previous block time. -/
def SetPreviousBlockTime {σ : Type} (ctx : Context σ) (blockTime : Time) : Context σ :=
  { ctx with previousBlockTime := some blockTime }

/-- Modelled from the spec: the methods of `keeper.Keeper` that the begin blocker calls
besides the two accessors of the previous block time, all declared outside the sources.
Each takes the context of the call; a method that writes returns the rest of the state
after the call, and a method that can panic returns `none` for the panic. -/
structure Keeper (σ : Type) where
  getAllAccountKeys : Context σ → List AccAddress
  getAccountFromAuthKeeper : Context σ → AccAddress → Option ValidatorVestingAccount
  accountIsVesting : Context σ → AccAddress → Option Bool
  updateMissingSignCount : Context σ → AccAddress → Bool → Option σ
  getPeriodEndTimes : Context σ → AccAddress → Option (List Int)
  updateVestedCoinsProgress : Context σ → AccAddress → Nat → Option σ
  handleVestingDebt : Context σ → AccAddress → Time → Option σ

/-- Keeper method `GetAllAccountKeys`: all the account keys in the validator vesting
keeper. -/
def Keeper.GetAllAccountKeys {σ : Type} (k : Keeper σ) (ctx : Context σ) : List AccAddress :=
  k.getAllAccountKeys ctx

/-- Keeper method `GetAccountFromAuthKeeper`: the validator vesting account of an address,
read from the account keeper. -/
def Keeper.GetAccountFromAuthKeeper {σ : Type} (k : Keeper σ) (ctx : Context σ)
    (addr : AccAddress) : Option ValidatorVestingAccount :=
  k.getAccountFromAuthKeeper ctx addr

/-- Keeper method `AccountIsVesting`. -/
def Keeper.AccountIsVesting {σ : Type} (k : Keeper σ) (ctx : Context σ) (addr : AccAddress) :
    Option Bool :=
  k.accountIsVesting ctx addr

/-- Keeper method `UpdateMissingSignCount`, as the context after the call. -/
def Keeper.UpdateMissingSignCount {σ : Type} (k : Keeper σ) (ctx : Context σ)
    (addr : AccAddress) (missedBlock : Bool) : Option (Context σ) :=
  (k.updateMissingSignCount ctx addr missedBlock).map fun store => { ctx with store := store }

/-- Keeper method `GetPeriodEndTimes`: the times, in seconds since January 1, 1970, at which
the vesting periods of an account end. -/
def Keeper.GetPeriodEndTimes {σ : Type} (k : Keeper σ) (ctx : Context σ) (addr : AccAddress) :
    Option (List Int) :=
  k.getPeriodEndTimes ctx addr

/-- Keeper method `UpdateVestedCoinsProgress`, as the context after the call. -/
def Keeper.UpdateVestedCoinsProgress {σ : Type} (k : Keeper σ) (ctx : Context σ)
    (addr : AccAddress) (period : Nat) : Option (Context σ) :=
  (k.updateVestedCoinsProgress ctx addr period).map fun store => { ctx with store := store }

/-- Keeper method `HandleVestingDebt`, as the context after the call. -/
def Keeper.HandleVestingDebt {σ : Type} (k : Keeper σ) (ctx : Context σ) (addr : AccAddress)
    (blockTime : Time) : Option (Context σ) :=
  (k.handleVestingDebt ctx addr blockTime).map fun store => { ctx with store := store }

/-! ## The begin blocker -/

/-- The condition of `BeginBlocker` under which the period that ends at `t` ended in the
last block: `currentBlockTime.Unix() >= t && previousBlockTime.Unix() < t`. -/
def periodEnded (currentBlockTime previousBlockTime : Time) (t : Int) : Bool :=
  decide (currentBlockTime.Unix ≥ t) && decide (previousBlockTime.Unix < t)

/-- The loop of `BeginBlocker` over the period end times of an account, from the period `i`
on: the progress of each period that ended in the last block is updated. -/
def endTimesLoop {σ : Type} (k : Keeper σ) (previousBlockTime currentBlockTime : Time)
    (key : AccAddress) : Context σ → List Int → Nat → Option (Context σ)
  | ctx, [], _ => some ctx
  | ctx, t :: rest, i =>
    if periodEnded currentBlockTime previousBlockTime t then
      match k.UpdateVestedCoinsProgress ctx key i with
      | none => none
      | some ctx => endTimesLoop k previousBlockTime currentBlockTime key ctx rest (i + 1)
    else endTimesLoop k previousBlockTime currentBlockTime key ctx rest (i + 1)

/-- The body of the loop of `BeginBlocker` over the account keys: an account that is not
vesting is skipped; for a vesting account the missing sign count is updated, then the
progress of the periods that ended in the last block, then the debt of the account. -/
def accountStep {σ : Type} (k : Keeper σ) (voteInfos : VoteInfos)
    (previousBlockTime currentBlockTime : Time) (ctx : Context σ) (key : AccAddress) :
    Option (Context σ) :=
  match k.GetAccountFromAuthKeeper ctx key with
  | none => none
  | some acc =>
    match k.AccountIsVesting ctx acc.GetAddress with
    | none => none
    | some false => some ctx
    | some true =>
      let (vote, found) := voteInfos.FilterByValidatorAddress acc.ValidatorAddress
      let missedBlock :=
        if (!found || !vote.SignedLastBlock) && decide (ctx.BlockHeight > 1) then true
        else false
      match k.UpdateMissingSignCount ctx acc.GetAddress missedBlock with
      | none => none
      | some ctx =>
        match k.GetPeriodEndTimes ctx key with
        | none => none
        | some endTimes =>
          match endTimesLoop k previousBlockTime currentBlockTime key ctx endTimes 0 with
          | none => none
          | some ctx => k.HandleVestingDebt ctx key currentBlockTime

/-- The loop of `BeginBlocker` over the account keys. -/
def accountKeysLoop {σ : Type} (k : Keeper σ) (voteInfos : VoteInfos)
    (previousBlockTime currentBlockTime : Time) : Context σ → List AccAddress →
    Option (Context σ)
  | ctx, [] => some ctx
  | ctx, key :: rest =>
    match accountStep k voteInfos previousBlockTime currentBlockTime ctx key with
    | none => none
    | some ctx => accountKeysLoop k voteInfos previousBlockTime currentBlockTime ctx rest

/-- Function `BeginBlocker`: updates the vote signing information for each validator vesting
account, updates account when period changes, and updates the previousBlockTime value in
the store. The result is the context after the call, `none` if a keeper method panics. -/
def BeginBlocker {σ : Type} (k : Keeper σ) (ctx : Context σ) (req : RequestBeginBlock) :
    Option (Context σ) :=
  match GetPreviousBlockTime ctx with
  | none => some (SetPreviousBlockTime ctx ctx.BlockTime)
  | some previousBlockTime =>
    let currentBlockTime := ctx.BlockTime
    let voteInfos : VoteInfos := req.LastCommitInfo.GetVotes
    let validatorVestingKeys := k.GetAllAccountKeys ctx
    match accountKeysLoop k voteInfos previousBlockTime currentBlockTime ctx
        validatorVestingKeys with
    | none => none
    | some ctx => some (SetPreviousBlockTime ctx currentBlockTime)

/-! ## Statements about the begin blocker -/

/-- A keeper none of whose methods panics, in any context. -/
def Keeper.NeverPanics {σ : Type} (k : Keeper σ) : Prop :=
  (∀ ctx addr, (k.getAccountFromAuthKeeper ctx addr).isSome = true) ∧
    (∀ ctx addr, (k.accountIsVesting ctx addr).isSome = true) ∧
    (∀ ctx addr missedBlock, (k.updateMissingSignCount ctx addr missedBlock).isSome = true) ∧
    (∀ ctx addr, (k.getPeriodEndTimes ctx addr).isSome = true) ∧
    (∀ ctx addr period, (k.updateVestedCoinsProgress ctx addr period).isSome = true) ∧
    ∀ ctx addr blockTime, (k.handleVestingDebt ctx addr blockTime).isSome = true

/-- A call of a writing method of the keeper, with its arguments. -/
inductive KeeperCall where
  | updateMissingSignCount (addr : AccAddress) (missedBlock : Bool)
  | updateVestedCoinsProgress (addr : AccAddress) (period : Nat)
  | handleVestingDebt (addr : AccAddress) (blockTime : Time)
deriving DecidableEq, Repr

/-- The rest of the state for the sample keeper: the account keys, and the calls of the
writing methods made so far. -/
structure SampleStore where
  keys : List AccAddress
  calls : List KeeperCall
deriving DecidableEq, Repr

/-- A keeper for the examples. Every address has an account, whose validator has the bytes
of the address as its consensus address; every account is vesting and has one period, which
ends at 1609459210, ten seconds after 2021-01-01 00:00:00 UTC; the writing methods record
their calls. -/
def sampleKeeper : Keeper SampleStore :=
  { getAllAccountKeys := fun ctx => ctx.store.keys
    getAccountFromAuthKeeper := fun _ addr => some { Address := addr, ValidatorAddress := addr }
    accountIsVesting := fun _ _ => some true
    updateMissingSignCount := fun ctx addr missedBlock =>
      some { ctx.store with
        calls := ctx.store.calls ++ [.updateMissingSignCount addr missedBlock] }
    getPeriodEndTimes := fun _ _ => some [1609459210]
    updateVestedCoinsProgress := fun ctx addr period =>
      some { ctx.store with
        calls := ctx.store.calls ++ [.updateVestedCoinsProgress addr period] }
    handleVestingDebt := fun ctx addr blockTime =>
      some { ctx.store with calls := ctx.store.calls ++ [.handleVestingDebt addr blockTime] } }

/-- The address of a validator vesting account, of 20 bytes. -/
def sampleValidator : AccAddress := List.replicate 20 3

/-- The instant 2021-01-01 00:00:00 UTC, 63745056000 seconds after the zero time. -/
def sampleBlockTime : Time := ⟨63745056000000000000⟩

/-- The instant 2021-01-01 00:00:06.5 UTC. -/
def sampleNextBlockTime : Time := ⟨63745056006500000000⟩

/-- The instant 2021-01-01 00:00:12 UTC. -/
def sampleLaterBlockTime : Time := ⟨63745056012000000000⟩

/-- The votes of a commit in which the sample validator did not sign and another validator
signed. -/
def sampleVotes : VoteInfos :=
  [{ Validator := { Address := List.replicate 20 5, Power := 10 }, SignedLastBlock := true },
    { Validator := { Address := sampleValidator, Power := 10 }, SignedLastBlock := false }]

/-- The request of a begin block with the sample votes. -/
def sampleRequest : RequestBeginBlock := { LastCommitInfo := { Round := 0, Votes := sampleVotes } }

/-- A context at height 5 and at `sampleLaterBlockTime`, with the previous block time
`sampleNextBlockTime` and the account key of the sample validator. -/
def sampleContext : Context SampleStore :=
  { blockTime := sampleLaterBlockTime
    blockHeight := 5
    previousBlockTime := some sampleNextBlockTime
    store := { keys := [sampleValidator], calls := [] } }

/-- The sample context before any begin block: no previous block time is stored. -/
def sampleFirstContext : Context SampleStore :=
  { sampleContext with previousBlockTime := none }

/-- The vote of the sample validator in the sample votes. -/
def sampleVote : VoteInfo :=
  { Validator := { Address := sampleValidator, Power := 10 }, SignedLastBlock := false }

/-- The votes of a commit that lists the sample validator twice, first as having signed and
then as not having signed. -/
def sampleDuplicateVotes : VoteInfos :=
  [{ Validator := { Address := sampleValidator, Power := 10 }, SignedLastBlock := true },
    sampleVote]

/-- The request of a begin block with the duplicate votes. -/
def sampleDuplicateRequest : RequestBeginBlock :=
  { LastCommitInfo := { Round := 0, Votes := sampleDuplicateVotes } }

/-! ## The calls of the keeper over a run of blocks -/

end validatorvesting

namespace incentive

open v0_13 (Time Coin Coins AccAddress)
open keeper (Dec ZeroDec RewardPeriod RewardIndex RewardIndexes NewRewardIndex
  USDXMintingClaim)

/-!
# Incentive genesis: import and export

Shallow embedding of `x/incentive/genesis.go`.

Conventions of the embedding, in addition to those of the modules above
* The types of the `types` package and the store accessors of the keeper are not among the
  sources; they are embedded from their use in `genesis.go`. In `genesis.go` the supply and
  borrow reward indexes of a hard liquidity provider claim are slices of multi reward
  indexes, and the store keeps reward indexes for the hard supply and borrow rewards.
* The entries of the store that are read by key are embedded as functions of the key. The
  claims, over which the export iterates, are embedded as the list of the stored claims in
  the order of their keys, the addresses of their owners.
* Three functions called by the genesis functions have their bodies outside the sources and
  are taken as parameters: the validation of a genesis state and the synchronisation of a
  claim of either kind.
-/

/-! ## Types of the genesis state -/

/-- Modelled from the spec: type `types.MultiRewardPeriod`, declared outside the sources: a
reward period that pays several denominations. `genesis.go` reads its fields
`CollateralType` and `RewardsPerSecond`. -/
structure MultiRewardPeriod where
  Active : Bool
  CollateralType : String
  Start : Time
  End : Time
  RewardsPerSecond : Coins
deriving DecidableEq, Repr

/-- Modelled from the spec: type `types.Multiplier`, declared outside the sources: a reward
multiplier of the parameters. `genesis.go` does not read it. -/
structure Multiplier where
  Name : String
  MonthsLockup : Int
  Factor : Dec
deriving DecidableEq, Repr

/-- Modelled from the spec: type `types.Params`, declared outside the sources: the
parameters of the module, with the four lists of reward periods that `genesis.go` reads. -/
structure Params where
  USDXMintingRewardPeriods : List RewardPeriod
  HardSupplyRewardPeriods : List MultiRewardPeriod
  HardBorrowRewardPeriods : List MultiRewardPeriod
  HardDelegatorRewardPeriods : List RewardPeriod
  ClaimMultipliers : List Multiplier
  ClaimEnd : Time
deriving DecidableEq, Repr

/-- Modelled from the spec: type `types.GenesisAccumulationTime`, declared outside the
sources: the previous accumulation time and the reward factor of a collateral type. -/
structure GenesisAccumulationTime where
  CollateralType : String
  PreviousAccumulationTime : Time
  RewardFactor : Dec
deriving DecidableEq, Repr

/-- Modelled from the spec: constructor `types.NewGenesisAccumulationTime`, declared outside
the sources. -/
def NewGenesisAccumulationTime (ctype : String) (prevTime : Time) (factor : Dec) :
    GenesisAccumulationTime :=
  { CollateralType := ctype, PreviousAccumulationTime := prevTime, RewardFactor := factor }

/-- Modelled from the spec: type `types.MultiRewardIndex`, declared outside the sources: the
reward indexes of one collateral type. -/
structure MultiRewardIndex where
  CollateralType : String
  RewardIndexes : RewardIndexes
deriving DecidableEq, Repr

/-- Modelled from the spec: type `types.HardLiquidityProviderClaim` as `genesis.go` uses it,
declared outside the sources: the owner and the reward of the claim, its supply and borrow
reward indexes, which are multi reward indexes, and its delegator reward indexes. -/
structure HardLiquidityProviderClaim where
  Owner : AccAddress
  Reward : Coin
  SupplyRewardIndexes : List MultiRewardIndex
  BorrowRewardIndexes : List MultiRewardIndex
  DelegatorRewardIndexes : RewardIndexes
deriving DecidableEq, Repr

/-- Modelled from the spec: type `types.GenesisState`, declared outside the sources, with
its fields in the order of the arguments of `NewGenesisState` in `genesis.go`. -/
structure GenesisState where
  Params : Params
  USDXAccumulationTimes : List GenesisAccumulationTime
  HardSupplyAccumulationTimes : List GenesisAccumulationTime
  HardBorrowAccumulationTimes : List GenesisAccumulationTime
  HardDelegatorAccumulationTimes : List GenesisAccumulationTime
  USDXMintingClaims : List USDXMintingClaim
  HardLiquidityProviderClaims : List HardLiquidityProviderClaim
deriving DecidableEq, Repr

/-- Modelled from the spec: constructor `types.NewGenesisState`, declared outside the
sources. -/
def NewGenesisState (params : Params)
    (usdxAccumTimes hardSupplyAccumTimes hardBorrowAccumTimes hardDelegatorAccumTimes :
      List GenesisAccumulationTime)
    (c : List USDXMintingClaim) (hc : List HardLiquidityProviderClaim) : GenesisState :=
  { Params := params
    USDXAccumulationTimes := usdxAccumTimes
    HardSupplyAccumulationTimes := hardSupplyAccumTimes
    HardBorrowAccumulationTimes := hardBorrowAccumTimes
    HardDelegatorAccumulationTimes := hardDelegatorAccumTimes
    USDXMintingClaims := c
    HardLiquidityProviderClaims := hc }

/-! ## Store -/

/-- Modelled from the spec: the state behind an `sdk.Context` that the genesis functions
read or write through keepers declared outside the sources: the block time; whether the
supply keeper has the module account of the module; the collateral types known to the cdp
keeper; and the incentive store, that is the parameters, the accrual times, the reward
factors and reward indexes, and the claims of both kinds. -/
structure Context where
  blockTime : Time
  moduleAccount : Bool
  collateral : String → Bool
  params : Params
  previousUSDXMintingAccrualTime : String → Option Time
  usdxMintingRewardFactor : String → Option Dec
  previousHardSupplyRewardAccrualTime : String → Option Time
  previousHardBorrowRewardAccrualTime : String → Option Time
  previousHardDelegatorRewardAccrualTime : String → Option Time
  hardSupplyRewardIndexes : String → Option RewardIndexes
  hardBorrowRewardIndexes : String → Option RewardIndexes
  hardDelegatorRewardFactor : String → Option Dec
  usdxMintingClaims : List USDXMintingClaim
  hardLiquidityProviderClaims : List HardLiquidityProviderClaim

/-- Method `BlockTime` of `sdk.Context`. -/
def Context.BlockTime (ctx : Context) : Time := ctx.blockTime

/-- Modelled from the spec: keeper method `GetParams`, declared outside the sources. -/
def GetParams (ctx : Context) : Params := ctx.params

/-- Modelled from the spec: keeper method `SetParams`, declared outside the sources. -/
def SetParams (ctx : Context) (params : Params) : Context := { ctx with params := params }

/-- Modelled from the spec: keeper method `GetPreviousUSDXMintingAccrualTime`, declared
outside the sources. -/
def GetPreviousUSDXMintingAccrualTime (ctx : Context) (ctype : String) : Option Time :=
  ctx.previousUSDXMintingAccrualTime ctype

/-- Modelled from the spec: keeper method `SetPreviousUSDXMintingAccrualTime`, declared
outside the sources. -/
def SetPreviousUSDXMintingAccrualTime (ctx : Context) (ctype : String) (blockTime : Time) :
    Context :=
  { ctx with
    previousUSDXMintingAccrualTime :=
      Function.update ctx.previousUSDXMintingAccrualTime ctype (some blockTime) }

/-- Modelled from the spec: keeper method `GetUSDXMintingRewardFactor`, declared outside the
sources. -/
def GetUSDXMintingRewardFactor (ctx : Context) (ctype : String) : Option Dec :=
  ctx.usdxMintingRewardFactor ctype

/-- Modelled from the spec: keeper method `SetUSDXMintingRewardFactor`, declared outside the
sources. -/
def SetUSDXMintingRewardFactor (ctx : Context) (ctype : String) (factor : Dec) : Context :=
  { ctx with
    usdxMintingRewardFactor := Function.update ctx.usdxMintingRewardFactor ctype (some factor) }

/-- Modelled from the spec: keeper method `GetPreviousHardSupplyRewardAccrualTime`, declared
outside the sources. -/
def GetPreviousHardSupplyRewardAccrualTime (ctx : Context) (denom : String) : Option Time :=
  ctx.previousHardSupplyRewardAccrualTime denom

/-- Modelled from the spec: keeper method `SetPreviousHardSupplyRewardAccrualTime`, declared
outside the sources. -/
def SetPreviousHardSupplyRewardAccrualTime (ctx : Context) (denom : String)
    (blockTime : Time) : Context :=
  { ctx with
    previousHardSupplyRewardAccrualTime :=
      Function.update ctx.previousHardSupplyRewardAccrualTime denom (some blockTime) }

/-- Modelled from the spec: keeper method `GetPreviousHardBorrowRewardAccrualTime`, declared
outside the sources. -/
def GetPreviousHardBorrowRewardAccrualTime (ctx : Context) (denom : String) : Option Time :=
  ctx.previousHardBorrowRewardAccrualTime denom

/-- Modelled from the spec: keeper method `SetPreviousHardBorrowRewardAccrualTime`, declared
outside the sources. -/
def SetPreviousHardBorrowRewardAccrualTime (ctx : Context) (denom : String)
    (blockTime : Time) : Context :=
  { ctx with
    previousHardBorrowRewardAccrualTime :=
      Function.update ctx.previousHardBorrowRewardAccrualTime denom (some blockTime) }

/-- Modelled from the spec: keeper method `GetPreviousHardDelegatorRewardAccrualTime`,
declared outside the sources. -/
def GetPreviousHardDelegatorRewardAccrualTime (ctx : Context) (denom : String) :
    Option Time :=
  ctx.previousHardDelegatorRewardAccrualTime denom

/-- Modelled from the spec: keeper method `SetPreviousHardDelegatorRewardAccrualTime`,
declared outside the sources. -/
def SetPreviousHardDelegatorRewardAccrualTime (ctx : Context) (denom : String)
    (blockTime : Time) : Context :=
  { ctx with
    previousHardDelegatorRewardAccrualTime :=
      Function.update ctx.previousHardDelegatorRewardAccrualTime denom (some blockTime) }

/-- Modelled from the spec: keeper method `GetHardSupplyRewardIndexes`, declared outside the
sources. -/
def GetHardSupplyRewardIndexes (ctx : Context) (denom : String) : Option RewardIndexes :=
  ctx.hardSupplyRewardIndexes denom

/-- Modelled from the spec: keeper method `SetHardSupplyRewardIndexes`, declared outside the
sources. -/
def SetHardSupplyRewardIndexes (ctx : Context) (denom : String) (indexes : RewardIndexes) :
    Context :=
  { ctx with
    hardSupplyRewardIndexes := Function.update ctx.hardSupplyRewardIndexes denom (some indexes) }

/-- Modelled from the spec: keeper method `GetHardBorrowRewardIndexes`, declared outside the
sources. -/
def GetHardBorrowRewardIndexes (ctx : Context) (denom : String) : Option RewardIndexes :=
  ctx.hardBorrowRewardIndexes denom

/-- Modelled from the spec: keeper method `SetHardBorrowRewardIndexes`, declared outside the
sources. -/
def SetHardBorrowRewardIndexes (ctx : Context) (denom : String) (indexes : RewardIndexes) :
    Context :=
  { ctx with
    hardBorrowRewardIndexes := Function.update ctx.hardBorrowRewardIndexes denom (some indexes) }

/-- Modelled from the spec: keeper method `GetHardDelegatorRewardFactor`, declared outside
the sources. -/
def GetHardDelegatorRewardFactor (ctx : Context) (ctype : String) : Option Dec :=
  ctx.hardDelegatorRewardFactor ctype

/-- Modelled from the spec: keeper method `SetHardDelegatorRewardFactor`, declared outside
the sources. -/
def SetHardDelegatorRewardFactor (ctx : Context) (ctype : String) (factor : Dec) : Context :=
  { ctx with
    hardDelegatorRewardFactor :=
      Function.update ctx.hardDelegatorRewardFactor ctype (some factor) }

/-- Writes a claim into the list of the stored claims, which is kept in the order of the
keys: the claim replaces the stored claim of the same owner, or is inserted before the first
claim whose owner comes later. -/
def setClaim {α : Type} (owner : α → AccAddress) (claim : α) : List α → List α
  | [] => [claim]
  | stored :: rest =>
    if owner stored = owner claim then claim :: rest
    else if owner claim < owner stored then claim :: stored :: rest
    else stored :: setClaim owner claim rest

/-- Modelled from the spec: keeper method `GetUSDXMintingClaim`, declared outside the
sources: the claim stored for an owner, if any. -/
def GetUSDXMintingClaim (ctx : Context) (owner : AccAddress) : Option USDXMintingClaim :=
  ctx.usdxMintingClaims.find? fun claim => decide (claim.Owner = owner)

/-- Modelled from the spec: keeper method `SetUSDXMintingClaim`, declared outside the
sources: stores the claim under the address of its owner. -/
def SetUSDXMintingClaim (ctx : Context) (c : USDXMintingClaim) : Context :=
  { ctx with usdxMintingClaims := setClaim (·.Owner) c ctx.usdxMintingClaims }

/-- Modelled from the spec: keeper method `GetAllUSDXMintingClaims`, declared outside the
sources: all the stored claims, in the order of the store. -/
def GetAllUSDXMintingClaims (ctx : Context) : List USDXMintingClaim := ctx.usdxMintingClaims

/-- Modelled from the spec: keeper method `GetHardLiquidityProviderClaim`, declared outside
the sources: the claim stored for an owner, if any. -/
def GetHardLiquidityProviderClaim (ctx : Context) (owner : AccAddress) :
    Option HardLiquidityProviderClaim :=
  ctx.hardLiquidityProviderClaims.find? fun claim => decide (claim.Owner = owner)

/-- Modelled from the spec: keeper method `SetHardLiquidityProviderClaim`, declared outside
the sources: stores the claim under the address of its owner. -/
def SetHardLiquidityProviderClaim (ctx : Context) (c : HardLiquidityProviderClaim) :
    Context :=
  { ctx with hardLiquidityProviderClaims := setClaim (·.Owner) c ctx.hardLiquidityProviderClaims }

/-- Modelled from the spec: keeper method `GetAllHardLiquidityProviderClaims`, declared
outside the sources: all the stored claims, in the order of the store. -/
def GetAllHardLiquidityProviderClaims (ctx : Context) : List HardLiquidityProviderClaim :=
  ctx.hardLiquidityProviderClaims

/-- Modelled from the spec: the functions called by the genesis functions whose bodies are
outside the sources and are not fixed by their use, taken as parameters: method `Validate`
of `types.GenesisState`, which returns an error or nil; keeper method
`SynchronizeUSDXMintingClaim`, which returns the context after the call, the updated claim
and an error or nil; keeper method `SynchronizeHardLiquidityProviderClaim`, which returns
the context after the call. A keeper method that panics returns `none`. -/
structure Outside where
  validate : GenesisState → Option String
  synchronizeUSDXMintingClaim :
    Context → USDXMintingClaim → Option (Context × USDXMintingClaim × Option String)
  synchronizeHardLiquidityProviderClaim : Context → AccAddress → Option Context

/-! ## Import -/

/-- The zeroing of the reward factors in the claim loops of `InitGenesis`, on the reward
indexes of one claim: every reward factor that differs from `sdk.ZeroDec()` is set to
`sdk.ZeroDec()`. The source compares two `sdk.Dec` structs, that is the pointers they hold,
so in Go the test succeeds for every index; an index whose factor is zero is the same after
the assignment, so testing the values gives the same reward indexes. -/
def zeroRewardFactors (rewardIndexes : RewardIndexes) : RewardIndexes :=
  rewardIndexes.map fun ri =>
    if ri.RewardFactor ≠ ZeroDec then { ri with RewardFactor := ZeroDec } else ri

/-- The zeroing of the reward factors in the multi reward indexes of one claim. -/
def zeroMultiRewardFactors (indexes : List MultiRewardIndex) : List MultiRewardIndex :=
  indexes.map fun mri => { mri with RewardIndexes := zeroRewardFactors mri.RewardIndexes }

/-- The first loop of `InitGenesis`, over the USDX minting reward periods of the
parameters: the collateral type of each period must be known to the cdp keeper, and its
reward factor is set to zero. -/
def usdxMintingRewardPeriodsLoop : Context → List RewardPeriod → Option Context
  | ctx, [] => some ctx
  | ctx, rp :: rest =>
    if !ctx.collateral rp.CollateralType then none
    else
      usdxMintingRewardPeriodsLoop (SetUSDXMintingRewardFactor ctx rp.CollateralType ZeroDec)
        rest

/-- The reward indexes that `InitGenesis` builds from the rewards per second of a multi
reward period: one index with the factor zero for each denomination. -/
def newRewardIndexes (rewardsPerSecond : Coins) : RewardIndexes :=
  rewardsPerSecond.foldl
    (fun newRewardIndexes rc => newRewardIndexes ++ [NewRewardIndex rc.Denom ZeroDec]) []

/-- Function `InitGenesis`: initializes the store state from a genesis state. The result is
the context after the call; `none` is a panic. In the two claim loops the loop variable
`claim` is a copy of the claim in the genesis state that shares its slices of reward
indexes, so the claim that is stored has the reward factors that the loop has just set to
zero. -/
def InitGenesis (out : Outside) (ctx : Context) (gs : GenesisState) : Option Context :=
  if !ctx.moduleAccount then none
  else if (out.validate gs).isSome then none
  else
    match usdxMintingRewardPeriodsLoop ctx gs.Params.USDXMintingRewardPeriods with
    | none => none
    | some ctx =>
      let ctx := gs.Params.HardSupplyRewardPeriods.foldl
        (fun ctx mrp =>
          SetHardSupplyRewardIndexes ctx mrp.CollateralType
            (newRewardIndexes mrp.RewardsPerSecond)) ctx
      let ctx := gs.Params.HardBorrowRewardPeriods.foldl
        (fun ctx mrp =>
          SetHardBorrowRewardIndexes ctx mrp.CollateralType
            (newRewardIndexes mrp.RewardsPerSecond)) ctx
      let ctx := gs.Params.HardDelegatorRewardPeriods.foldl
        (fun ctx rp => SetHardDelegatorRewardFactor ctx rp.CollateralType ZeroDec) ctx
      let ctx := SetParams ctx gs.Params
      let ctx := gs.USDXAccumulationTimes.foldl
        (fun ctx gat =>
          let ctx :=
            SetPreviousUSDXMintingAccrualTime ctx gat.CollateralType
              gat.PreviousAccumulationTime
          SetUSDXMintingRewardFactor ctx gat.CollateralType gat.RewardFactor) ctx
      let ctx := gs.HardSupplyAccumulationTimes.foldl
        (fun ctx gat =>
          SetPreviousHardSupplyRewardAccrualTime ctx gat.CollateralType
            gat.PreviousAccumulationTime) ctx
      let ctx := gs.HardBorrowAccumulationTimes.foldl
        (fun ctx gat =>
          SetPreviousHardBorrowRewardAccrualTime ctx gat.CollateralType
            gat.PreviousAccumulationTime) ctx
      let ctx := gs.HardDelegatorAccumulationTimes.foldl
        (fun ctx gat =>
          SetPreviousHardDelegatorRewardAccrualTime ctx gat.CollateralType
            gat.PreviousAccumulationTime) ctx
      let ctx := gs.USDXMintingClaims.foldl
        (fun ctx claim =>
          let claim := { claim with RewardIndexes := zeroRewardFactors claim.RewardIndexes }
          SetUSDXMintingClaim ctx claim) ctx
      let ctx := gs.HardLiquidityProviderClaims.foldl
        (fun ctx claim =>
          let claim :=
            { claim with
              SupplyRewardIndexes := zeroMultiRewardFactors claim.SupplyRewardIndexes
              BorrowRewardIndexes := zeroMultiRewardFactors claim.BorrowRewardIndexes
              DelegatorRewardIndexes := zeroRewardFactors claim.DelegatorRewardIndexes }
          SetHardLiquidityProviderClaim ctx claim) ctx
      some ctx

/-! ## Export -/

/-- The loop of `ExportGenesis` over the USDX minting claims: each claim is synchronised and
appended to the synchronised claims; an error of the synchronisation is a panic. -/
def synchronizeUsdxClaimsLoop (out : Outside) :
    Context → List USDXMintingClaim → List USDXMintingClaim →
      Option (Context × List USDXMintingClaim)
  | ctx, [], synchronizedUsdxClaims => some (ctx, synchronizedUsdxClaims)
  | ctx, usdxClaim :: rest, synchronizedUsdxClaims =>
    match out.synchronizeUSDXMintingClaim ctx usdxClaim with
    | none => none
    | some (_, _, some _) => none
    | some (ctx, claim, none) =>
      synchronizeUsdxClaimsLoop out ctx rest (synchronizedUsdxClaims ++ [claim])

/-- The loop of `ExportGenesis` over the hard liquidity provider claims: the claim of each
owner is synchronised in the store, read back and appended to the synchronised claims; a
claim that is not found after its synchronisation is a panic. -/
def synchronizeHardClaimsLoop (out : Outside) :
    Context → List HardLiquidityProviderClaim → List HardLiquidityProviderClaim →
      Option (Context × List HardLiquidityProviderClaim)
  | ctx, [], synchronizedHardClaims => some (ctx, synchronizedHardClaims)
  | ctx, hardClaim :: rest, synchronizedHardClaims =>
    match out.synchronizeHardLiquidityProviderClaim ctx hardClaim.Owner with
    | none => none
    | some ctx =>
      match GetHardLiquidityProviderClaim ctx hardClaim.Owner with
      | none => none
      | some claim => synchronizeHardClaimsLoop out ctx rest (synchronizedHardClaims ++ [claim])

/-- The reward factor that `ExportGenesis` exports for reward indexes of the hard supply or
borrow rewards: the last factor among them that is greater than zero, or zero. -/
def lastPositiveFactor (rewardIndexes : RewardIndexes) : Dec :=
  rewardIndexes.foldl
    (fun factor ri => if ri.RewardFactor.i > ZeroDec.i then ri.RewardFactor else factor)
    ZeroDec

/-- Function `ExportGenesis`: export genesis state for incentive module. The result is the
context after the call, in which the claims are synchronised, and the genesis state;
`none` is a panic. -/
def ExportGenesis (out : Outside) (ctx : Context) : Option (Context × GenesisState) :=
  let params := GetParams ctx
  let usdxClaims := GetAllUSDXMintingClaims ctx
  let hardClaims := GetAllHardLiquidityProviderClaims ctx
  match synchronizeUsdxClaimsLoop out ctx usdxClaims [] with
  | none => none
  | some (ctx, synchronizedUsdxClaims) =>
    match synchronizeHardClaimsLoop out ctx hardClaims [] with
    | none => none
    | some (ctx, synchronizedHardClaims) =>
      let usdxGenesisAccumulationTimes := params.USDXMintingRewardPeriods.map fun rp =>
        let pat :=
          match GetPreviousUSDXMintingAccrualTime ctx rp.CollateralType with
          | some pat => pat
          | none => ctx.BlockTime
        let factor :=
          match GetUSDXMintingRewardFactor ctx rp.CollateralType with
          | some factor => factor
          | none => ZeroDec
        NewGenesisAccumulationTime rp.CollateralType pat factor
      let hardDelegatorAccumTimes := params.HardDelegatorRewardPeriods.map fun rp =>
        let pat :=
          match GetPreviousHardDelegatorRewardAccrualTime ctx rp.CollateralType with
          | some pat => pat
          | none => ctx.BlockTime
        let factor :=
          match GetHardDelegatorRewardFactor ctx rp.CollateralType with
          | some factor => factor
          | none => ZeroDec
        NewGenesisAccumulationTime rp.CollateralType pat factor
      let hardSupplyGenesisAccumulationTimes := params.HardSupplyRewardPeriods.map fun mrp =>
        let pat :=
          match GetPreviousHardSupplyRewardAccrualTime ctx mrp.CollateralType with
          | some pat => pat
          | none => ctx.BlockTime
        let rewardIndexes :=
          match GetHardSupplyRewardIndexes ctx mrp.CollateralType with
          | some rewardIndexes => rewardIndexes
          | none => []
        NewGenesisAccumulationTime mrp.CollateralType pat (lastPositiveFactor rewardIndexes)
      let hardBorrowGenesisAccumulationTimes := params.HardBorrowRewardPeriods.map fun mrp =>
        let pat :=
          match GetPreviousHardBorrowRewardAccrualTime ctx mrp.CollateralType with
          | some pat => pat
          | none => ctx.BlockTime
        let rewardIndexes :=
          match GetHardBorrowRewardIndexes ctx mrp.CollateralType with
          | some rewardIndexes => rewardIndexes
          | none => []
        NewGenesisAccumulationTime mrp.CollateralType pat (lastPositiveFactor rewardIndexes)
      some (ctx,
        NewGenesisState params usdxGenesisAccumulationTimes hardSupplyGenesisAccumulationTimes
          hardBorrowGenesisAccumulationTimes hardDelegatorAccumTimes synchronizedUsdxClaims
          synchronizedHardClaims)

/-! ## The round trip and sample values -/

/-- The context of an application that has not imported the incentive genesis yet: the block
time and the state of the other keepers are those of `ctx`, the incentive store is empty. -/
def emptyStore (ctx : Context) : Context :=
  { blockTime := ctx.blockTime
    moduleAccount := ctx.moduleAccount
    collateral := ctx.collateral
    params :=
      { USDXMintingRewardPeriods := []
        HardSupplyRewardPeriods := []
        HardBorrowRewardPeriods := []
        HardDelegatorRewardPeriods := []
        ClaimMultipliers := []
        ClaimEnd := ⟨0⟩ }
    previousUSDXMintingAccrualTime := fun _ => none
    usdxMintingRewardFactor := fun _ => none
    previousHardSupplyRewardAccrualTime := fun _ => none
    previousHardBorrowRewardAccrualTime := fun _ => none
    previousHardDelegatorRewardAccrualTime := fun _ => none
    hardSupplyRewardIndexes := fun _ => none
    hardBorrowRewardIndexes := fun _ => none
    hardDelegatorRewardFactor := fun _ => none
    usdxMintingClaims := []
    hardLiquidityProviderClaims := [] }

/-- The parameters of the sample store: one USDX minting reward period, for `bnb-a`. -/
def sampleParams : Params :=
  { USDXMintingRewardPeriods := [keeper.sampleRewardPeriod]
    HardSupplyRewardPeriods := []
    HardBorrowRewardPeriods := []
    HardDelegatorRewardPeriods := []
    ClaimMultipliers := [{ Name := "large", MonthsLockup := 12, Factor := ⟨1000000000000000000⟩ }]
    ClaimEnd := ⟨63776592000000000000⟩ }

/-- The claim of the sample store: the sample owner has the reward `7 ukava` and the reward
index `bnb-a` at `2.0`. -/
def sampleClaim : USDXMintingClaim :=
  { Owner := keeper.sampleOwner
    Reward := ⟨"ukava", 7⟩
    RewardIndexes := [NewRewardIndex "bnb-a" ⟨2000000000000000000⟩] }

/-- A store state of the incentive module at `keeper.sampleBlockTime`: the module account
exists, `bnb-a` is a collateral type of the cdp keeper and has a reward period, an accrual
time and the global reward factor `2.0`, the sample owner has the sample claim, and there is
no hard liquidity data. -/
def sampleStore : Context :=
  { blockTime := keeper.sampleBlockTime
    moduleAccount := true
    collateral := fun ctype => decide (ctype = "bnb-a")
    params := sampleParams
    previousUSDXMintingAccrualTime := fun ctype =>
      if ctype = "bnb-a" then some keeper.samplePreviousAccrualTime else none
    usdxMintingRewardFactor := fun ctype =>
      if ctype = "bnb-a" then some ⟨2000000000000000000⟩ else none
    previousHardSupplyRewardAccrualTime := fun _ => none
    previousHardBorrowRewardAccrualTime := fun _ => none
    previousHardDelegatorRewardAccrualTime := fun _ => none
    hardSupplyRewardIndexes := fun _ => none
    hardBorrowRewardIndexes := fun _ => none
    hardDelegatorRewardFactor := fun _ => none
    usdxMintingClaims := [sampleClaim]
    hardLiquidityProviderClaims := [] }

/-- The functions outside the sources for the sample store: the validation accepts every
genesis state, and the synchronisation of a claim leaves the store and the claim as they
are, which is what `SynchronizeClaim` of `rewards.go` does for a claim whose owner has no
CDP (every reward index is skipped and the claim is returned with a nil error). -/
def sampleOutside : Outside :=
  { validate := fun _ => none
    synchronizeUSDXMintingClaim := fun ctx claim => some (ctx, claim, none)
    synchronizeHardLiquidityProviderClaim := fun ctx _ => some ctx }

/-- The genesis state exported from the sample store. -/
def sampleGenesisState : GenesisState :=
  { Params := sampleParams
    USDXAccumulationTimes :=
      [NewGenesisAccumulationTime "bnb-a" keeper.samplePreviousAccrualTime
        ⟨2000000000000000000⟩]
    HardSupplyAccumulationTimes := []
    HardBorrowAccumulationTimes := []
    HardDelegatorAccumulationTimes := []
    USDXMintingClaims := [sampleClaim]
    HardLiquidityProviderClaims := [] }

end incentive

namespace v0_13

/-! ## Auxiliary results -/

/-- A Go `error` that is not nil is some error value. -/
theorem error_of_ne_none {o : Option ValidationError} (h : o ≠ none) :
    ∃ err, o = some err := by
  cases o with
  | none => exact absurd rfl h
  | some e => exact ⟨e, rfl⟩

/-- A validation that neither panics nor returns nil returns an error. -/
theorem error_of_returned {o : Option (Option ValidationError)} (hpanic : o ≠ none)
    (hnil : o ≠ some none) : ∃ err, o = some (some err) := by
  cases o with
  | none => exact absurd rfl hpanic
  | some r =>
    cases r with
    | none => exact absurd rfl hnil
    | some e => exact ⟨e, rfl⟩

/-! ## Bit lengths and the range of `sdk.Int` -/

/-- The halving loop, given enough fuel, counts the binary digits: the count exceeds `k`
exactly when the number is at least `2^k`. -/
theorem bitLenLoop_lt_iff (fuel n k : Nat) (h : n ≤ fuel) :
    k < bitLenLoop fuel n ↔ 2 ^ k ≤ n := by
  induction fuel generalizing n k with
  | zero =>
    obtain rfl : n = 0 := by omega
    simp [bitLenLoop]
  | succ fuel ih =>
    unfold bitLenLoop
    by_cases hn : n = 0
    · subst hn
      simp
    · rw [if_neg hn]
      cases k with
      | zero =>
        simp only [Nat.zero_lt_succ, pow_zero, true_iff]
        omega
      | succ k =>
        rw [Nat.succ_lt_succ_iff, ih (n / 2) k (by omega), Nat.le_div_iff_mul_le (by decide),
          pow_succ]

/-- The bit length of an integer is at most `n` exactly when its absolute value is below
`2^n`. -/
theorem BitLen_le_iff (x : Int) (n : Nat) : BitLen x ≤ n ↔ |x| < 2 ^ n := by
  unfold BitLen
  rw [← not_lt, bitLenLoop_lt_iff _ _ _ (le_refl _), not_le, Int.abs_eq_natAbs]
  exact_mod_cast Iff.rfl

/-- The sum of two `sdk.Int` values is returned when it is within the range. -/
theorem sdkInt_Add_of_lt (i i2 : Int) (h : |i + i2| < 2 ^ 255) :
    sdkInt.Add i i2 = some (i + i2) := by
  unfold sdkInt.Add
  have : ¬ BitLen (i + i2) > maxBitLen := by
    rw [not_lt]
    exact (BitLen_le_iff _ _).mpr h
  simp only [this, if_false]

/-- The sum of two `sdk.Int` values panics exactly when it is out of the range. -/
theorem sdkInt_Add_eq_none_iff (i i2 : Int) :
    sdkInt.Add i i2 = none ↔ 2 ^ 255 ≤ |i + i2| := by
  unfold sdkInt.Add
  by_cases h : BitLen (i + i2) > maxBitLen
  · simp only [h, if_true, true_iff]
    by_contra hlt
    exact absurd ((BitLen_le_iff _ _).mpr (not_le.mp hlt)) (not_le.mpr h)
  · simp only [h, if_false, reduceCtorEq, false_iff, not_le]
    exact (BitLen_le_iff _ _).mp (not_lt.mp h)

/-- The product of two `sdk.Int` values that are not zero is returned when it is within the
range: the check of the bit lengths before the multiplication then passes as well. -/
theorem sdkInt_Mul_of_lt (i i2 : Int) (hi : i ≠ 0) (hi2 : i2 ≠ 0) (h : |i * i2| < 2 ^ 255) :
    sdkInt.Mul i i2 = some (i * i2) := by
  have hpos : ∀ x : Int, x ≠ 0 → (2 : Int) ^ (BitLen x - 1) ≤ |x| ∧ 1 ≤ BitLen x := by
    intro x hx
    have h1 : 1 ≤ BitLen x := by
      by_contra hlt
      have h0 : BitLen x ≤ 0 := by omega
      rw [BitLen_le_iff, pow_zero, Int.abs_lt_one_iff] at h0
      exact hx h0
    refine ⟨?_, h1⟩
    by_contra hlt
    have := (BitLen_le_iff x (BitLen x - 1)).mpr (not_le.mp hlt)
    omega
  obtain ⟨ha, ha1⟩ := hpos i hi
  obtain ⟨hb, hb1⟩ := hpos i2 hi2
  have hmul : (2 : Int) ^ (BitLen i - 1 + (BitLen i2 - 1)) ≤ |i * i2| := by
    rw [pow_add, abs_mul]
    exact mul_le_mul ha hb (by positivity) (abs_nonneg _)
  have hexp : BitLen i - 1 + (BitLen i2 - 1) < 255 :=
    (pow_lt_pow_iff_right₀ (by norm_num)).mp (lt_of_le_of_lt hmul h)
  have h1 : ¬ ((BitLen i : Int) + (BitLen i2 : Int) - 1 > (maxBitLen : Int)) := by
    simp only [maxBitLen]
    omega
  have h2 : ¬ BitLen (i * i2) > maxBitLen := by
    rw [not_lt]
    exact (BitLen_le_iff _ _).mpr h
  unfold sdkInt.Mul
  simp only [h1, h2, if_false]

/-- The product of two `sdk.Int` values panics when it is out of the range. -/
theorem sdkInt_Mul_of_ge (i i2 : Int) (h : 2 ^ 255 ≤ |i * i2|) : sdkInt.Mul i i2 = none := by
  have h2 : BitLen (i * i2) > maxBitLen := by
    by_contra hle
    exact absurd ((BitLen_le_iff _ _).mp (not_lt.mp hle)) (not_lt.mpr h)
  unfold sdkInt.Mul
  split_ifs with h1
  · rfl
  · simp only [h2, if_true]

/-! ## Denominations -/

/-- The pattern of `sdk.ValidateDenom` on examples: `usdx` and a name of 16 characters are
valid denominations; a name with a slash, a name of 17 characters, a name of two characters
and a name that starts with a digit are not. -/
theorem ValidateDenom_examples :
    ValidateDenom "usdx" = true ∧ ValidateDenom "abcdefghijklmnop" = true ∧
      ValidateDenom "ibc/27" = false ∧ ValidateDenom "abcdefghijklmnopq" = false ∧
      ValidateDenom "ab" = false ∧ ValidateDenom "1abc" = false := by
  decide

/-! ## Auxiliary results on the genesis validation -/

/-- The genesis loop returns nil exactly when every auction still to visit is valid, has an
identifier below the counter that was not seen before, and the identifiers still to visit
are pairwise distinct. -/
theorem GenesisState_validateLoop_eq_none_iff (next : Nat) (l : List GenesisAuction)
    (ids : Nat → Bool) :
    GenesisState.validateLoop next l ids = some none ↔
      (∀ a ∈ l, a.Validate = some none ∧ a.GetID < next ∧ ids a.GetID = false) ∧
        (l.map GenesisAuction.GetID).Nodup := by
  induction l generalizing ids with
  | nil => simp [GenesisState.validateLoop]
  | cons a rest ih =>
    unfold GenesisState.validateLoop
    cases hv : a.Validate with
    | none => simp [hv]
    | some r =>
      cases r with
      | some err => simp [hv]
      | none =>
        by_cases hseen : ids a.GetID = true
        · simp [hseen]
        · by_cases hge : a.GetID ≥ next
          · simp only [hseen, hge]
            simp
            intro _ h
            omega
          · have hseen' : ids a.GetID = false := by simpa using hseen
            simp only [hseen', hge, Bool.false_eq_true, if_false, ih]
            simp only [List.mem_cons, forall_eq_or_imp, List.map_cons, List.nodup_cons,
              List.mem_map, not_exists, not_and, Function.update_apply]
            constructor
            · rintro ⟨hall, hnd⟩
              refine ⟨⟨⟨hv, by omega, hseen'⟩, ?_⟩, ?_, hnd⟩
              · intro b hb
                obtain ⟨h1, h2, h3⟩ := hall b hb
                refine ⟨h1, h2, ?_⟩
                by_cases hEq : b.GetID = a.GetID
                · simp [hEq] at h3
                · simpa [hEq] using h3
              · intro b hb hEq
                obtain ⟨_, _, h3⟩ := hall b hb
                simp [hEq] at h3
            · rintro ⟨⟨_, hall⟩, hnot, hnd⟩
              refine ⟨?_, hnd⟩
              intro b hb
              obtain ⟨h1, h2, h3⟩ := hall b hb
              refine ⟨h1, h2, ?_⟩
              have hne : b.GetID ≠ a.GetID := hnot b hb
              simpa [hne] using h3

/-- The genesis loop does not panic when the validation of no auction still to visit
panics. -/
theorem GenesisState_validateLoop_ne_none (next : Nat) (l : List GenesisAuction)
    (ids : Nat → Bool) (hall : ∀ a ∈ l, a.Validate ≠ none) :
    GenesisState.validateLoop next l ids ≠ none := by
  induction l generalizing ids with
  | nil => simp [GenesisState.validateLoop]
  | cons a rest ih =>
    unfold GenesisState.validateLoop
    cases hv : a.Validate with
    | none => exact absurd hv (hall a (List.mem_cons_self _ _))
    | some r =>
      cases r with
      | some err => simp
      | none =>
        simp only
        split_ifs
        · simp
        · simp
        · exact ih _ fun b hb => hall b (List.mem_cons_of_mem _ hb)

/-- The genesis validation returns nil exactly when the parameters are valid, every auction
is valid with an identifier below the counter, and the identifiers are pairwise distinct. -/
theorem GenesisState_Validate_eq_none_iff (gs : GenesisState) :
    gs.Validate = some none ↔
      gs.Params.Validate = none ∧
      (∀ a ∈ gs.Auctions, a.Validate = some none ∧ a.GetID < gs.NextAuctionID) ∧
        (gs.Auctions.map GenesisAuction.GetID).Nodup := by
  unfold GenesisState.Validate
  cases hp : gs.Params.Validate with
  | some err => simp
  | none => simp [GenesisState_validateLoop_eq_none_iff]

/-- The genesis validation does not panic when the validation of no auction panics. -/
theorem GenesisState_Validate_ne_none (gs : GenesisState)
    (hall : ∀ a ∈ gs.Auctions, a.Validate ≠ none) : gs.Validate ≠ none := by
  unfold GenesisState.Validate
  cases hp : gs.Params.Validate with
  | some err => simp
  | none => exact GenesisState_validateLoop_ne_none _ _ _ hall

/-- A coin is valid exactly when its denomination is valid and its amount is not negative. -/
theorem Coin_IsValid_iff (coin : Coin) :
    coin.IsValid = true ↔ ValidateDenom coin.Denom = true ∧ 0 ≤ coin.Amount := by
  simp [Coin.IsValid]

/-- The base validation returns nil exactly when each of its six checks passes. -/
theorem BaseAuction_Validate_eq_none_iff (a : BaseAuction) :
    a.Validate = none ↔
      TrimSpace a.Initiator ≠ "" ∧ a.Lot.IsValid = true ∧
        (a.Bidder.Empty = true ∨ a.Bidder.length = AddrLen) ∧ a.Bid.IsValid = true ∧
        a.EndTime.IsZero = false ∧ a.MaxEndTime.IsZero = false ∧
        a.EndTime.After a.MaxEndTime = false := by
  unfold BaseAuction.Validate
  by_cases h1 : TrimSpace a.Initiator = "" <;>
  by_cases h3 : a.Bidder.length = AddrLen <;>
  cases h2 : a.Lot.IsValid <;>
  cases he : AccAddress.Empty a.Bidder <;>
  cases h4 : a.Bid.IsValid <;>
  cases h5 : a.EndTime.IsZero <;>
  cases h6 : a.MaxEndTime.IsZero <;>
  cases h7 : a.EndTime.After a.MaxEndTime <;>
  simp [h1, h3]

/-! ## Genesis validation -/

/-- C1, refuted as stated: the auctions of the sample state `genesisWithOverflow` at the
positions 0 and 1 share the ID 1, and `GenesisState.Validate` does not return an error on
it: validating the first auction, a collateral auction whose weights `2^255 - 1` and 1 are
within the range of `sdk.Int`, panics in `sdk.Int.Add`, before the identifiers are
compared. -/
theorem GenesisState_Validate_duplicate_id_panics :
    (∃ a b, genesisWithOverflow.Auctions[0]? = some a ∧
        genesisWithOverflow.Auctions[1]? = some b ∧ a.GetID = b.GetID) ∧
      genesisWithOverflow.Validate = none ∧
      ¬ ∃ err, genesisWithOverflow.Validate = some (some err) := by
  have hpanic : genesisWithOverflow.Validate = none := by
    set_option maxRecDepth 100000 in decide
  refine ⟨⟨_, _, rfl, rfl, by decide⟩, hpanic, ?_⟩
  rintro ⟨err, herr⟩
  rw [hpanic] at herr
  cases herr

/-- C1, amended: a genesis state whose auction list holds, at two different positions, two
entries with the same ID is never accepted: `GenesisState.Validate` does not return nil,
and it returns an error whenever the validation of no auction panics (the validation of a
collateral auction panics when the total of its weights leaves the range of `sdk.Int`). -/
theorem GenesisState_Validate_duplicate_id_error (gs : GenesisState) (i j : Nat)
    (a b : GenesisAuction) (hij : i ≠ j) (hi : gs.Auctions[i]? = some a)
    (hj : gs.Auctions[j]? = some b) (hid : a.GetID = b.GetID) :
    gs.Validate ≠ some none ∧
      ((∀ c ∈ gs.Auctions, c.Validate ≠ none) → ∃ err, gs.Validate = some (some err)) := by
  have hnil : gs.Validate ≠ some none := by
    intro hnil
    obtain ⟨_, _, hnd⟩ := (GenesisState_Validate_eq_none_iff gs).mp hnil
    have hlen : i < (gs.Auctions.map GenesisAuction.GetID).length := by
      have := (List.getElem?_eq_some_iff.mp hi).1
      simpa using this
    have heq : (gs.Auctions.map GenesisAuction.GetID)[i]? =
        (gs.Auctions.map GenesisAuction.GetID)[j]? := by
      simp [List.getElem?_map, hi, hj, hid]
    exact hij (List.getElem?_inj hlen hnd heq)
  exact ⟨hnil, fun hall => error_of_returned (GenesisState_Validate_ne_none gs hall) hnil⟩

/-- Witness for the amended C1 on a state whose first and third auctions both have the ID
1 and in which no validation panics: an error is returned. -/
theorem GenesisState_Validate_duplicate_id_error_witness :
    ∃ err, genesisWithDuplicateID.Validate = some (some err) :=
  (GenesisState_Validate_duplicate_id_error genesisWithDuplicateID 0 2
    (.surplus (sampleSurplus.WithID 1)) (.collateral (sampleCollateral.WithID 1))
    (by decide) (by decide) (by decide) (by decide)).2 (by decide)

/-- C2, refuted as stated: the sample state `genesisWithOverflow` has the counter 1 and
contains an auction with the ID 1, yet it is not rejected with an error:
`GenesisState.Validate` panics in `sdk.Int.Add` while it validates the collateral auction,
whose weights are `2^255 - 1` and 1. -/
theorem GenesisState_Validate_id_at_counter_panics :
    (∃ a ∈ genesisWithOverflow.Auctions, a.GetID ≥ genesisWithOverflow.NextAuctionID) ∧
      genesisWithOverflow.Validate = none ∧
      ¬ ∃ err, genesisWithOverflow.Validate = some (some err) := by
  have hpanic : genesisWithOverflow.Validate = none := by
    set_option maxRecDepth 100000 in decide
  refine ⟨⟨.surplus (sampleSurplus.WithID 1), by decide, by decide⟩, hpanic, ?_⟩
  rintro ⟨err, herr⟩
  rw [hpanic] at herr
  cases herr

/-- C2, amended: if `GenesisState.Validate` returns nil then every auction's ID is strictly
less than `NextAuctionID`; equivalently, a state that contains an auction whose ID is at
least `NextAuctionID` is never accepted, and it is rejected with an error whenever the
validation of no auction panics. -/
theorem GenesisState_Validate_ids_below_counter (gs : GenesisState) :
    (gs.Validate = some none → ∀ a ∈ gs.Auctions, a.GetID < gs.NextAuctionID) ∧
      ((∃ a ∈ gs.Auctions, a.GetID ≥ gs.NextAuctionID) →
        gs.Validate ≠ some none ∧
          ((∀ c ∈ gs.Auctions, c.Validate ≠ none) →
            ∃ err, gs.Validate = some (some err))) := by
  have key : gs.Validate = some none → ∀ a ∈ gs.Auctions, a.GetID < gs.NextAuctionID := by
    intro hnil a ha
    exact (((GenesisState_Validate_eq_none_iff gs).mp hnil).2.1 a ha).2
  refine ⟨key, ?_⟩
  rintro ⟨a, ha, hge⟩
  have hnil : gs.Validate ≠ some none := by
    intro hnil
    have := key hnil a ha
    omega
  exact ⟨hnil, fun hall => error_of_returned (GenesisState_Validate_ne_none gs hall) hnil⟩

/-- Witness for the amended C2: a valid state has all its IDs below the counter, and a state
with an ID equal to the counter, in which no validation panics, is rejected with an
error. -/
theorem GenesisState_Validate_ids_below_counter_witness :
    (∀ a ∈ genesisValid.Auctions, a.GetID < genesisValid.NextAuctionID) ∧
      ∃ err, genesisWithIDAtCounter.Validate = some (some err) :=
  ⟨(GenesisState_Validate_ids_below_counter genesisValid).1 (by decide),
    ((GenesisState_Validate_ids_below_counter genesisWithIDAtCounter).2
      ⟨.debt (sampleDebt.WithID 3), by decide, by decide⟩).2 (by decide)⟩

/-- C3, refuted as stated: the genesis state with the default counter 1 and a single valid
surplus auction whose ID is 0 contains an auction with ID 0, and `GenesisState.Validate`
returns nil on it. -/
theorem GenesisState_Validate_accepts_zero_id :
    (∃ a ∈ genesisWithZeroID.Auctions, a.GetID = 0) ∧
      genesisWithZeroID.Validate = some none :=
  ⟨⟨.surplus sampleSurplus, by decide, by decide⟩, by decide⟩

/-- The validation of the sample state `genesisWithOverflowZeroCounter`, whose counter is 0
and whose one auction, with the ID 0, is a collateral auction with the weights `2^255 - 1`
and 1, panics in `sdk.Int.Add`: no error is returned. -/
theorem GenesisState_Validate_zero_counter_panics :
    genesisWithOverflowZeroCounter.NextAuctionID = 0 ∧
      (∃ a ∈ genesisWithOverflowZeroCounter.Auctions, a.GetID = 0) ∧
      genesisWithOverflowZeroCounter.Validate = none := by
  refine ⟨rfl, ⟨.collateral sampleCollateralOverflow, List.mem_singleton.mpr rfl, rfl⟩, ?_⟩
  set_option maxRecDepth 100000 in decide

/-- C3, amended: ID 0 is treated like any other ID. The validation of an auction does not
inspect its ID, and a genesis state that contains an auction whose ID is 0 is accepted
exactly when the parameters are valid, every auction is valid, the IDs are pairwise distinct
and every ID is strictly less than `NextAuctionID`; in particular it is never accepted when
`NextAuctionID` is 0, and it is then rejected with an error whenever the validation of no
auction panics. -/
theorem GenesisState_Validate_zero_id (gs : GenesisState)
    (hzero : ∃ a ∈ gs.Auctions, a.GetID = 0) :
    (∀ (a : GenesisAuction) (id : Nat), (a.WithID id).Validate = a.Validate) ∧
      (gs.Validate = some none ↔
        gs.Params.Validate = none ∧ (∀ a ∈ gs.Auctions, a.Validate = some none) ∧
          (gs.Auctions.map GenesisAuction.GetID).Nodup ∧
          ∀ a ∈ gs.Auctions, a.GetID < gs.NextAuctionID) ∧
      (gs.NextAuctionID = 0 →
        gs.Validate ≠ some none ∧
          ((∀ c ∈ gs.Auctions, c.Validate ≠ none) →
            ∃ err, gs.Validate = some (some err))) := by
  have hiff : gs.Validate = some none ↔
      gs.Params.Validate = none ∧ (∀ a ∈ gs.Auctions, a.Validate = some none) ∧
        (gs.Auctions.map GenesisAuction.GetID).Nodup ∧
        ∀ a ∈ gs.Auctions, a.GetID < gs.NextAuctionID := by
    rw [GenesisState_Validate_eq_none_iff]
    constructor
    · rintro ⟨hp, hall, hnd⟩
      exact ⟨hp, fun a ha => (hall a ha).1, hnd, fun a ha => (hall a ha).2⟩
    · rintro ⟨hp, hv, hnd, hlt⟩
      exact ⟨hp, fun a ha => ⟨hv a ha, hlt a ha⟩, hnd⟩
  refine ⟨?_, hiff, ?_⟩
  · intro a id
    cases a <;> rfl
  · intro hnext
    have hnil : gs.Validate ≠ some none := by
      intro hnil
      obtain ⟨a, ha, _⟩ := hzero
      have := (hiff.mp hnil).2.2.2 a ha
      omega
    exact ⟨hnil, fun hall => error_of_returned (GenesisState_Validate_ne_none gs hall) hnil⟩

/-- Witness for the amended C3 on the state with counter 1 and a single auction of ID 0,
which is accepted. -/
theorem GenesisState_Validate_zero_id_witness : genesisWithZeroID.Validate = some none :=
  ((GenesisState_Validate_zero_id genesisWithZeroID
      ⟨.surplus sampleSurplus, by decide, by decide⟩).2.1).mpr
    ⟨by decide, by decide, by decide, by decide⟩

/-! ## Validation of auction records -/

/-- C4: if `BaseAuction.Validate` returns nil then `EndTime` is not after `MaxEndTime`,
neither of the two is the zero time, `Lot` and `Bid` are valid coins (valid denomination and
non-negative amount), and `Bidder` is either empty or exactly `AddrLen` bytes long. -/
theorem BaseAuction_Validate_nil_invariants (a : BaseAuction) (h : a.Validate = none) :
    a.EndTime.After a.MaxEndTime = false ∧ a.EndTime.ns ≤ a.MaxEndTime.ns ∧
      a.EndTime.IsZero = false ∧ a.MaxEndTime.IsZero = false ∧
      a.Lot.IsValid = true ∧ ValidateDenom a.Lot.Denom = true ∧ 0 ≤ a.Lot.Amount ∧
      a.Bid.IsValid = true ∧ ValidateDenom a.Bid.Denom = true ∧ 0 ≤ a.Bid.Amount ∧
      (a.Bidder.Empty = true ∨ a.Bidder.length = AddrLen) := by
  obtain ⟨_, hlot, hbidder, hbid, hend, hmax, hafter⟩ :=
    (BaseAuction_Validate_eq_none_iff a).mp h
  have hlot2 := (Coin_IsValid_iff a.Lot).mp hlot
  have hbid2 := (Coin_IsValid_iff a.Bid).mp hbid
  refine ⟨hafter, ?_, hend, hmax, hlot, hlot2.1, hlot2.2, hbid, hbid2.1, hbid2.2, hbidder⟩
  simpa [Time.After] using hafter

/-- Witness for C4 on the base record of the sample debt auction, whose bidder is an address
of `AddrLen` bytes. -/
theorem BaseAuction_Validate_nil_invariants_witness :
    sampleDebt.toBaseAuction.EndTime.ns ≤ sampleDebt.toBaseAuction.MaxEndTime.ns ∧
      sampleDebt.toBaseAuction.Bidder.length = AddrLen :=
  ⟨(BaseAuction_Validate_nil_invariants sampleDebt.toBaseAuction (by decide)).2.1, by decide⟩

/-- C5: `DebtAuction.Validate` returns nil if and only if `CorrespondingDebt` is a valid coin
and the embedded `BaseAuction.Validate` returns nil; `CollateralAuction.Validate` returns nil
if and only if `CorrespondingDebt` and `MaxBid` are valid coins, `LotReturns.Validate`
returns nil and the embedded `BaseAuction.Validate` returns nil. In particular a surplus,
debt or collateral auction that validates also passes the base validation. -/
theorem variant_Validate_iff (s : SurplusAuction) (d : DebtAuction) (c : CollateralAuction) :
    (d.Validate = none ↔
        d.CorrespondingDebt.IsValid = true ∧ d.toBaseAuction.Validate = none) ∧
      (c.Validate = some none ↔
        c.CorrespondingDebt.IsValid = true ∧ c.MaxBid.IsValid = true ∧
          c.LotReturns.Validate = some none ∧ c.toBaseAuction.Validate = none) ∧
      (s.Validate = none → s.toBaseAuction.Validate = none) ∧
      (d.Validate = none → d.toBaseAuction.Validate = none) ∧
      (c.Validate = some none → c.toBaseAuction.Validate = none) := by
  have hd : d.Validate = none ↔
      d.CorrespondingDebt.IsValid = true ∧ d.toBaseAuction.Validate = none := by
    unfold DebtAuction.Validate
    cases h : d.CorrespondingDebt.IsValid <;> simp
  have hc : c.Validate = some none ↔
      c.CorrespondingDebt.IsValid = true ∧ c.MaxBid.IsValid = true ∧
        c.LotReturns.Validate = some none ∧ c.toBaseAuction.Validate = none := by
    unfold CollateralAuction.Validate
    cases h1 : c.CorrespondingDebt.IsValid <;> cases h2 : c.MaxBid.IsValid <;>
      rcases h3 : c.LotReturns.Validate with _ | _ | _ <;> simp
  exact ⟨hd, hc, fun h => h, fun h => (hd.mp h).2, fun h => (hc.mp h).2.2.2⟩

/-- Witness for C5: the sample debt and collateral auctions validate, and so do their base
records. -/
theorem variant_Validate_iff_witness :
    sampleDebt.Validate = none ∧ sampleCollateral.Validate = some none ∧
      sampleCollateral.toBaseAuction.Validate = none :=
  ⟨(variant_Validate_iff sampleSurplus sampleDebt sampleCollateral).1.mpr
      ⟨by decide, by decide⟩,
    (variant_Validate_iff sampleSurplus sampleDebt sampleCollateral).2.1.mpr
      ⟨by decide, by decide, by decide, by decide⟩,
    (variant_Validate_iff sampleSurplus sampleDebt sampleCollateral).2.2.2.2 (by decide)⟩

/-- The loop over the weighted addresses, started with a total weight within the range of
`sdk.Int`, ends with a total exactly when every visited address is non-empty and `AddrLen`
bytes long, every visited weight is non-negative, and the initial total plus the sum of the
visited weights stays within the range; the total is then that sum. -/
theorem WeightedAddresses_validateLoop_ok_iff (l : List (AccAddress × Int)) (i : Nat)
    (totalWeight result : Int) (hnonneg : 0 ≤ totalWeight) (hrange : totalWeight < 2 ^ 255) :
    WeightedAddresses.validateLoop l i totalWeight = some (.ok result) ↔
      (∀ p ∈ l, p.1.Empty = false ∧ p.1.length = AddrLen ∧ 0 ≤ p.2) ∧
        totalWeight + (l.map Prod.snd).sum < 2 ^ 255 ∧
        result = totalWeight + (l.map Prod.snd).sum := by
  induction l generalizing i totalWeight with
  | nil =>
    simp only [WeightedAddresses.validateLoop, List.not_mem_nil, false_implies, implies_true,
      List.map_nil, List.sum_nil, add_zero, true_and, Option.some.injEq, Except.ok.injEq,
      hrange]
    exact eq_comm
  | cons p rest ih =>
    obtain ⟨address, weight⟩ := p
    unfold WeightedAddresses.validateLoop
    by_cases h1 : address.Empty = true
    · simp [h1]
    · by_cases h2 : address.length ≠ AddrLen
      · simp [h1, h2]
      · by_cases h3 : weight < 0
        · simp only [h1, h2, h3, if_true, if_false, Bool.false_eq_true]
          simp
          intro _ _ h
          omega
        · have h1' : address.Empty = false := by simpa using h1
          have h2' : address.length = AddrLen := by simpa using h2
          have h3' : 0 ≤ weight := not_lt.mp h3
          simp only [h1', h2, h3, if_false, Bool.false_eq_true]
          simp only [List.mem_cons, forall_eq_or_imp, List.map_cons, List.sum_cons]
          by_cases hadd : totalWeight + weight < 2 ^ 255
          · have habs : |totalWeight + weight| < 2 ^ 255 := by
              rw [abs_of_nonneg (by omega)]
              exact hadd
            rw [sdkInt_Add_of_lt _ _ habs]
            simp only
            rw [ih (i + 1) (totalWeight + weight) (by omega) hadd]
            constructor
            · rintro ⟨hall, hlt, hres⟩
              exact ⟨⟨⟨h1', h2', h3'⟩, hall⟩, by omega, by omega⟩
            · rintro ⟨⟨_, hall⟩, hlt, hres⟩
              exact ⟨hall, by omega, by omega⟩
          · have habs : 2 ^ 255 ≤ |totalWeight + weight| := by
              rw [abs_of_nonneg (by omega)]
              exact not_lt.mp hadd
            rw [(sdkInt_Add_eq_none_iff _ _).mpr habs]
            simp only [reduceCtorEq, false_iff, not_and]
            rintro ⟨_, hall⟩ hlt
            have hsum : 0 ≤ (rest.map Prod.snd).sum := by
              apply List.sum_nonneg
              intro w hw
              obtain ⟨q, hq, rfl⟩ := List.mem_map.mp hw
              exact (hall q hq).2.2
            omega

/-- The loop over the weighted addresses returns no error when every visited address is
non-empty and `AddrLen` bytes long and every visited weight is non-negative. -/
theorem WeightedAddresses_validateLoop_no_error (l : List (AccAddress × Int)) (i : Nat)
    (totalWeight : Int)
    (hall : ∀ p ∈ l, p.1.Empty = false ∧ p.1.length = AddrLen ∧ 0 ≤ p.2)
    (err : ValidationError) :
    WeightedAddresses.validateLoop l i totalWeight ≠ some (.error err) := by
  induction l generalizing i totalWeight with
  | nil => simp [WeightedAddresses.validateLoop]
  | cons p rest ih =>
    obtain ⟨address, weight⟩ := p
    obtain ⟨h1, h2, h3⟩ := hall (address, weight) (List.mem_cons_self _ _)
    have hrest : ∀ q ∈ rest, q.1.Empty = false ∧ q.1.length = AddrLen ∧ 0 ≤ q.2 :=
      fun q hq => hall q (List.mem_cons_of_mem _ hq)
    unfold WeightedAddresses.validateLoop
    simp only at h1 h2 h3
    simp only [h1, h2, not_lt.mpr h3, Bool.false_eq_true, if_false, ne_eq, not_true_eq_false]
    cases sdkInt.Add totalWeight weight with
    | none => simp
    | some total => exact ih _ _ hrest

/-- A list of non-negative integers has a positive sum exactly when it has a positive
element. -/
theorem sum_pos_iff_exists_pos (l : List Int) (hnonneg : ∀ w ∈ l, 0 ≤ w) :
    0 < l.sum ↔ ∃ w ∈ l, 0 < w := by
  induction l with
  | nil => simp
  | cons x rest ih =>
    have hx : 0 ≤ x := hnonneg x (List.mem_cons_self _ _)
    have hrest : ∀ w ∈ rest, 0 ≤ w := fun w hw => hnonneg w (List.mem_cons_of_mem _ hw)
    have hsum : 0 ≤ rest.sum := List.sum_nonneg hrest
    simp only [List.sum_cons, List.mem_cons, exists_eq_or_imp]
    rw [← ih hrest]
    constructor
    · intro h
      by_cases hx0 : 0 < x
      · exact Or.inl hx0
      · exact Or.inr (by omega)
    · rintro (h | h) <;> omega

/-- The two conditions on the zipped addresses and weights are the conditions on the
addresses and on the weights. -/
theorem WeightedAddresses_zip_conditions (wa : WeightedAddresses)
    (hlen : wa.Addresses.length = wa.Weights.length) :
    (∀ p ∈ wa.Addresses.zip wa.Weights,
        p.1.Empty = false ∧ p.1.length = AddrLen ∧ 0 ≤ p.2) ↔
      (∀ address ∈ wa.Addresses, address.Empty = false ∧ address.length = AddrLen) ∧
        (∀ weight ∈ wa.Weights, 0 ≤ weight) := by
  have hfst : (wa.Addresses.zip wa.Weights).map Prod.fst = wa.Addresses :=
    List.map_fst_zip _ _ (by omega)
  have hsnd : (wa.Addresses.zip wa.Weights).map Prod.snd = wa.Weights :=
    List.map_snd_zip _ _ (by omega)
  constructor
  · intro h
    constructor
    · intro address ha
      rw [← hfst] at ha
      obtain ⟨p, hp, rfl⟩ := List.mem_map.mp ha
      exact ⟨(h p hp).1, (h p hp).2.1⟩
    · intro weight hw
      rw [← hsnd] at hw
      obtain ⟨p, hp, rfl⟩ := List.mem_map.mp hw
      exact (h p hp).2.2
  · rintro ⟨ha, hw⟩ p hp
    exact ⟨(ha p.1 (List.of_mem_zip hp).1).1, (ha p.1 (List.of_mem_zip hp).1).2,
      hw p.2 (List.of_mem_zip hp).2⟩

/-- Characterisation of the weighted addresses that validate: the conditions on the lengths,
the addresses and the weights hold, and the sum of the weights is positive and within the
range of `sdk.Int`. -/
theorem WeightedAddresses_Validate_eq_none_iff (wa : WeightedAddresses) :
    wa.Validate = some none ↔
      1 ≤ wa.Weights.length ∧ wa.Addresses.length = wa.Weights.length ∧
        (∀ address ∈ wa.Addresses, address.Empty = false ∧ address.length = AddrLen) ∧
        (∀ weight ∈ wa.Weights, 0 ≤ weight) ∧ 0 < wa.Weights.sum ∧
        wa.Weights.sum < 2 ^ 255 := by
  unfold WeightedAddresses.Validate
  by_cases h1 : wa.Weights.length < 1
  · rw [if_pos h1]
    simp only [Option.some.injEq, reduceCtorEq, false_iff]
    rintro ⟨h, _⟩
    omega
  · by_cases h2 : wa.Addresses.length ≠ wa.Weights.length
    · rw [if_neg h1, if_pos h2]
      simp only [Option.some.injEq, reduceCtorEq, false_iff]
      rintro ⟨_, h, _⟩
      exact h2 h
    · have h2' : wa.Addresses.length = wa.Weights.length := by simpa using h2
      have hsplit := WeightedAddresses_zip_conditions wa h2'
      have hsnd : (wa.Addresses.zip wa.Weights).map Prod.snd = wa.Weights :=
        List.map_snd_zip _ _ (by omega)
      have hok := fun result =>
        WeightedAddresses_validateLoop_ok_iff (wa.Addresses.zip wa.Weights) 0 0 result
          (le_refl _) (by norm_num)
      simp only [hsnd, zero_add] at hok
      rw [if_neg h1, if_neg h2]
      cases hloop : WeightedAddresses.validateLoop (wa.Addresses.zip wa.Weights) 0 0 with
      | none =>
        simp only [reduceCtorEq, false_iff]
        rintro ⟨_, _, ha, hw, _, hlt⟩
        have := (hok wa.Weights.sum).mpr ⟨hsplit.mpr ⟨ha, hw⟩, hlt, rfl⟩
        rw [hloop] at this
        cases this
      | some r =>
        cases r with
        | error err =>
          simp only [Option.some.injEq, reduceCtorEq, false_iff]
          rintro ⟨_, _, ha, hw, _, hlt⟩
          have := (hok wa.Weights.sum).mpr ⟨hsplit.mpr ⟨ha, hw⟩, hlt, rfl⟩
          rw [hloop] at this
          cases this
        | ok total =>
          obtain ⟨hall, hlt, htotal⟩ := (hok total).mp hloop
          obtain ⟨ha, hw⟩ := hsplit.mp hall
          subst htotal
          by_cases hpos : 0 < wa.Weights.sum
          · have hcond : (!decide (0 < wa.Weights.sum)) = false := by simp [hpos]
            simp only [hcond, Bool.false_eq_true, if_false, true_iff]
            exact ⟨by omega, h2', ha, hw, hpos, hlt⟩
          · have hcond : (!decide (0 < wa.Weights.sum)) = true := by simp [hpos]
            simp only [hcond, if_true, Option.some.injEq, reduceCtorEq, false_iff]
            rintro ⟨_, _, _, _, h, _⟩
            exact hpos h

/-- Weighted addresses that meet the conditions on the lengths, the addresses and the
weights, but whose weights add up to `2^255` or more, make the validation panic. -/
theorem WeightedAddresses_Validate_panics (wa : WeightedAddresses)
    (h1 : 1 ≤ wa.Weights.length) (h2 : wa.Addresses.length = wa.Weights.length)
    (ha : ∀ address ∈ wa.Addresses, address.Empty = false ∧ address.length = AddrLen)
    (hw : ∀ weight ∈ wa.Weights, 0 ≤ weight) (hover : 2 ^ 255 ≤ wa.Weights.sum) :
    wa.Validate = none := by
  have hsplit := WeightedAddresses_zip_conditions wa h2
  have hsnd : (wa.Addresses.zip wa.Weights).map Prod.snd = wa.Weights :=
    List.map_snd_zip _ _ (by omega)
  unfold WeightedAddresses.Validate
  rw [if_neg (by omega), if_neg (by simpa using h2)]
  cases hloop : WeightedAddresses.validateLoop (wa.Addresses.zip wa.Weights) 0 0 with
  | none => rfl
  | some r =>
    cases r with
    | error err =>
      exact absurd hloop
        (WeightedAddresses_validateLoop_no_error _ 0 0 (hsplit.mpr ⟨ha, hw⟩) err)
    | ok total =>
      have := (WeightedAddresses_validateLoop_ok_iff (wa.Addresses.zip wa.Weights) 0 0 total
        (le_refl _) (by norm_num)).mp hloop
      rw [hsnd] at this
      omega

/-- C6, refuted as stated: the sample weighted addresses `overflowLotReturns` have two
weights and two addresses, both addresses are non-empty and `AddrLen` bytes long, both
weights are non-negative and their sum is strictly positive, yet
`WeightedAddresses.Validate` does not return nil on them: the weights `2^255 - 1` and 1 are
within the range of `sdk.Int`, and adding them panics in `sdk.Int.Add`. -/
theorem WeightedAddresses_Validate_overflow_panics :
    (1 ≤ overflowLotReturns.Weights.length ∧
        overflowLotReturns.Addresses.length = overflowLotReturns.Weights.length ∧
        (∀ address ∈ overflowLotReturns.Addresses,
          address.Empty = false ∧ address.length = AddrLen) ∧
        (∀ weight ∈ overflowLotReturns.Weights, 0 ≤ weight ∧ BitLen weight ≤ maxBitLen) ∧
        0 < overflowLotReturns.Weights.sum) ∧
      overflowLotReturns.Validate = none ∧ overflowLotReturns.Validate ≠ some none := by
  have hpanic : overflowLotReturns.Validate = none := by
    set_option maxRecDepth 100000 in decide
  refine ⟨⟨by decide, by decide, by decide, ?_, by decide⟩, hpanic, ?_⟩
  · set_option maxRecDepth 100000 in decide
  · rw [hpanic]
    simp

/-- C6, amended: `WeightedAddresses.Validate` returns nil if and only if there is at least
one weight, there are as many addresses as weights, every address is non-empty and exactly
`AddrLen` bytes long, every weight is non-negative, the sum of the weights is strictly
positive (for non-negative weights: at least one weight is positive), and the sum of the
weights is within the range of `sdk.Int`, that is below `2^255`. When the other conditions
hold and the sum is `2^255` or more, the call panics. Duplicate addresses are accepted:
weighted addresses that validate still validate when every address is replaced by one and
the same address of `AddrLen` bytes. -/
theorem WeightedAddresses_Validate_iff (wa : WeightedAddresses) :
    (wa.Validate = some none ↔
        1 ≤ wa.Weights.length ∧ wa.Addresses.length = wa.Weights.length ∧
          (∀ address ∈ wa.Addresses, address.Empty = false ∧ address.length = AddrLen) ∧
          (∀ weight ∈ wa.Weights, 0 ≤ weight) ∧ 0 < wa.Weights.sum ∧
          wa.Weights.sum < 2 ^ 255) ∧
      (1 ≤ wa.Weights.length → wa.Addresses.length = wa.Weights.length →
        (∀ address ∈ wa.Addresses, address.Empty = false ∧ address.length = AddrLen) →
        (∀ weight ∈ wa.Weights, 0 ≤ weight) → 2 ^ 255 ≤ wa.Weights.sum →
        wa.Validate = none) ∧
      ((∀ weight ∈ wa.Weights, 0 ≤ weight) →
        (0 < wa.Weights.sum ↔ ∃ weight ∈ wa.Weights, 0 < weight)) ∧
      (∀ address : AccAddress, address.length = AddrLen → wa.Validate = some none →
        (WeightedAddresses.mk (List.replicate wa.Addresses.length address)
          wa.Weights).Validate = some none) := by
  refine ⟨WeightedAddresses_Validate_eq_none_iff wa, WeightedAddresses_Validate_panics wa,
    sum_pos_iff_exists_pos wa.Weights, ?_⟩
  intro address hlen hnil
  obtain ⟨h1, h2, _, hw, hpos, hlt⟩ := (WeightedAddresses_Validate_eq_none_iff wa).mp hnil
  rw [WeightedAddresses_Validate_eq_none_iff]
  refine ⟨h1, by simpa using h2, ?_, hw, hpos, hlt⟩
  intro a ha
  obtain rfl := List.eq_of_mem_replicate ha
  refine ⟨?_, hlen⟩
  simp [AccAddress.Empty, hlen, AddrLen]

/-- Witness for the amended C6: the sample weighted addresses, in which one address occurs
twice with the weights 0 and 1, validate. -/
theorem WeightedAddresses_Validate_iff_witness :
    sampleLotReturns.Addresses = [sampleAddress, sampleAddress] ∧
      sampleLotReturns.Validate = some none :=
  ⟨rfl, (WeightedAddresses_Validate_iff sampleLotReturns).1.mpr
    ⟨by decide, by decide, by decide, by decide, by decide,
      by norm_num [sampleLotReturns]⟩⟩

/-! ## Phases -/

/-- C7: the phase of a collateral auction is a function of `Bid` and `MaxBid` only: two
collateral auctions with the same `Bid` and the same `MaxBid` have the same phase. When
`Bid` and `MaxBid` have the same denomination, `GetPhase` returns "forward" if the bid amount
is below the maximum bid amount and "reverse" if the two amounts are equal, and
`IsReversePhase` is true exactly when the two amounts are equal. -/
theorem CollateralAuction_phase (a : CollateralAuction) :
    (∀ b : CollateralAuction, b.Bid = a.Bid → b.MaxBid = a.MaxBid →
        b.GetPhase = a.GetPhase ∧ b.IsReversePhase = a.IsReversePhase) ∧
      (a.Bid.Denom = a.MaxBid.Denom →
        (a.Bid.Amount < a.MaxBid.Amount → a.GetPhase = some "forward") ∧
          (a.Bid.Amount = a.MaxBid.Amount → a.GetPhase = some "reverse") ∧
          a.IsReversePhase = some (decide (a.Bid.Amount = a.MaxBid.Amount)) ∧
          (a.IsReversePhase = some true ↔ a.Bid.Amount = a.MaxBid.Amount)) := by
  constructor
  · intro b hbid hmax
    simp [CollateralAuction.GetPhase, CollateralAuction.IsReversePhase, hbid, hmax]
  · intro hdenom
    have hrev : a.IsReversePhase = some (decide (a.Bid.Amount = a.MaxBid.Amount)) := by
      simp [CollateralAuction.IsReversePhase, Coin.IsEqual, hdenom]
    refine ⟨?_, ?_, hrev, ?_⟩
    · intro hlt
      have hne : ¬ a.Bid.Amount = a.MaxBid.Amount := by omega
      simp [CollateralAuction.GetPhase, hrev, hne, ForwardAuctionPhase]
    · intro heq
      simp [CollateralAuction.GetPhase, hrev, heq, ReverseAuctionPhase]
    · simp [hrev]

/-- Witness for C7: the sample collateral auction, with bid `0 usdx` and maximum bid
`50 usdx`, is in forward phase. -/
theorem CollateralAuction_phase_witness : sampleCollateral.GetPhase = some "forward" :=
  ((CollateralAuction_phase sampleCollateral).2 (by decide)).1 (by decide)

/-- C8: `GetPhase` of a surplus auction is "forward" and `GetPhase` of a debt auction is
"reverse", whatever the fields of the auction are. -/
theorem SurplusAuction_DebtAuction_phase (s : SurplusAuction) (d : DebtAuction) :
    s.GetPhase = "forward" ∧ d.GetPhase = "reverse" := by
  constructor
  · simp [SurplusAuction.GetPhase, ForwardAuctionPhase]
  · simp [DebtAuction.GetPhase, ReverseAuctionPhase]

/-! ## Constructors -/

/-- The surplus constructor builds a record exactly when the bid denomination is valid, and
the record is then the one written in the source. -/
theorem NewSurplusAuction_eq (seller : String) (lot : Coin) (bidDenom : String)
    (endTime : Time) :
    NewSurplusAuction seller lot bidDenom endTime =
      if ValidateDenom bidDenom = true then
        some { ID := 0, Initiator := seller, Lot := lot, Bidder := [], Bid := ⟨bidDenom, 0⟩,
               HasReceivedBids := false, EndTime := endTime, MaxEndTime := endTime }
      else none := by
  unfold NewSurplusAuction NewInt64Coin
  cases h : ValidateDenom bidDenom <;> simp

/-- The collateral constructor builds a record exactly when the denomination of the maximum
bid is valid, and the record is then the one written in the source. -/
theorem NewCollateralAuction_eq (seller : String) (lot : Coin) (endTime : Time)
    (maxBid : Coin) (lotReturns : WeightedAddresses) (debt : Coin) :
    NewCollateralAuction seller lot endTime maxBid lotReturns debt =
      if ValidateDenom maxBid.Denom = true then
        some { ID := 0, Initiator := seller, Lot := lot, Bidder := [],
               Bid := ⟨maxBid.Denom, 0⟩, HasReceivedBids := false, EndTime := endTime,
               MaxEndTime := endTime, CorrespondingDebt := debt, MaxBid := maxBid,
               LotReturns := lotReturns }
      else none := by
  unfold NewCollateralAuction NewInt64Coin
  cases h : ValidateDenom maxBid.Denom <;> simp

/-- C9: the record built by `NewSurplusAuction`, `NewDebtAuction` and `NewCollateralAuction`
has `EndTime` and `MaxEndTime` equal to the `endTime` argument (so `EndTime` is not after
`MaxEndTime`), `HasReceivedBids` false and ID 0. `NewDebtAuction` builds a record for every
argument list; the other two build one exactly when the denomination given to
`sdk.NewInt64Coin` is valid (the call panics otherwise). -/
theorem new_auction_end_time_and_id (NewModuleAddress : String → AccAddress)
    (seller bidDenom : String) (lot bid maxBid debt : Coin) (endTime : Time)
    (lotReturns : WeightedAddresses) :
    ((NewDebtAuction NewModuleAddress seller bid lot endTime debt).EndTime = endTime ∧
        (NewDebtAuction NewModuleAddress seller bid lot endTime debt).MaxEndTime = endTime ∧
        (NewDebtAuction NewModuleAddress seller bid lot endTime debt).HasReceivedBids = false ∧
        (NewDebtAuction NewModuleAddress seller bid lot endTime debt).ID = 0) ∧
      (∀ s, NewSurplusAuction seller lot bidDenom endTime = some s →
        s.EndTime = endTime ∧ s.MaxEndTime = endTime ∧ s.EndTime.After s.MaxEndTime = false ∧
          s.HasReceivedBids = false ∧ s.ID = 0) ∧
      ((∃ s, NewSurplusAuction seller lot bidDenom endTime = some s) ↔
        ValidateDenom bidDenom = true) ∧
      (∀ c, NewCollateralAuction seller lot endTime maxBid lotReturns debt = some c →
        c.EndTime = endTime ∧ c.MaxEndTime = endTime ∧ c.EndTime.After c.MaxEndTime = false ∧
          c.HasReceivedBids = false ∧ c.ID = 0) ∧
      ((∃ c, NewCollateralAuction seller lot endTime maxBid lotReturns debt = some c) ↔
        ValidateDenom maxBid.Denom = true) := by
  refine ⟨⟨rfl, rfl, rfl, rfl⟩, ?_, ?_, ?_, ?_⟩
  · intro s hs
    rw [NewSurplusAuction_eq] at hs
    split_ifs at hs
    obtain rfl := Option.some.inj hs
    simp [Time.After]
  · rw [NewSurplusAuction_eq]
    cases h : ValidateDenom bidDenom <;> simp
  · intro c hc
    rw [NewCollateralAuction_eq] at hc
    split_ifs at hc
    obtain rfl := Option.some.inj hc
    simp [Time.After]
  · rw [NewCollateralAuction_eq]
    cases h : ValidateDenom maxBid.Denom <;> simp

/-- Witness for C9: a surplus auction built with the valid bid denomination `ukava` exists
and carries the ID 0. -/
theorem new_auction_end_time_and_id_witness :
    ∃ s, NewSurplusAuction "cdp" ⟨"usdx", 100⟩ "ukava" sampleTime = some s ∧
      s.EndTime = sampleTime ∧ s.ID = 0 :=
  match (new_auction_end_time_and_id sampleModuleAddress "cdp" "ukava" ⟨"usdx", 100⟩
      ⟨"usdx", 50⟩ ⟨"usdx", 50⟩ ⟨"debt", 50⟩ sampleTime sampleLotReturns).2.2.1.mpr
      (by decide) with
  | ⟨s, hs⟩ =>
    ⟨s, hs,
      ((new_auction_end_time_and_id sampleModuleAddress "cdp" "ukava" ⟨"usdx", 100⟩
        ⟨"usdx", 50⟩ ⟨"usdx", 50⟩ ⟨"debt", 50⟩ sampleTime sampleLotReturns).2.1 s hs).1,
      ((new_auction_end_time_and_id sampleModuleAddress "cdp" "ukava" ⟨"usdx", 100⟩
        ⟨"usdx", 50⟩ ⟨"usdx", 50⟩ ⟨"debt", 50⟩ sampleTime sampleLotReturns).2.1 s
          hs).2.2.2.2⟩

/-- C10: a fresh surplus or collateral auction has no bidder and a zero bid. The record built
by `NewSurplusAuction seller lot bidDenom endTime` has an empty `Bidder`, `Bid` equal to 0
of `bidDenom`, `Lot` equal to `lot` and `Initiator` equal to `seller`; the record built by
`NewCollateralAuction seller lot endTime maxBid lotReturns debt` has an empty `Bidder`,
`Bid` equal to 0 of `maxBid.Denom`, and `Lot`, `MaxBid`, `LotReturns` and
`CorrespondingDebt` equal to the arguments. Each record is built exactly when the bid
denomination is valid. -/
theorem new_auction_no_bidder_zero_bid (seller bidDenom : String) (lot maxBid debt : Coin)
    (endTime : Time) (lotReturns : WeightedAddresses) :
    (∀ s, NewSurplusAuction seller lot bidDenom endTime = some s →
        s.Bidder = [] ∧ s.Bidder.Empty = true ∧ s.Bid = ⟨bidDenom, 0⟩ ∧ s.Lot = lot ∧
          s.Initiator = seller) ∧
      ((∃ s, NewSurplusAuction seller lot bidDenom endTime = some s) ↔
        ValidateDenom bidDenom = true) ∧
      (∀ c, NewCollateralAuction seller lot endTime maxBid lotReturns debt = some c →
        c.Bidder = [] ∧ c.Bidder.Empty = true ∧ c.Bid = ⟨maxBid.Denom, 0⟩ ∧ c.Lot = lot ∧
          c.MaxBid = maxBid ∧ c.LotReturns = lotReturns ∧ c.CorrespondingDebt = debt) ∧
      ((∃ c, NewCollateralAuction seller lot endTime maxBid lotReturns debt = some c) ↔
        ValidateDenom maxBid.Denom = true) := by
  refine ⟨?_, ?_, ?_, ?_⟩
  · intro s hs
    rw [NewSurplusAuction_eq] at hs
    split_ifs at hs
    obtain rfl := Option.some.inj hs
    simp [AccAddress.Empty]
  · rw [NewSurplusAuction_eq]
    cases h : ValidateDenom bidDenom <;> simp
  · intro c hc
    rw [NewCollateralAuction_eq] at hc
    split_ifs at hc
    obtain rfl := Option.some.inj hc
    simp [AccAddress.Empty]
  · rw [NewCollateralAuction_eq]
    cases h : ValidateDenom maxBid.Denom <;> simp

/-- Witness for C10: a collateral auction built with the maximum bid `50 usdx` exists, has
no bidder and the bid `0 usdx`. -/
theorem new_auction_no_bidder_zero_bid_witness :
    ∃ c, NewCollateralAuction "cdp" ⟨"bnb", 100⟩ sampleTime ⟨"usdx", 50⟩ sampleLotReturns
        ⟨"debt", 50⟩ = some c ∧ c.Bidder = [] ∧ c.Bid = ⟨"usdx", 0⟩ :=
  match (new_auction_no_bidder_zero_bid "cdp" "ukava" ⟨"bnb", 100⟩ ⟨"usdx", 50⟩ ⟨"debt", 50⟩
      sampleTime sampleLotReturns).2.2.2.mpr (by decide) with
  | ⟨c, hc⟩ =>
    ⟨c, hc,
      ((new_auction_no_bidder_zero_bid "cdp" "ukava" ⟨"bnb", 100⟩ ⟨"usdx", 50⟩ ⟨"debt", 50⟩
        sampleTime sampleLotReturns).2.2.1 c hc).1,
      ((new_auction_no_bidder_zero_bid "cdp" "ukava" ⟨"bnb", 100⟩ ⟨"usdx", 50⟩ ⟨"debt", 50⟩
        sampleTime sampleLotReturns).2.2.1 c hc).2.2.1⟩

/-- C11: the record built by `NewDebtAuction buyerModAccName bid initialLot endTime debt` has
as initial `Bidder` the module account address derived from `buyerModAccName`
(`supply.NewModuleAddress` of the initiator name), `Initiator` equal to `buyerModAccName`,
`Bid` equal to `bid`, `Lot` equal to `initialLot` and `CorrespondingDebt` equal to `debt`. -/
theorem NewDebtAuction_fields (NewModuleAddress : String → AccAddress)
    (buyerModAccName : String) (bid initialLot : Coin) (endTime : Time) (debt : Coin) :
    (NewDebtAuction NewModuleAddress buyerModAccName bid initialLot endTime debt).Bidder =
        NewModuleAddress buyerModAccName ∧
      (NewDebtAuction NewModuleAddress buyerModAccName bid initialLot endTime debt).Bidder =
        NewModuleAddress
          (NewDebtAuction NewModuleAddress buyerModAccName bid initialLot endTime
            debt).Initiator ∧
      (NewDebtAuction NewModuleAddress buyerModAccName bid initialLot endTime debt).Initiator =
        buyerModAccName ∧
      (NewDebtAuction NewModuleAddress buyerModAccName bid initialLot endTime debt).Bid = bid ∧
      (NewDebtAuction NewModuleAddress buyerModAccName bid initialLot endTime debt).Lot =
        initialLot ∧
      (NewDebtAuction NewModuleAddress buyerModAccName bid initialLot endTime
        debt).CorrespondingDebt = debt := by
  simp [NewDebtAuction]

/-- C12, the code at the maximum bid `0 usdx`: the comments on `CollateralAuction` and on
`IsReversePhase` say that a collateral auction initially is in forward phase, yet the
auction built by `NewCollateralAuction` with the maximum bid `0 usdx` is in reverse phase from
the start, since its initial bid `0 usdx` already equals the maximum bid: `IsReversePhase` is
true and `GetPhase` is "reverse". -/
theorem NewCollateralAuction_zero_max_bid_reverse :
    (NewCollateralAuction "cdp" ⟨"bnb", 100⟩ sampleTime sampleZeroMaxBid sampleLotReturns
        ⟨"debt", 50⟩).bind CollateralAuction.IsReversePhase = some true ∧
      (NewCollateralAuction "cdp" ⟨"bnb", 100⟩ sampleTime sampleZeroMaxBid sampleLotReturns
        ⟨"debt", 50⟩).bind CollateralAuction.GetPhase = some "reverse" := by
  decide

/-- A collateral auction whose maximum bid is not zero starts in forward phase. For every
seller, lot, end time, lot returns and debt, and every maximum bid whose amount is
not zero, the record built by `NewCollateralAuction` has `IsReversePhase` false and
`GetPhase` "forward"; the record is built exactly when the denomination of the maximum bid
is valid. -/
theorem NewCollateralAuction_forward (seller : String) (lot : Coin) (endTime : Time)
    (maxBid : Coin) (lotReturns : WeightedAddresses) (debt : Coin)
    (hamount : maxBid.Amount ≠ 0) :
    (∀ c, NewCollateralAuction seller lot endTime maxBid lotReturns debt = some c →
        c.IsReversePhase = some false ∧ c.GetPhase = some "forward") ∧
      ((∃ c, NewCollateralAuction seller lot endTime maxBid lotReturns debt = some c) ↔
        ValidateDenom maxBid.Denom = true) := by
  constructor
  · intro c hc
    rw [NewCollateralAuction_eq] at hc
    split_ifs at hc
    obtain rfl := Option.some.inj hc
    have hne : ¬ (0 : Int) = maxBid.Amount := fun h => hamount h.symm
    simp [CollateralAuction.GetPhase, CollateralAuction.IsReversePhase, Coin.IsEqual, hne,
      ForwardAuctionPhase]
  · rw [NewCollateralAuction_eq]
    cases h : ValidateDenom maxBid.Denom <;> simp

/-- Example of a start in forward phase: the collateral auction built with the maximum bid
`50 usdx` is in forward phase. -/
theorem NewCollateralAuction_forward_witness :
    (NewCollateralAuction "cdp" ⟨"bnb", 100⟩ sampleTime ⟨"usdx", 50⟩ sampleLotReturns
      ⟨"debt", 50⟩).bind CollateralAuction.GetPhase = some "forward" :=
  match (NewCollateralAuction_forward "cdp" ⟨"bnb", 100⟩ sampleTime ⟨"usdx", 50⟩
      sampleLotReturns ⟨"debt", 50⟩ (by decide)).2.mpr (by decide) with
  | ⟨c, hc⟩ => by
    rw [hc]
    exact ((NewCollateralAuction_forward "cdp" ⟨"bnb", 100⟩ sampleTime ⟨"usdx", 50⟩
      sampleLotReturns ⟨"debt", 50⟩ (by decide)).1 c hc).2

/-- C13: the ID counter starts at 1. `DefaultGenesisState` has `NextAuctionID` 1, an empty
auction list and the parameters `DefaultParams`; `GenesisState.Validate` returns nil on it,
and `Params.Validate` returns nil on `DefaultParams`. -/
theorem DefaultGenesisState_valid :
    DefaultGenesisState.NextAuctionID = 1 ∧ DefaultGenesisState.Auctions = [] ∧
      DefaultGenesisState.Params = DefaultParams ∧
      DefaultGenesisState.Validate = some none ∧ DefaultParams.Validate = none := by
  decide

/-- C14: `GenesisState.Validate` makes no false rejections. If `Params.Validate` returns nil,
every auction returns nil from its own `Validate`, the auction IDs are pairwise distinct and
all strictly less than `NextAuctionID`, then `GenesisState.Validate` returns nil. -/
theorem GenesisState_Validate_no_false_rejection (gs : GenesisState)
    (hparams : gs.Params.Validate = none)
    (hvalid : ∀ a ∈ gs.Auctions, a.Validate = some none)
    (hdistinct : gs.Auctions.Pairwise (fun a b => a.GetID ≠ b.GetID))
    (hbelow : ∀ a ∈ gs.Auctions, a.GetID < gs.NextAuctionID) :
    gs.Validate = some none := by
  rw [GenesisState_Validate_eq_none_iff]
  refine ⟨hparams, fun a ha => ⟨hvalid a ha, hbelow a ha⟩, ?_⟩
  rw [List.Nodup, List.pairwise_map]
  exact hdistinct

/-- Witness for C14 on the valid sample state, whose two auctions have the IDs 1 and 2 and
whose counter is 3. -/
theorem GenesisState_Validate_no_false_rejection_witness :
    genesisValid.Validate = some none :=
  GenesisState_Validate_no_false_rejection genesisValid (by decide) (by decide) (by decide)
    (by decide)

/-- C16: `Params.Validate` returns nil if and only if `BidDuration` and `MaxAuctionDuration`
are not negative, `BidDuration` is at most `MaxAuctionDuration`, and each of the three
increments is not nil and not negative. No upper bound is imposed on the increments: with
valid durations, any increments of at least 1 (scaled: `10^18`) are accepted. -/
theorem Params_Validate_iff (p : Params) :
    (p.Validate = none ↔
        0 ≤ p.BidDuration ∧ 0 ≤ p.MaxAuctionDuration ∧
          p.BidDuration ≤ p.MaxAuctionDuration ∧
          (p.IncrementSurplus.IsNil = false ∧ p.IncrementSurplus.IsNegative = false) ∧
          (p.IncrementDebt.IsNil = false ∧ p.IncrementDebt.IsNegative = false) ∧
          (p.IncrementCollateral.IsNil = false ∧ p.IncrementCollateral.IsNegative = false)) ∧
      (p.Validate = none ↔
        0 ≤ p.BidDuration ∧ 0 ≤ p.MaxAuctionDuration ∧
          p.BidDuration ≤ p.MaxAuctionDuration ∧
          (∃ v, p.IncrementSurplus.i = some v ∧ 0 ≤ v) ∧
          (∃ v, p.IncrementDebt.i = some v ∧ 0 ≤ v) ∧
          (∃ v, p.IncrementCollateral.i = some v ∧ 0 ≤ v)) ∧
      (0 ≤ p.BidDuration → p.BidDuration ≤ p.MaxAuctionDuration →
        ∀ s d c : Int, 10 ^ 18 ≤ s → 10 ^ 18 ≤ d → 10 ^ 18 ≤ c →
          (NewParams p.MaxAuctionDuration p.BidDuration ⟨some s⟩ ⟨some d⟩ ⟨some c⟩).Validate =
            none) := by
  have hs : ∀ x : Dec, validateIncrementSurplusParam (.dec x) = none ↔
      ∃ v, x.i = some v ∧ 0 ≤ v := by
    rintro ⟨_ | v⟩
    · simp [validateIncrementSurplusParam, emptyDec, Dec.IsNil]
    · by_cases hv : v < 0 <;>
        simp [validateIncrementSurplusParam, emptyDec, Dec.IsNil, Dec.IsNegative, hv]
      omega
  have hd : ∀ x : Dec, validateIncrementDebtParam (.dec x) = none ↔
      ∃ v, x.i = some v ∧ 0 ≤ v := by
    rintro ⟨_ | v⟩
    · simp [validateIncrementDebtParam, emptyDec, Dec.IsNil]
    · by_cases hv : v < 0 <;>
        simp [validateIncrementDebtParam, emptyDec, Dec.IsNil, Dec.IsNegative, hv]
      omega
  have hc : ∀ x : Dec, validateIncrementCollateralParam (.dec x) = none ↔
      ∃ v, x.i = some v ∧ 0 ≤ v := by
    rintro ⟨_ | v⟩
    · simp [validateIncrementCollateralParam, emptyDec, Dec.IsNil]
    · by_cases hv : v < 0 <;>
        simp [validateIncrementCollateralParam, emptyDec, Dec.IsNil, Dec.IsNegative, hv]
      omega
  have hraw : ∀ q : Params, q.Validate = none ↔
      0 ≤ q.BidDuration ∧ 0 ≤ q.MaxAuctionDuration ∧
        q.BidDuration ≤ q.MaxAuctionDuration ∧
        (∃ v, q.IncrementSurplus.i = some v ∧ 0 ≤ v) ∧
        (∃ v, q.IncrementDebt.i = some v ∧ 0 ≤ v) ∧
        (∃ v, q.IncrementCollateral.i = some v ∧ 0 ≤ v) := by
    intro q
    rw [← hs, ← hd, ← hc]
    unfold Params.Validate validateBidDurationParam validateMaxAuctionDurationParam
    by_cases h1 : q.BidDuration < 0
    · simp only [h1, if_true]
      simp
      intro h
      exact absurd h (not_le.mpr h1)
    · by_cases h2 : q.MaxAuctionDuration < 0
      · simp only [h1, h2, if_true, if_false]
        simp
        intro _ h
        exact absurd h (not_le.mpr h2)
      · by_cases h3 : q.BidDuration > q.MaxAuctionDuration
        · simp only [h1, h2, h3, if_true, if_false]
          simp
          intro _ _ h
          exact absurd h (not_le.mpr h3)
        · simp only [h1, h2, h3, if_false]
          have h1' := not_lt.mp h1
          have h2' := not_lt.mp h2
          have h3' := not_lt.mp h3
          cases validateIncrementSurplusParam (.dec q.IncrementSurplus) <;>
            cases validateIncrementDebtParam (.dec q.IncrementDebt) <;>
            simp [h1', h2', h3']
  have hdec : ∀ x : Dec, (x.IsNil = false ∧ x.IsNegative = false) ↔
      ∃ v, x.i = some v ∧ 0 ≤ v := by
    rintro ⟨_ | v⟩ <;> simp [Dec.IsNil, Dec.IsNegative]
  refine ⟨?_, hraw p, ?_⟩
  · rw [hraw p, hdec, hdec, hdec]
  · intro hbid hle s d c hs hd hc
    have hpow : (10 : Int) ^ 18 = 1000000000000000000 := by norm_num
    rw [hraw]
    simp only [NewParams]
    exact ⟨hbid, le_trans hbid hle, hle, ⟨s, rfl, by omega⟩, ⟨d, rfl, by omega⟩,
      ⟨c, rfl, by omega⟩⟩

/-- Witness for C16: parameters with the default durations and the three increments equal
to `2.0` validate. -/
theorem Params_Validate_iff_witness : sampleParamsLargeIncrement.Validate = none :=
  (Params_Validate_iff DefaultParams).2.2 (by decide) (by decide) 2000000000000000000
    2000000000000000000 2000000000000000000 (by decide) (by decide) (by decide)

/-! ## Coins held in the module account -/

/-- On a coin with a valid denomination and a positive amount, `NewCoins` gives the set that
holds just this coin. -/
theorem NewCoins_of_valid_pos (coin : Coin) (hvalid : coin.IsValid = true)
    (hpos : 0 < coin.Amount) : NewCoins coin = some [coin] := by
  have hdenom := ((Coin_IsValid_iff coin).mp hvalid).1
  have hne : ¬ coin.Amount = 0 := by omega
  simp [NewCoins, removeZeroCoins, Coin.IsZero, Coin.IsPositive, hdenom, hpos, hne]

/-- On a zero coin, `NewCoins` gives the empty set. -/
theorem NewCoins_of_zero (coin : Coin) (hzero : coin.Amount = 0) : NewCoins coin = some [] := by
  simp [NewCoins, removeZeroCoins, Coin.IsZero, hzero]

/-- The sum of two coins of one denomination whose amounts add up within the range of
`sdk.Int`. -/
theorem Coin_Add_of_lt (coin coinB : Coin) (hdenom : coin.Denom = coinB.Denom)
    (h : |coin.Amount + coinB.Amount| < 2 ^ 255) :
    coin.Add coinB = some ⟨coin.Denom, coin.Amount + coinB.Amount⟩ := by
  simp [Coin.Add, hdenom, sdkInt_Add_of_lt _ _ h]

/-- The sum of two coins of one denomination panics when the amounts add up to a value out
of the range of `sdk.Int`. -/
theorem Coin_Add_of_ge (coin coinB : Coin) (h : 2 ^ 255 ≤ |coin.Amount + coinB.Amount|) :
    coin.Add coinB = none := by
  unfold Coin.Add
  split_ifs
  · rfl
  · rw [(sdkInt_Add_eq_none_iff _ _).mpr h]

/-- C15, refuted as stated: the collateral auction `sampleCollateralAmountOverflow` has the
lot `(2^255 - 1) usdx` and the corresponding debt `1 usdx`, two valid coins of one
denomination with positive amounts. `GetModuleAccountCoins` panics on it in `sdk.Int.Add`,
so it reports no coin set, and in particular not the coin with the added amounts. -/
theorem GetModuleAccountCoins_overflow_panics :
    sampleCollateralAmountOverflow.Lot.IsValid = true ∧
      sampleCollateralAmountOverflow.CorrespondingDebt.IsValid = true ∧
      sampleCollateralAmountOverflow.Lot.Denom =
        sampleCollateralAmountOverflow.CorrespondingDebt.Denom ∧
      NewCoins sampleCollateralAmountOverflow.Lot =
        some [sampleCollateralAmountOverflow.Lot] ∧
      NewCoins sampleCollateralAmountOverflow.CorrespondingDebt =
        some [sampleCollateralAmountOverflow.CorrespondingDebt] ∧
      sampleCollateralAmountOverflow.GetModuleAccountCoins = none ∧
      sampleCollateralAmountOverflow.GetModuleAccountCoins ≠
        some [⟨"usdx", sampleCollateralAmountOverflow.Lot.Amount +
          sampleCollateralAmountOverflow.CorrespondingDebt.Amount⟩] := by
  have hlot : sampleCollateralAmountOverflow.Lot.IsValid = true :=
    (Coin_IsValid_iff _).mpr ⟨by decide, by norm_num [sampleCollateralAmountOverflow]⟩
  have hdebt : sampleCollateralAmountOverflow.CorrespondingDebt.IsValid = true := by decide
  have h1 : NewCoins sampleCollateralAmountOverflow.Lot =
      some [sampleCollateralAmountOverflow.Lot] :=
    NewCoins_of_valid_pos _ hlot (by norm_num [sampleCollateralAmountOverflow])
  have h2 : NewCoins sampleCollateralAmountOverflow.CorrespondingDebt =
      some [sampleCollateralAmountOverflow.CorrespondingDebt] :=
    NewCoins_of_valid_pos _ hdebt (by norm_num [sampleCollateralAmountOverflow])
  have hadd : sampleCollateralAmountOverflow.Lot.Add
      sampleCollateralAmountOverflow.CorrespondingDebt = none :=
    Coin_Add_of_ge _ _ (by norm_num [sampleCollateralAmountOverflow])
  have hnone : sampleCollateralAmountOverflow.GetModuleAccountCoins = none := by
    unfold CollateralAuction.GetModuleAccountCoins
    rw [h1, h2]
    have hcmp : compare sampleCollateralAmountOverflow.Lot.Denom
        sampleCollateralAmountOverflow.CorrespondingDebt.Denom = .eq := by decide
    simp only [Coins.Add, Coins.safeAdd, Coins.safeAddStep, hcmp, hadd]
  refine ⟨hlot, hdebt, by decide, h1, h2, hnone, ?_⟩
  rw [hnone]
  exact fun h => nomatch h

/-- C15, amended: `GetModuleAccountCoins` never depends on `Bid`. For a surplus auction it is
the coin set of `Lot` (`sdk.NewCoins` of the lot); for a debt auction it is the coin set of
`CorrespondingDebt`, whatever the lot is; for a collateral auction it is the sum
(`sdk.Coins.Add`) of the coin sets of `Lot` and `CorrespondingDebt`, with a panic where the
SDK operations panic. For valid coins with positive amounts these sets are `{Lot}`,
`{CorrespondingDebt}` and, for the collateral auction, the two coins in the order of their
denominations when these differ and, when they coincide, the single coin with the added
amounts if the sum is below `2^255`; from `2^255` on the call panics. A coin of amount zero
is no element of a coin set: the set of a zero lot is empty. -/
theorem GetModuleAccountCoins_spec (s : SurplusAuction) (d : DebtAuction)
    (c : CollateralAuction) :
    (s.GetModuleAccountCoins = NewCoins s.Lot ∧
        d.GetModuleAccountCoins = NewCoins d.CorrespondingDebt ∧
        c.GetModuleAccountCoins =
          (NewCoins c.Lot).bind fun lot =>
            (NewCoins c.CorrespondingDebt).bind fun debt => lot.Add debt) ∧
      ((∀ s' : SurplusAuction, s'.Lot = s.Lot →
          s'.GetModuleAccountCoins = s.GetModuleAccountCoins) ∧
        (∀ d' : DebtAuction, d'.CorrespondingDebt = d.CorrespondingDebt →
          d'.GetModuleAccountCoins = d.GetModuleAccountCoins) ∧
        (∀ c' : CollateralAuction, c'.Lot = c.Lot →
          c'.CorrespondingDebt = c.CorrespondingDebt →
          c'.GetModuleAccountCoins = c.GetModuleAccountCoins)) ∧
      (s.Lot.IsValid = true → 0 < s.Lot.Amount → s.GetModuleAccountCoins = some [s.Lot]) ∧
      (s.Lot.Amount = 0 → s.GetModuleAccountCoins = some []) ∧
      (d.CorrespondingDebt.IsValid = true → 0 < d.CorrespondingDebt.Amount →
        d.GetModuleAccountCoins = some [d.CorrespondingDebt]) ∧
      (c.Lot.IsValid = true → 0 < c.Lot.Amount → c.CorrespondingDebt.IsValid = true →
        0 < c.CorrespondingDebt.Amount →
        (c.Lot.Denom = c.CorrespondingDebt.Denom →
            (c.Lot.Amount + c.CorrespondingDebt.Amount < 2 ^ 255 →
              c.GetModuleAccountCoins =
                some [⟨c.Lot.Denom, c.Lot.Amount + c.CorrespondingDebt.Amount⟩]) ∧
            (2 ^ 255 ≤ c.Lot.Amount + c.CorrespondingDebt.Amount →
              c.GetModuleAccountCoins = none)) ∧
          (c.Lot.Denom < c.CorrespondingDebt.Denom →
            c.GetModuleAccountCoins = some [c.Lot, c.CorrespondingDebt]) ∧
          (c.CorrespondingDebt.Denom < c.Lot.Denom →
            c.GetModuleAccountCoins = some [c.CorrespondingDebt, c.Lot])) := by
  have hcol : ∀ x : CollateralAuction, x.GetModuleAccountCoins =
      (NewCoins x.Lot).bind fun lot =>
        (NewCoins x.CorrespondingDebt).bind fun debt => lot.Add debt := by
    intro x
    unfold CollateralAuction.GetModuleAccountCoins
    cases NewCoins x.Lot <;> cases NewCoins x.CorrespondingDebt <;> rfl
  refine ⟨⟨rfl, rfl, hcol c⟩, ⟨?_, ?_, ?_⟩, ?_, NewCoins_of_zero s.Lot, ?_, ?_⟩
  · intro s' h
    simp [SurplusAuction.GetModuleAccountCoins, h]
  · intro d' h
    simp [DebtAuction.GetModuleAccountCoins, h]
  · intro c' h1 h2
    rw [hcol c', hcol c, h1, h2]
  · intro hv hp
    exact NewCoins_of_valid_pos s.Lot hv hp
  · intro hv hp
    exact NewCoins_of_valid_pos d.CorrespondingDebt hv hp
  · intro hv1 hp1 hv2 hp2
    have hz1 : ¬ c.Lot.Amount = 0 := by omega
    have hz2 : ¬ c.CorrespondingDebt.Amount = 0 := by omega
    have hz3 : ¬ c.Lot.Amount + c.CorrespondingDebt.Amount = 0 := by omega
    have habs : |c.Lot.Amount + c.CorrespondingDebt.Amount| =
        c.Lot.Amount + c.CorrespondingDebt.Amount := abs_of_nonneg (by omega)
    rw [hcol c, NewCoins_of_valid_pos c.Lot hv1 hp1,
      NewCoins_of_valid_pos c.CorrespondingDebt hv2 hp2]
    simp only [Option.some_bind, Coins.Add, Coins.safeAdd, Coins.safeAddStep]
    refine ⟨?_, ?_, ?_⟩
    · intro h
      rw [compare_eq_iff_eq.mpr h]
      refine ⟨?_, ?_⟩
      · intro hlt
        rw [Coin_Add_of_lt _ _ h (by rw [habs]; exact hlt)]
        simp [Coin.IsZero, hz3, removeZeroCoins]
      · intro hge
        rw [Coin_Add_of_ge _ _ (by rw [habs]; exact hge)]
    · intro h
      rw [compare_lt_iff_lt.mpr h]
      simp [Coin.IsZero, hz1, hz2, removeZeroCoins]
    · intro h
      rw [compare_gt_iff_gt.mpr h]
      simp [Coin.IsZero, hz1, hz2, removeZeroCoins]

/-- Witness for C15: a collateral auction with the lot `100 usdx` and the corresponding debt
`50 usdx` holds `150 usdx` in the module account. -/
theorem GetModuleAccountCoins_spec_witness :
    sampleCollateralSameDenom.GetModuleAccountCoins = some [⟨"usdx", 150⟩] :=
  (((GetModuleAccountCoins_spec sampleSurplus sampleDebt sampleCollateralSameDenom).2.2.2.2.2
    (by decide) (by decide) (by decide) (by decide)).1 (by decide)).1
      (by norm_num [sampleCollateralSameDenom])

/-! ## Floating point seconds of a duration -/

/-- Rounding an integer gives the integer. -/
theorem roundHalfEven_intCast (n : Int) : roundHalfEven (n : ℚ) = n := by
  simp [roundHalfEven]

/-- The binary logarithm of a positive rational number lying between two consecutive powers
of two. -/
theorem log_two_eq_of_bounds (r : ℚ) (e : ℤ) (hpos : 0 < r) (hlo : (2 : ℚ) ^ e ≤ r)
    (hhi : r < (2 : ℚ) ^ (e + 1)) : Int.log 2 r = e := by
  have h1 : e ≤ Int.log 2 r := by
    have := (Int.zpow_le_iff_le_log (b := 2) (by norm_num) (x := e) hpos).mp
      (by exact_mod_cast hlo)
    exact this
  have h2 : Int.log 2 r < e + 1 := by
    have := (Int.lt_zpow_iff_log_lt (b := 2) (by norm_num) (x := e + 1) hpos).mp
      (by exact_mod_cast hhi)
    exact this
  omega

/-- An integer below `2^53` in absolute value is a `float64`. -/
theorem float64_intCast (n : Int) (hn : |n| < 2 ^ 53) : float64 (n : ℚ) = n := by
  unfold float64
  by_cases h0 : (n : ℚ) = 0
  · simp [h0]
  · rw [if_neg h0]
    have hn0 : n ≠ 0 := by exact_mod_cast h0
    have habs : (0 : ℚ) < |(n : ℚ)| := abs_pos.mpr h0
    have h1 : (1 : ℚ) ≤ |(n : ℚ)| := by
      have : (1 : Int) ≤ |n| := Int.one_le_abs hn0
      exact_mod_cast this
    have h53 : |(n : ℚ)| < (2 : ℚ) ^ (53 : ℤ) := by
      have : ((|n| : Int) : ℚ) < ((2 ^ 53 : Int) : ℚ) := by exact_mod_cast hn
      rw [Int.cast_abs] at this
      calc |(n : ℚ)| < ((2 ^ 53 : Int) : ℚ) := this
        _ = (2 : ℚ) ^ (53 : ℤ) := by norm_num
    have hlo : 0 ≤ Int.log 2 |(n : ℚ)| := by
      have := (Int.zpow_le_iff_le_log (b := 2) (by norm_num) (x := 0) habs).mp (by simpa using h1)
      exact this
    have hhi : Int.log 2 |(n : ℚ)| < 53 := by
      have := (Int.lt_zpow_iff_log_lt (b := 2) (by norm_num) (x := 53) habs).mp
        (by exact_mod_cast h53)
      exact this
    obtain ⟨k, hk⟩ : ∃ k : ℕ, Int.log 2 |(n : ℚ)| - 52 = -(k : ℤ) :=
      ⟨(52 - Int.log 2 |(n : ℚ)|).toNat, by omega⟩
    simp only [hk, zpow_neg, zpow_natCast]
    have hpow : ((2 : ℚ) ^ k) ≠ 0 := pow_ne_zero _ (by norm_num)
    have hdiv : (n : ℚ) / ((2 : ℚ) ^ k)⁻¹ = ((n * 2 ^ k : Int) : ℚ) := by
      push_cast
      field_simp
    rw [hdiv, roundHalfEven_intCast]
    push_cast
    field_simp

/-- A duration of a whole number of seconds has exactly that number as its floating point
number of seconds. -/
theorem Duration_Seconds_whole (n : Int) (hn : |n| < 2 ^ 53) :
    Duration.Seconds (n * 1000000000) = n := by
  unfold Duration.Seconds
  have h1 : Int.tdiv (n * 1000000000) 1000000000 = n := by
    rw [Int.mul_tdiv_cancel _ (by norm_num)]
  have h2 : Int.tmod (n * 1000000000) 1000000000 = 0 := by
    rw [Int.mul_tmod_left]
  simp only [h1, h2]
  have hz : float64 ((0 : Int) : ℚ) = 0 := by simp [float64]
  rw [float64_intCast n hn, hz]
  simp only [zero_div, Int.cast_zero]
  have hz' : float64 (0 : ℚ) = 0 := by simp [float64]
  rw [hz', add_zero, float64_intCast n hn]

/-- The number of seconds that the code computes from a duration of a whole number of
seconds. -/
theorem int64_RoundToEven_Seconds_whole (n : Int) (hn : |n| < 2 ^ 53) :
    int64 (RoundToEven (Duration.Seconds (n * 1000000000))) = n := by
  rw [Duration_Seconds_whole n hn, RoundToEven, roundHalfEven_intCast]
  unfold int64
  split_ifs <;> simp

/-- Value of `roundHalfEven` on a number whose fraction is below one half. -/
theorem roundHalfEven_of_lt_half (q : ℚ) (f : Int) (hlo : (f : ℚ) ≤ q) (hhi : q < f + 1 / 2) :
    roundHalfEven q = f := by
  have hfloor : ⌊q⌋ = f := Int.floor_eq_iff.mpr ⟨hlo, by linarith⟩
  unfold roundHalfEven
  simp only [hfloor]
  rw [if_pos (by linarith)]

/-- Value of `roundHalfEven` on a number whose fraction is above one half. -/
theorem roundHalfEven_of_gt_half (q : ℚ) (f : Int) (hlo : (f : ℚ) + 1 / 2 < q)
    (hhi : q < f + 1) : roundHalfEven q = f + 1 := by
  have hfloor : ⌊q⌋ = f := Int.floor_eq_iff.mpr ⟨by linarith, hhi⟩
  unfold roundHalfEven
  simp only [hfloor]
  rw [if_neg (by linarith), if_pos (by linarith)]

/-- Value of `float64` on a non-zero number, from the power of two below it and the rounded
multiple of the unit in the last place. -/
theorem float64_eq (q : ℚ) (e m : Int) (hne : q ≠ 0) (hlo : (2 : ℚ) ^ e ≤ |q|)
    (hhi : |q| < (2 : ℚ) ^ (e + 1))
    (hround : roundHalfEven (q / (2 : ℚ) ^ (e - 52)) = m) :
    float64 q = (m : ℚ) * (2 : ℚ) ^ (e - 52) := by
  unfold float64
  rw [if_neg hne]
  simp only [log_two_eq_of_bounds |q| e (abs_pos.mpr hne) hlo hhi, hround]

/-- The floating point number of seconds of the largest duration, `9223372036.854775807 s`,
is the `float64` just below `9223372036.8547764`. -/
theorem Duration_Seconds_maxDuration :
    Duration.Seconds maxDuration = (4835703278458517 : ℚ) * (2 : ℚ) ^ (-19 : ℤ) := by
  have hsec : Int.tdiv maxDuration 1000000000 = 9223372036 := by decide
  have hnsec : Int.tmod maxDuration 1000000000 = 854775807 := by decide
  have h1 : float64 ((9223372036 : Int) : ℚ) = ((9223372036 : Int) : ℚ) :=
    float64_intCast 9223372036 (by norm_num)
  have h2 : float64 ((854775807 : Int) : ℚ) = ((854775807 : Int) : ℚ) :=
    float64_intCast 854775807 (by norm_num)
  have h3 : float64 ((854775807 : ℚ) / 1000000000) =
      ((7699136011781030 : Int) : ℚ) * (2 : ℚ) ^ ((-1 : ℤ) - 52) := by
    apply float64_eq
    · norm_num
    · rw [abs_of_pos (by norm_num)]
      norm_num
    · rw [abs_of_pos (by norm_num)]
      norm_num
    · apply roundHalfEven_of_lt_half <;> norm_num
  have h4 : float64 ((9223372036 : ℚ) +
      ((7699136011781030 : Int) : ℚ) * (2 : ℚ) ^ ((-1 : ℤ) - 52)) =
      ((4835703278458517 : Int) : ℚ) * (2 : ℚ) ^ ((33 : ℤ) - 52) := by
    apply float64_eq
    · norm_num
    · rw [abs_of_pos (by norm_num)]
      norm_num
    · rw [abs_of_pos (by norm_num)]
      norm_num
    · have : ((4835703278458517 : Int) : ℚ) = ((4835703278458516 : Int) : ℚ) + 1 := by
        norm_num
      have hr := roundHalfEven_of_gt_half (((9223372036 : ℚ) +
        ((7699136011781030 : Int) : ℚ) * (2 : ℚ) ^ ((-1 : ℤ) - 52)) / (2 : ℚ) ^ ((33 : ℤ) - 52))
        4835703278458516 (by norm_num) (by norm_num)
      rw [hr]
      norm_num
  unfold Duration.Seconds
  simp only [hsec, hnsec, h1, h2]
  norm_num only [Int.cast_ofNat] at h3 h4 ⊢
  rw [h3]
  norm_num only at h4 ⊢
  rw [h4]

/-- The number of seconds that the code computes from the largest duration. -/
theorem int64_RoundToEven_Seconds_maxDuration :
    int64 (RoundToEven (Duration.Seconds maxDuration)) = 9223372037 := by
  rw [Duration_Seconds_maxDuration, RoundToEven,
    roundHalfEven_of_gt_half _ 9223372036 (by norm_num) (by norm_num)]
  unfold int64
  norm_num

/-! ## The base validation as an equivalence -/

/-- C26: `BaseAuction.Validate` returns nil if and only if `Initiator` is not blank after
trimming white space, `Lot` is a valid coin, `Bidder` is empty or exactly `AddrLen` bytes
long, `Bid` is a valid coin, `EndTime` and `MaxEndTime` are both not the zero time, and
`EndTime` is not after `MaxEndTime`. With an empty `Bidder` only the other conditions
decide, and the identifier is not inspected: changing it does not change the result. -/
theorem BaseAuction_Validate_nil_iff (a : BaseAuction) :
    (a.Validate = none ↔
      TrimSpace a.Initiator ≠ "" ∧ a.Lot.IsValid = true ∧
        (a.Bidder = [] ∨ a.Bidder.length = AddrLen) ∧ a.Bid.IsValid = true ∧
        (a.EndTime.IsZero = false ∧ a.MaxEndTime.IsZero = false) ∧
        ¬ a.MaxEndTime.ns < a.EndTime.ns) ∧
      (({ a with Bidder := [] } : BaseAuction).Validate = none ↔
        TrimSpace a.Initiator ≠ "" ∧ a.Lot.IsValid = true ∧ a.Bid.IsValid = true ∧
          (a.EndTime.IsZero = false ∧ a.MaxEndTime.IsZero = false) ∧
          ¬ a.MaxEndTime.ns < a.EndTime.ns) ∧
      ∀ id : Nat, ({ a with ID := id } : BaseAuction).Validate = a.Validate := by
  refine ⟨?_, ?_, fun id => rfl⟩
  · rw [BaseAuction_Validate_eq_none_iff]
    simp [AccAddress.Empty, Time.After, and_assoc]
  · rw [BaseAuction_Validate_eq_none_iff]
    simp [AccAddress.Empty, Time.After, and_assoc]

/-- Witness for C26: the base record of the sample surplus auction, whose bidder is empty,
passes the validation, and so does the base record of the sample debt auction under any
other identifier. -/
theorem BaseAuction_Validate_nil_iff_witness :
    sampleSurplus.toBaseAuction.Validate = none ∧
      ({ sampleDebt.toBaseAuction with ID := 42 } : BaseAuction).Validate = none :=
  ⟨(BaseAuction_Validate_nil_iff sampleSurplus.toBaseAuction).1.mpr
      ⟨by decide, by decide, by decide, by decide, by decide, by decide⟩,
    ((BaseAuction_Validate_nil_iff sampleDebt.toBaseAuction).2.2 42).trans (by decide)⟩

end v0_13

namespace keeper

open v0_13 (Time Duration Coin AccAddress NewCoin RoundToEven int64 maxDuration minDuration
  BitLen maxBitLen sdkInt.Mul sdkInt.Add)

/-! ## Elapsed time -/

/-- The seconds computed from the difference of two instants a whole, non-negative number of
seconds apart: the exact number of seconds if the difference fits a duration, and the
rounded seconds of the largest duration if not. -/
theorem seconds_of_Sub_whole (t u : Time) (hnonneg : 0 ≤ t.ns - u.ns)
    (hwhole : (t.ns - u.ns) % 1000000000 = 0) :
    (t.ns - u.ns ≤ maxDuration →
        int64 (RoundToEven (t.Sub u).Seconds) = (t.ns - u.ns) / 1000000000) ∧
      (maxDuration < t.ns - u.ns → int64 (RoundToEven (t.Sub u).Seconds) = 9223372037) := by
  constructor
  · intro hfit
    have hsub : t.Sub u = t.ns - u.ns := by
      have hlow : minDuration ≤ t.ns - u.ns := by
        show (-9223372036854775808 : Int) ≤ t.ns - u.ns
        omega
      simp only [Time.Sub]
      rw [if_pos ⟨hlow, hfit⟩]
    have hmul : t.ns - u.ns = (t.ns - u.ns) / 1000000000 * 1000000000 :=
      (Int.ediv_mul_cancel (Int.dvd_of_emod_eq_zero hwhole)).symm
    rw [hsub, hmul]
    have hbound : |(t.ns - u.ns) / 1000000000| < 2 ^ 53 := by
      simp only [maxDuration] at hfit
      have hpow : (2 : Int) ^ 53 = 9007199254740992 := by norm_num
      rw [abs_lt, hpow]
      constructor <;> omega
    rw [v0_13.int64_RoundToEven_Seconds_whole _ hbound]
    rw [← hmul]
  · intro hover
    have hsub : t.Sub u = maxDuration := by
      have hnot : ¬ (minDuration ≤ t.ns - u.ns ∧ t.ns - u.ns ≤ maxDuration) :=
        fun h => absurd h.2 (not_le.mpr hover)
      have hbefore : t.Before u = false := by
        have : ¬ t.ns < u.ns := by omega
        simp [Time.Before, this]
      simp only [Time.Sub]
      rw [if_neg hnot, hbefore]
      simp
    rw [hsub, v0_13.int64_RoundToEven_Seconds_maxDuration]

/-- The three cases of `CalculateTimeElapsed`, on the nanoseconds of the instants. -/
theorem CalculateTimeElapsed_eq (rewardPeriod : RewardPeriod)
    (blockTime previousAccrualTime : Time) :
    CalculateTimeElapsed rewardPeriod blockTime previousAccrualTime =
      if rewardPeriod.End.ns < blockTime.ns ∧ rewardPeriod.End.ns ≤ previousAccrualTime.ns then
        0
      else if rewardPeriod.End.ns < blockTime.ns then
        int64 (RoundToEven (rewardPeriod.End.Sub previousAccrualTime).Seconds)
      else int64 (RoundToEven (blockTime.Sub previousAccrualTime).Seconds) := by
  unfold CalculateTimeElapsed Time.Before Time.Equal
  by_cases h1 : rewardPeriod.End.ns < blockTime.ns <;>
    by_cases h2 : rewardPeriod.End.ns < previousAccrualTime.ns <;>
    by_cases h3 : rewardPeriod.End.ns = previousAccrualTime.ns <;>
    simp [h1, h2, h3, le_iff_lt_or_eq]

/-- C17, refuted as stated: with the previous accrual time at the zero time of Go, the block
time on 2021-01-01 and a reward period ending a year later, the three instants are whole
seconds apart and the previous accrual time is not after the block time, but
`CalculateTimeElapsed` returns 9223372037, the rounded seconds of the largest
`time.Duration`, and not the 63745056000 seconds between the two instants. -/
theorem CalculateTimeElapsed_saturates :
    (sampleRewardPeriod.End.ns - zeroTime.ns) % 1000000000 = 0 ∧
      (sampleBlockTime.ns - zeroTime.ns) % 1000000000 = 0 ∧
      zeroTime.ns ≤ sampleBlockTime.ns ∧
      CalculateTimeElapsed sampleRewardPeriod sampleBlockTime zeroTime = 9223372037 ∧
      max 0 ((min sampleRewardPeriod.End.ns sampleBlockTime.ns - zeroTime.ns) / 1000000000) =
        63745056000 := by
  refine ⟨by decide, by decide, by decide, ?_, by decide⟩
  have hnot : ¬ sampleRewardPeriod.End.ns < sampleBlockTime.ns := by decide
  rw [CalculateTimeElapsed_eq, if_neg (fun h => hnot h.1), if_neg hnot]
  exact (seconds_of_Sub_whole sampleBlockTime zeroTime (by decide) (by decide)).2 (by decide)

/-- C17, amended: for instants that are whole seconds apart, with the previous accrual time
not after the block time, `CalculateTimeElapsed` returns
`max(0, min(End, blockTime) - previousAccrualTime)` in seconds whenever that difference fits
a `time.Duration` (it is below `2^63` nanoseconds, about 292 years). Without this bound, it
still returns 0 when `End <= previousAccrualTime` and `End < blockTime`, it is never
negative, and it never exceeds `blockTime - previousAccrualTime`. -/
theorem CalculateTimeElapsed_whole_seconds (rewardPeriod : RewardPeriod)
    (blockTime previousAccrualTime : Time)
    (hwholeEnd : (rewardPeriod.End.ns - previousAccrualTime.ns) % 1000000000 = 0)
    (hwholeBlock : (blockTime.ns - previousAccrualTime.ns) % 1000000000 = 0)
    (hle : previousAccrualTime.ns ≤ blockTime.ns) :
    (min rewardPeriod.End.ns blockTime.ns - previousAccrualTime.ns ≤ maxDuration →
        CalculateTimeElapsed rewardPeriod blockTime previousAccrualTime =
          max 0 ((min rewardPeriod.End.ns blockTime.ns - previousAccrualTime.ns) /
            1000000000)) ∧
      (rewardPeriod.End.ns ≤ previousAccrualTime.ns → rewardPeriod.End.ns < blockTime.ns →
        CalculateTimeElapsed rewardPeriod blockTime previousAccrualTime = 0) ∧
      0 ≤ CalculateTimeElapsed rewardPeriod blockTime previousAccrualTime ∧
      CalculateTimeElapsed rewardPeriod blockTime previousAccrualTime * 1000000000 ≤
        blockTime.ns - previousAccrualTime.ns := by
  have hmax : maxDuration = 9223372036854775807 := rfl
  obtain ⟨kE, hkE⟩ := Int.dvd_of_emod_eq_zero hwholeEnd
  obtain ⟨kB, hkB⟩ := Int.dvd_of_emod_eq_zero hwholeBlock
  have hdivE : (rewardPeriod.End.ns - previousAccrualTime.ns) / 1000000000 = kE := by
    rw [hkE, Int.mul_ediv_cancel_left _ (by norm_num)]
  have hdivB : (blockTime.ns - previousAccrualTime.ns) / 1000000000 = kB := by
    rw [hkB, Int.mul_ediv_cancel_left _ (by norm_num)]
  rw [CalculateTimeElapsed_eq]
  by_cases h1 : rewardPeriod.End.ns < blockTime.ns
  · have hmin : min rewardPeriod.End.ns blockTime.ns = rewardPeriod.End.ns :=
      min_eq_left (le_of_lt h1)
    rw [hmin]
    by_cases h2 : rewardPeriod.End.ns ≤ previousAccrualTime.ns
    · rw [if_pos ⟨h1, h2⟩]
      refine ⟨fun _ => ?_, fun _ _ => rfl, le_refl _, by omega⟩
      rw [hdivE]
      have : kE ≤ 0 := by omega
      exact (max_eq_left this).symm
    · rw [if_neg (fun h => h2 h.2), if_pos h1]
      obtain ⟨hfit, hover⟩ := seconds_of_Sub_whole rewardPeriod.End previousAccrualTime
        (by omega) hwholeEnd
      rw [hmax] at hfit hover ⊢
      by_cases hd : rewardPeriod.End.ns - previousAccrualTime.ns ≤ 9223372036854775807
      · rw [hfit hd, hdivE]
        have hnn : 0 ≤ kE := by omega
        exact ⟨fun _ => (max_eq_right hnn).symm, fun h => absurd h h2, hnn, by omega⟩
      · rw [hover (not_le.mp hd)]
        exact ⟨fun h => absurd h hd, fun h => absurd h h2, by norm_num, by norm_num; omega⟩
  · have hmin : min rewardPeriod.End.ns blockTime.ns = blockTime.ns :=
      min_eq_right (by omega)
    rw [hmin, if_neg (fun h => h1 h.1), if_neg h1]
    obtain ⟨hfit, hover⟩ := seconds_of_Sub_whole blockTime previousAccrualTime
      (by omega) hwholeBlock
    rw [hmax] at hfit hover ⊢
    by_cases hd : blockTime.ns - previousAccrualTime.ns ≤ 9223372036854775807
    · rw [hfit hd, hdivB]
      have hnn : 0 ≤ kB := by omega
      exact ⟨fun _ => (max_eq_right hnn).symm, fun _ h => absurd h h1, hnn, by omega⟩
    · rw [hover (not_le.mp hd)]
      exact ⟨fun h => absurd h hd, fun _ h => absurd h h1, by norm_num, by norm_num; omega⟩

/-- Witness for the amended C17: with the reward period ended five seconds before the block
time and the previous accrual ten seconds before it, five seconds are eligible. -/
theorem CalculateTimeElapsed_whole_seconds_witness :
    CalculateTimeElapsed sampleEndedRewardPeriod sampleBlockTime samplePreviousAccrualTime =
      5 :=
  ((CalculateTimeElapsed_whole_seconds sampleEndedRewardPeriod sampleBlockTime
    samplePreviousAccrualTime (by decide) (by decide) (by decide)).1 (by decide)).trans
    (by decide)

/-! ## Decimal arithmetic within the range -/

/-- A scaled value has more than `255 + 60` bits exactly when its absolute value is at least
`2^315`. -/
theorem BitLen_gt_dec_iff (x : Int) : BitLen x > 255 + DecimalPrecisionBits ↔ 2 ^ 315 ≤ |x| := by
  rw [gt_iff_lt, ← not_le, v0_13.BitLen_le_iff, not_lt]
  rfl

/-- The sum of two decimals is returned when its scaled value is within the range. -/
theorem Dec_Add_of_lt (d d2 : Dec) (h : |d.i + d2.i| < 2 ^ 315) :
    d.Add d2 = some ⟨d.i + d2.i⟩ := by
  unfold Dec.Add
  simp only [BitLen_gt_dec_iff, not_le.mpr h, if_false]

/-- The sum of two decimals panics when its scaled value is out of the range. -/
theorem Dec_Add_of_ge (d d2 : Dec) (h : 2 ^ 315 ≤ |d.i + d2.i|) : d.Add d2 = none := by
  unfold Dec.Add
  simp only [BitLen_gt_dec_iff, h, if_true]

/-- The difference of two decimals is returned when its scaled value is within the range. -/
theorem Dec_Sub_of_lt (d d2 : Dec) (h : |d.i - d2.i| < 2 ^ 315) :
    d.Sub d2 = some ⟨d.i - d2.i⟩ := by
  unfold Dec.Sub
  simp only [BitLen_gt_dec_iff, not_le.mpr h, if_false]

/-- The difference of a decimal and itself is the zero decimal. -/
theorem Dec_Sub_self (d : Dec) : d.Sub d = some ⟨0⟩ := by
  rw [Dec_Sub_of_lt d d (by rw [sub_self]; norm_num), sub_self]

/-- Rounding a scaled value that is not negative gives an integer that is not negative and
exceeds the exact quotient by less than one. -/
theorem chopPrecisionAndRound_bound_of_nonneg (x : Int) (hx : 0 ≤ x) :
    0 ≤ chopPrecisionAndRound x ∧
      chopPrecisionAndRound x * precisionReuse < x + precisionReuse := by
  unfold chopPrecisionAndRound
  simp only [not_lt.mpr hx, if_false]
  rw [Int.tdiv_eq_ediv hx (by decide), Int.tmod_eq_emod hx (by decide)]
  simp only [precisionReuse, fivePrecision]
  split_ifs <;> omega

/-- Rounding a negative scaled value negates the rounding of its negation. -/
theorem chopPrecisionAndRound_of_neg (d : Int) (h : d < 0) :
    chopPrecisionAndRound d = -chopPrecisionAndRound (-d) := by
  have h2 : ¬ -d < 0 := by omega
  unfold chopPrecisionAndRound
  simp only [h, h2, if_true, if_false]

/-- Rounding a scaled value of absolute value at most `M * 10^18` gives an integer of
absolute value at most `M`. -/
theorem chopPrecisionAndRound_abs_le (d M : Int) (h : |d| ≤ M * precisionReuse) :
    |chopPrecisionAndRound d| ≤ M := by
  have key : ∀ x : Int, 0 ≤ x → x ≤ M * precisionReuse → |chopPrecisionAndRound x| ≤ M := by
    intro x hx hle
    obtain ⟨h0, h1⟩ := chopPrecisionAndRound_bound_of_nonneg x hx
    rw [abs_of_nonneg h0]
    have h2 : chopPrecisionAndRound x * precisionReuse < (M + 1) * precisionReuse := by
      rw [add_mul, one_mul]
      omega
    have h3 := lt_of_mul_lt_mul_right h2 (by decide : (0 : Int) ≤ precisionReuse)
    omega
  by_cases hneg : d < 0
  · rw [chopPrecisionAndRound_of_neg d hneg, abs_neg]
    exact key (-d) (by omega) (by rw [← abs_of_neg hneg]; exact h)
  · exact key d (by omega) (by rw [← abs_of_nonneg (not_lt.mp hneg)]; exact h)

/-- Rounding a whole multiple of the scale gives the multiplier. -/
theorem chopPrecisionAndRound_mul (x : Int) : chopPrecisionAndRound (x * precisionReuse) = x := by
  have key : ∀ y : Int, 0 ≤ y → chopPrecisionAndRound (y * precisionReuse) = y := by
    intro y hy
    have hnot : ¬ y * precisionReuse < 0 := not_lt.mpr (mul_nonneg hy (by decide))
    unfold chopPrecisionAndRound
    simp only [hnot, if_false, Int.mul_tmod_left, if_true]
    exact Int.mul_tdiv_cancel y (by decide)
  by_cases hneg : x < 0
  · have hlt : x * precisionReuse < 0 := mul_neg_of_neg_of_pos hneg (by decide)
    rw [chopPrecisionAndRound_of_neg _ hlt, ← neg_mul, key (-x) (by omega), neg_neg]
  · exact key x (not_lt.mp hneg)

/-- The product of a decimal and an integer taken as a decimal is exact, and it is returned
when its scaled value is within the range. -/
theorem Dec_Mul_ToDec (d : Dec) (n : Int) (h : |d.i * n| < 2 ^ 315) :
    d.Mul (ToDec n) = some ⟨d.i * n⟩ := by
  unfold Dec.Mul ToDec
  simp only [← mul_assoc, chopPrecisionAndRound_mul, BitLen_gt_dec_iff, not_le.mpr h, if_false]

/-- The product of a decimal and an integer taken as a decimal panics when its scaled value is
out of the range. -/
theorem Dec_Mul_ToDec_of_ge (d : Dec) (n : Int) (h : 2 ^ 315 ≤ |d.i * n|) :
    d.Mul (ToDec n) = none := by
  unfold Dec.Mul ToDec
  simp only [← mul_assoc, chopPrecisionAndRound_mul, BitLen_gt_dec_iff, h, if_true]

/-- The rounded integer of a decimal is returned when it is within the range of `sdk.Int`. -/
theorem Dec_RoundInt_of_lt (d : Dec) (h : |chopPrecisionAndRound d.i| < 2 ^ 255) :
    d.RoundInt = some (chopPrecisionAndRound d.i) := by
  have h2 : ¬ BitLen (chopPrecisionAndRound d.i) > maxBitLen := by
    rw [not_lt]
    exact (v0_13.BitLen_le_iff _ _).mpr h
  unfold Dec.RoundInt
  simp only [h2, if_false]

/-- The rounded integer of a decimal panics when it is out of the range of `sdk.Int`. -/
theorem Dec_RoundInt_of_ge (d : Dec) (h : 2 ^ 255 ≤ |chopPrecisionAndRound d.i|) :
    d.RoundInt = none := by
  have h2 : BitLen (chopPrecisionAndRound d.i) > maxBitLen := by
    by_contra hle
    exact absurd ((v0_13.BitLen_le_iff _ _).mp (not_lt.mp hle)) (not_lt.mpr h)
  unfold Dec.RoundInt
  simp only [h2, if_true]

/-- The quotient of two integers taken as decimals is returned when the divisor is not zero
and the dividend is within the range of `sdk.Int`: its scaled value then has at most
`255 + 60` bits. -/
theorem Dec_Quo_ToDec (a b : Int) (hb : b ≠ 0) (ha : |a| < 2 ^ 255) :
    ∃ quotient, (ToDec a).Quo (ToDec b) = some quotient := by
  have hb2 : ¬ (ToDec b).i = 0 := by
    simpa [ToDec] using mul_ne_zero hb (by decide : precisionReuse ≠ 0)
  have hdiv : |Int.tdiv ((ToDec a).i * precisionReuse * precisionReuse) (ToDec b).i| ≤
      |a| * precisionReuse * precisionReuse := by
    have h1 : (ToDec a).i * precisionReuse * precisionReuse =
        a * precisionReuse * precisionReuse * precisionReuse := rfl
    have h2 : (1 : Int) ≤ |b| := Int.one_le_abs hb
    have h3 : Int.natAbs (Int.tdiv ((ToDec a).i * precisionReuse * precisionReuse) (ToDec b).i) =
        Int.natAbs ((ToDec a).i * precisionReuse * precisionReuse) / Int.natAbs (ToDec b).i :=
      Int.natAbs_tdiv _ _
    have h4 : Int.natAbs (ToDec b).i = b.natAbs * 1000000000000000000 := by
      simp [ToDec, Int.natAbs_mul, precisionReuse]
    have h5 : Int.natAbs ((ToDec a).i * precisionReuse * precisionReuse) =
        a.natAbs * 1000000000000000000 * 1000000000000000000 * 1000000000000000000 := by
      simp [ToDec, Int.natAbs_mul, precisionReuse]
    have h6 : 1 ≤ b.natAbs := Int.natAbs_pos.mpr hb
    have h7 : Int.natAbs (Int.tdiv ((ToDec a).i * precisionReuse * precisionReuse) (ToDec b).i) ≤
        a.natAbs * 1000000000000000000 * 1000000000000000000 := by
      rw [h3, h4, h5]
      apply Nat.div_le_of_le_mul
      calc a.natAbs * 1000000000000000000 * 1000000000000000000 * 1000000000000000000
          = 1 * 1000000000000000000 *
              (a.natAbs * 1000000000000000000 * 1000000000000000000) := by ring
        _ ≤ b.natAbs * 1000000000000000000 *
              (a.natAbs * 1000000000000000000 * 1000000000000000000) :=
            Nat.mul_le_mul_right _ (Nat.mul_le_mul_right _ h6)
    rw [Int.abs_eq_natAbs, Int.abs_eq_natAbs]
    simp only [precisionReuse]
    exact_mod_cast h7
  have hchop := chopPrecisionAndRound_abs_le _ (|a| * precisionReuse) hdiv
  have hlt : |chopPrecisionAndRound
      (Int.tdiv ((ToDec a).i * precisionReuse * precisionReuse) (ToDec b).i)| < 2 ^ 315 := by
    have : |a| * precisionReuse < 2 ^ 315 := by
      simp only [precisionReuse]
      have h0 := abs_nonneg a
      omega
    omega
  unfold Dec.Quo
  simp only [hb2, if_false, BitLen_gt_dec_iff, not_le.mpr hlt]
  exact ⟨_, rfl⟩

/-! ## Accumulation of rewards -/

/-- With the sample reward period, block time and previous accrual time, ten seconds are
eligible. -/
theorem CalculateTimeElapsed_sample :
    CalculateTimeElapsed sampleRewardPeriod sampleBlockTime samplePreviousAccrualTime = 10 := by
  have hnot : ¬ sampleRewardPeriod.End.ns < sampleBlockTime.ns := by decide
  rw [CalculateTimeElapsed_eq, if_neg (fun h => hnot h.1), if_neg hnot,
    (seconds_of_Sub_whole sampleBlockTime samplePreviousAccrualTime (by decide)
      (by decide)).1 (by decide)]
  decide

/-- The eligible seconds depend on the reward period through its end time only. -/
theorem CalculateTimeElapsed_congr_End (rewardPeriod other : RewardPeriod)
    (blockTime previousAccrualTime : Time) (h : rewardPeriod.End = other.End) :
    CalculateTimeElapsed rewardPeriod blockTime previousAccrualTime =
      CalculateTimeElapsed other blockTime previousAccrualTime := by
  unfold CalculateTimeElapsed
  rw [h]

/-- C18, refuted as stated: in the sample context a previous accrual time is stored for
`bnb-a`, ten seconds are eligible, and the total principal is `1000000`. With the reward
period `sampleOverflowRewardPeriod`, which pays `2^254 ukava` per second,
`timeElapsed.Mul(RewardsPerSecond.Amount)` panics in `sdk.Int.Mul` (4 bits and 255 bits),
so `AccumulateUSDXMintingRewards` returns neither a nil error nor anything else. -/
theorem AccumulateUSDXMintingRewards_overflow_panics :
    GetPreviousUSDXMintingAccrualTime sampleContext
        sampleOverflowRewardPeriod.CollateralType = some samplePreviousAccrualTime ∧
      CalculateTimeElapsed sampleOverflowRewardPeriod sampleContext.BlockTime
        samplePreviousAccrualTime = 10 ∧
      sampleOverflowRewardPeriod.RewardsPerSecond.Amount = 2 ^ 254 ∧
      GetTotalPrincipal sampleContext sampleOverflowRewardPeriod.CollateralType
        PrincipalDenom = 1000000 ∧
      sdkInt.Mul 10 (2 ^ 254) = none ∧
      AccumulateUSDXMintingRewards sampleContext sampleOverflowRewardPeriod = none ∧
      ¬ ∃ ctx', AccumulateUSDXMintingRewards sampleContext sampleOverflowRewardPeriod =
        some (ctx', none) := by
  have hte : CalculateTimeElapsed sampleOverflowRewardPeriod sampleContext.BlockTime
      samplePreviousAccrualTime = 10 :=
    (CalculateTimeElapsed_congr_End sampleOverflowRewardPeriod sampleRewardPeriod _ _
      rfl).trans CalculateTimeElapsed_sample
  have hmul : sdkInt.Mul 10 (2 ^ 254) = none :=
    v0_13.sdkInt_Mul_of_ge _ _ (by norm_num)
  have hprev : GetPreviousUSDXMintingAccrualTime sampleContext
      sampleOverflowRewardPeriod.CollateralType = some samplePreviousAccrualTime := by decide
  have hamount : sampleOverflowRewardPeriod.RewardsPerSecond.Amount = 2 ^ 254 := rfl
  have hne : ¬ ((2 : Int) ^ 254 = 0) := by norm_num
  have hprincipal : (ToDec (GetTotalPrincipal sampleContext
      sampleOverflowRewardPeriod.CollateralType PrincipalDenom)).IsZero = false := by decide
  have hnone : AccumulateUSDXMintingRewards sampleContext sampleOverflowRewardPeriod = none := by
    unfold AccumulateUSDXMintingRewards
    rw [hprev]
    simp only [hte, hamount, hne, hprincipal, hmul, if_false, Bool.false_eq_true]
    simp
  refine ⟨hprev, hte, hamount, by decide, hmul, hnone, ?_⟩
  rw [hnone]
  rintro ⟨ctx', h⟩
  exact nomatch h

/-- C18, amended: whenever `AccumulateUSDXMintingRewards` returns, the error is nil. It
returns when no previous accrual time is stored (the block time is stored), when
`CalculateTimeElapsed` is zero (nothing changes) and when `RewardsPerSecond.Amount` or the
total principal `P` is zero (the block time is stored). When a previous accrual time is
stored and the three values are not zero, it panics if `timeElapsed *
RewardsPerSecond.Amount` is not below `2^255` in absolute value; otherwise the `sdk.Dec`
quotient of the product and `P`, taken as decimals, exists, and the call panics if the
scaled value of `oldFactor + quotient` is not below `2^315` in absolute value, and otherwise
returns with the stored reward factor set to `oldFactor + quotient`, where `oldFactor`
is 0 when none is stored, and with the previous accrual time set to the block time; nothing
else in the context changes. -/
theorem AccumulateUSDXMintingRewards_spec (ctx : Context) (rewardPeriod : RewardPeriod) :
    (∀ ctx' err, AccumulateUSDXMintingRewards ctx rewardPeriod = some (ctx', err) →
        err = none) ∧
      (GetPreviousUSDXMintingAccrualTime ctx rewardPeriod.CollateralType = none →
        AccumulateUSDXMintingRewards ctx rewardPeriod =
          some (SetPreviousUSDXMintingAccrualTime ctx rewardPeriod.CollateralType
            ctx.BlockTime, none)) ∧
      ∀ previousAccrualTime,
        GetPreviousUSDXMintingAccrualTime ctx rewardPeriod.CollateralType =
          some previousAccrualTime →
        (CalculateTimeElapsed rewardPeriod ctx.BlockTime previousAccrualTime = 0 →
          AccumulateUSDXMintingRewards ctx rewardPeriod = some (ctx, none)) ∧
        (CalculateTimeElapsed rewardPeriod ctx.BlockTime previousAccrualTime ≠ 0 →
          rewardPeriod.RewardsPerSecond.Amount = 0 ∨
            GetTotalPrincipal ctx rewardPeriod.CollateralType PrincipalDenom = 0 →
          AccumulateUSDXMintingRewards ctx rewardPeriod =
            some (SetPreviousUSDXMintingAccrualTime ctx rewardPeriod.CollateralType
              ctx.BlockTime, none)) ∧
        (CalculateTimeElapsed rewardPeriod ctx.BlockTime previousAccrualTime ≠ 0 →
          rewardPeriod.RewardsPerSecond.Amount ≠ 0 →
          GetTotalPrincipal ctx rewardPeriod.CollateralType PrincipalDenom ≠ 0 →
          (2 ^ 255 ≤ |CalculateTimeElapsed rewardPeriod ctx.BlockTime previousAccrualTime *
              rewardPeriod.RewardsPerSecond.Amount| →
            AccumulateUSDXMintingRewards ctx rewardPeriod = none) ∧
          (|CalculateTimeElapsed rewardPeriod ctx.BlockTime previousAccrualTime *
              rewardPeriod.RewardsPerSecond.Amount| < 2 ^ 255 →
            ∃ quotient,
              (ToDec (CalculateTimeElapsed rewardPeriod ctx.BlockTime previousAccrualTime *
                  rewardPeriod.RewardsPerSecond.Amount)).Quo
                (ToDec (GetTotalPrincipal ctx rewardPeriod.CollateralType PrincipalDenom)) =
                some quotient ∧
              (2 ^ 315 ≤
                  |((GetUSDXMintingRewardFactor ctx rewardPeriod.CollateralType).getD
                    ZeroDec).i + quotient.i| →
                AccumulateUSDXMintingRewards ctx rewardPeriod = none) ∧
              (|((GetUSDXMintingRewardFactor ctx rewardPeriod.CollateralType).getD
                    ZeroDec).i + quotient.i| < 2 ^ 315 →
                ∃ newFactor ctx',
                  ((GetUSDXMintingRewardFactor ctx rewardPeriod.CollateralType).getD
                    ZeroDec).Add quotient = some newFactor ∧
                  newFactor.i =
                    ((GetUSDXMintingRewardFactor ctx rewardPeriod.CollateralType).getD
                      ZeroDec).i + quotient.i ∧
                  AccumulateUSDXMintingRewards ctx rewardPeriod = some (ctx', none) ∧
                  ctx' =
                    SetPreviousUSDXMintingAccrualTime
                      (SetUSDXMintingRewardFactor ctx rewardPeriod.CollateralType newFactor)
                      rewardPeriod.CollateralType ctx.BlockTime ∧
                  GetUSDXMintingRewardFactor ctx' rewardPeriod.CollateralType =
                    some newFactor ∧
                  GetPreviousUSDXMintingAccrualTime ctx' rewardPeriod.CollateralType =
                    some ctx.BlockTime))) := by
  have hzero : ∀ b : Int, (ToDec b).IsZero = true ↔ b = 0 := by
    intro b
    simp [Dec.IsZero, ToDec, precisionReuse]
  have hgetD : ∀ o : Option Dec,
      (match o with
        | some factor => factor
        | none => ZeroDec) = o.getD ZeroDec := by
    intro o
    cases o <;> rfl
  refine ⟨?_, ?_, ?_⟩
  · intro ctx' err h
    unfold AccumulateUSDXMintingRewards at h
    simp only [hgetD] at h
    split at h
    · cases h
      rfl
    · split_ifs at h
      · cases h
        rfl
      · cases h
        rfl
      · cases h
        rfl
      · split at h
        · cases h
        · split at h
          · cases h
          · split at h
            · cases h
            · cases h
              rfl
  · intro hprev
    unfold AccumulateUSDXMintingRewards
    rw [hprev]
  · intro previousAccrualTime hprev
    refine ⟨?_, ?_, ?_⟩
    · intro h1
      unfold AccumulateUSDXMintingRewards
      rw [hprev]
      simp only [h1, if_true]
    · intro h1 h23
      unfold AccumulateUSDXMintingRewards
      rw [hprev]
      simp only [if_neg h1]
      rcases h23 with h2 | h3
      · rw [if_pos h2]
      · by_cases h2 : rewardPeriod.RewardsPerSecond.Amount = 0
        · rw [if_pos h2]
        · rw [if_neg h2, if_pos ((hzero _).mpr h3)]
    · intro h1 h2 h3
      have hunfold : AccumulateUSDXMintingRewards ctx rewardPeriod =
          match sdkInt.Mul (CalculateTimeElapsed rewardPeriod ctx.BlockTime previousAccrualTime)
              rewardPeriod.RewardsPerSecond.Amount with
          | none => none
          | some newRewards =>
            match (ToDec newRewards).Quo
                (ToDec (GetTotalPrincipal ctx rewardPeriod.CollateralType PrincipalDenom)) with
            | none => none
            | some rewardFactor =>
              match ((GetUSDXMintingRewardFactor ctx rewardPeriod.CollateralType).getD
                  ZeroDec).Add rewardFactor with
              | none => none
              | some newRewardFactor =>
                some (SetPreviousUSDXMintingAccrualTime
                  (SetUSDXMintingRewardFactor ctx rewardPeriod.CollateralType newRewardFactor)
                  rewardPeriod.CollateralType ctx.BlockTime, none) := by
        unfold AccumulateUSDXMintingRewards
        rw [hprev]
        simp only [if_neg h1, if_neg h2, if_neg (fun h => h3 ((hzero _).mp h)), hgetD]
        rfl
      refine ⟨?_, ?_⟩
      · intro hge
        rw [hunfold, v0_13.sdkInt_Mul_of_ge _ _ hge]
      · intro hlt
        obtain ⟨q, hq⟩ := Dec_Quo_ToDec _ _ h3 hlt
        refine ⟨q, hq, ?_, ?_⟩
        · intro hge
          rw [hunfold, v0_13.sdkInt_Mul_of_lt _ _ h1 h2 hlt]
          simp only [hq, Dec_Add_of_ge _ _ hge]
        · intro hlt2
          refine ⟨_, _, Dec_Add_of_lt _ _ hlt2, rfl, ?_, rfl, ?_, ?_⟩
          · rw [hunfold, v0_13.sdkInt_Mul_of_lt _ _ h1 h2 hlt]
            simp only [hq, Dec_Add_of_lt _ _ hlt2]
          · simp [GetUSDXMintingRewardFactor, SetPreviousUSDXMintingAccrualTime,
              SetUSDXMintingRewardFactor]
          · simp [GetPreviousUSDXMintingAccrualTime, SetPreviousUSDXMintingAccrualTime,
              SetUSDXMintingRewardFactor, Context.BlockTime]

/-- Witness for C18 on the sample context: ten seconds at `100 ukava` per second over a total
principal of `1000000 usdx` raise the reward factor of `bnb-a` from `2.0` to `2.001`. -/
theorem AccumulateUSDXMintingRewards_spec_witness :
    ∃ ctx', AccumulateUSDXMintingRewards sampleContext sampleRewardPeriod = some (ctx', none) ∧
      GetUSDXMintingRewardFactor ctx' "bnb-a" = some ⟨2001000000000000000⟩ ∧
      GetPreviousUSDXMintingAccrualTime ctx' "bnb-a" = some sampleBlockTime := by
  have hte : CalculateTimeElapsed sampleRewardPeriod sampleContext.BlockTime
      samplePreviousAccrualTime = 10 := CalculateTimeElapsed_sample
  obtain ⟨q, hq, -, hok⟩ :=
    (((AccumulateUSDXMintingRewards_spec sampleContext sampleRewardPeriod).2.2
      samplePreviousAccrualTime (by decide)).2.2 (by rw [hte]; decide) (by decide)
      (by decide)).2 (by rw [hte]; norm_num [sampleRewardPeriod])
  rw [hte] at hq
  have hq' : q = ⟨1000000000000000⟩ := by
    have : (ToDec (10 * sampleRewardPeriod.RewardsPerSecond.Amount)).Quo
        (ToDec (GetTotalPrincipal sampleContext sampleRewardPeriod.CollateralType
          PrincipalDenom)) = some ⟨1000000000000000⟩ := by decide
    rw [this] at hq
    exact (Option.some.inj hq).symm
  subst hq'
  have hold : (GetUSDXMintingRewardFactor sampleContext
      sampleRewardPeriod.CollateralType).getD ZeroDec = ⟨2000000000000000000⟩ := by decide
  rw [hold] at hok
  obtain ⟨newFactor, ctx', -, hval, hacc, -, hfactor, htime⟩ := hok (by norm_num)
  have hnew : newFactor = ⟨2001000000000000000⟩ := by
    cases newFactor with
    | mk i =>
      simp only at hval
      rw [hval]
      norm_num
  subst hnew
  exact ⟨ctx', hacc, hfactor, htime⟩

/-! ## Reward indexes of a claim -/

/-- The loop of `HasRewardIndex` started at position `index` finds the first reward index
for the collateral type, shifted by `index`. -/
theorem hasRewardIndexLoop_eq (collateralType : String) (l : List RewardIndex) (index : Nat) :
    hasRewardIndexLoop collateralType l index =
      match firstRewardIndex collateralType l with
      | some i => (index + i, true)
      | none => (0, false) := by
  induction l generalizing index with
  | nil => rfl
  | cons ri rest ih =>
    unfold hasRewardIndexLoop firstRewardIndex
    by_cases h : ri.CollateralType = collateralType
    · simp [h]
    · rw [if_neg h, if_neg h, ih]
      cases firstRewardIndex collateralType rest with
      | none => rfl
      | some i => simp [Nat.add_assoc, Nat.add_comm 1 i]

/-- What `HasRewardIndex` returns: the position of the first reward index for the collateral
type and `true`, or position 0 and `false` if there is none. -/
theorem HasRewardIndex_eq (c : USDXMintingClaim) (collateralType : String) :
    c.HasRewardIndex collateralType =
      match firstRewardIndex collateralType c.RewardIndexes with
      | some i => (i, true)
      | none => (0, false) := by
  unfold USDXMintingClaim.HasRewardIndex
  rw [hasRewardIndexLoop_eq]
  cases firstRewardIndex collateralType c.RewardIndexes <;> simp

/-- A reward index appended for a collateral type that has none becomes the first one for
that type. -/
theorem firstRewardIndex_append (collateralType : String) (factor : Dec)
    (l : List RewardIndex) (hnone : firstRewardIndex collateralType l = none) :
    firstRewardIndex collateralType (l ++ [NewRewardIndex collateralType factor]) =
      some l.length := by
  induction l with
  | nil => simp [firstRewardIndex, NewRewardIndex]
  | cons ri rest ih =>
    unfold firstRewardIndex at hnone
    by_cases h : ri.CollateralType = collateralType
    · simp [h] at hnone
    · rw [if_neg h] at hnone
      have hrest : firstRewardIndex collateralType rest = none := by
        cases hr : firstRewardIndex collateralType rest with
        | none => rfl
        | some i => simp [hr] at hnone
      simp [firstRewardIndex, h, ih hrest]

/-- The first reward index for a collateral type lies within the list and has that type. -/
theorem firstRewardIndex_get (collateralType : String) (l : List RewardIndex) (i : Nat)
    (hsome : firstRewardIndex collateralType l = some i) :
    ∃ ri, l[i]? = some ri ∧ ri.CollateralType = collateralType := by
  induction l generalizing i with
  | nil => simp [firstRewardIndex] at hsome
  | cons ri rest ih =>
    unfold firstRewardIndex at hsome
    by_cases h : ri.CollateralType = collateralType
    · rw [if_pos h] at hsome
      obtain rfl := Option.some.inj hsome
      exact ⟨ri, by simp, h⟩
    · rw [if_neg h] at hsome
      cases hr : firstRewardIndex collateralType rest with
      | none => simp [hr] at hsome
      | some j =>
        simp only [hr, Option.map_some', Option.some.injEq] at hsome
        subst hsome
        obtain ⟨ri', hget, htype⟩ := ih j hr
        exact ⟨ri', by simpa using hget, htype⟩

/-- Replacing the first reward index for a collateral type by another index of the same type
keeps it the first one. -/
theorem firstRewardIndex_set (collateralType : String) (factor : Dec) (l : List RewardIndex)
    (i : Nat) (hsome : firstRewardIndex collateralType l = some i) :
    firstRewardIndex collateralType (l.set i (NewRewardIndex collateralType factor)) =
      some i := by
  induction l generalizing i with
  | nil => simp [firstRewardIndex] at hsome
  | cons ri rest ih =>
    unfold firstRewardIndex at hsome
    by_cases h : ri.CollateralType = collateralType
    · rw [if_pos h] at hsome
      obtain rfl := Option.some.inj hsome
      simp [firstRewardIndex, NewRewardIndex]
    · rw [if_neg h] at hsome
      cases hr : firstRewardIndex collateralType rest with
      | none => simp [hr] at hsome
      | some j =>
        simp only [hr, Option.map_some', Option.some.injEq] at hsome
        subst hsome
        simp [firstRewardIndex, h, ih j hr]

/-- Appending a reward index for one collateral type leaves the reward indexes of every other
type as they were. -/
theorem filter_append_other (collateralType other : String) (factor : Dec)
    (l : List RewardIndex) (hother : other ≠ collateralType) :
    (l ++ [NewRewardIndex collateralType factor]).filter
        (fun ri => decide (ri.CollateralType = other)) =
      l.filter (fun ri => decide (ri.CollateralType = other)) := by
  have : ¬ collateralType = other := fun h => hother h.symm
  simp [List.filter_append, List.filter_cons, NewRewardIndex, this]

/-- Replacing the first reward index for one collateral type by an index of the same type
leaves the reward indexes of every other type as they were. -/
theorem filter_set_other (collateralType other : String) (factor : Dec)
    (l : List RewardIndex) (i : Nat) (hsome : firstRewardIndex collateralType l = some i)
    (hother : other ≠ collateralType) :
    (l.set i (NewRewardIndex collateralType factor)).filter
        (fun ri => decide (ri.CollateralType = other)) =
      l.filter (fun ri => decide (ri.CollateralType = other)) := by
  have hne : ¬ collateralType = other := fun h => hother h.symm
  induction l generalizing i with
  | nil => simp
  | cons ri rest ih =>
    unfold firstRewardIndex at hsome
    by_cases h : ri.CollateralType = collateralType
    · rw [if_pos h] at hsome
      obtain rfl := Option.some.inj hsome
      have h' : ¬ ri.CollateralType = other := by rw [h]; exact hne
      simp [List.filter_cons, NewRewardIndex, hne, h']
    · rw [if_neg h] at hsome
      cases hr : firstRewardIndex collateralType rest with
      | none => simp [hr] at hsome
      | some j =>
        simp only [hr, Option.map_some', Option.some.injEq] at hsome
        subst hsome
        simp [List.filter_cons, ih j hr]

/-! ## Initialisation and synchronisation of a claim -/

/-- The zero coin of the reward denomination can always be built. -/
theorem NewCoin_reward_zero :
    NewCoin USDXMintingRewardDenom 0 = some ⟨USDXMintingRewardDenom, 0⟩ := by
  decide

/-- What `InitializeUSDXMintingClaim` does for an incentivised collateral type: it stores, for
the owner of the CDP, a claim with the reward stored before (or the zero coin), in which the
first reward index for the type of the CDP holds the global reward factor, and in which the
reward indexes of the other types are as before. -/
theorem InitializeUSDXMintingClaim_result (ctx : Context) (cdp : CDP)
    (rewardPeriod : RewardPeriod)
    (hperiod : GetRewardPeriod ctx cdp.Type_ = some rewardPeriod) :
    ∃ claim index,
      InitializeUSDXMintingClaim ctx cdp = some (SetUSDXMintingClaim ctx claim) ∧
      claim.Owner = cdp.Owner ∧
      claim.Reward =
        ((GetUSDXMintingClaim ctx cdp.Owner).map (·.Reward)).getD ⟨USDXMintingRewardDenom, 0⟩ ∧
      firstRewardIndex cdp.Type_ claim.RewardIndexes = some index ∧
      claim.RewardIndexes[index]? =
        some (NewRewardIndex cdp.Type_
          ((GetUSDXMintingRewardFactor ctx cdp.Type_).getD ZeroDec)) ∧
      ∀ other, other ≠ cdp.Type_ →
        claim.RewardIndexes.filter (fun ri => decide (ri.CollateralType = other)) =
          (((GetUSDXMintingClaim ctx cdp.Owner).map (·.RewardIndexes)).getD []).filter
            (fun ri => decide (ri.CollateralType = other)) := by
  have hgetD : ∀ o : Option Dec,
      (match o with
        | some factor => factor
        | none => ZeroDec) = o.getD ZeroDec := by
    intro o
    cases o <;> rfl
  unfold InitializeUSDXMintingClaim
  rw [hperiod]
  simp only [hgetD]
  cases hclaim : GetUSDXMintingClaim ctx cdp.Owner with
  | none =>
    simp only [NewCoin_reward_zero]
    refine ⟨_, 0, rfl, rfl, rfl, ?_, ?_, ?_⟩
    · simp [NewUSDXMintingClaim, firstRewardIndex, NewRewardIndex]
    · simp [NewUSDXMintingClaim]
    · intro other hother
      have : ¬ cdp.Type_ = other := fun h => hother h.symm
      simp [NewUSDXMintingClaim, NewRewardIndex, List.filter_cons, this]
  | some claim =>
    have hOwner : claim.Owner = cdp.Owner := by
      unfold GetUSDXMintingClaim at hclaim
      cases hstored : ctx.usdxMintingClaim cdp.Owner with
      | none => simp [hstored] at hclaim
      | some stored =>
        simp only [hstored, Option.map_some', Option.some.injEq] at hclaim
        rw [← hclaim]
        rfl
    simp only [HasRewardIndex_eq]
    cases hfirst : firstRewardIndex cdp.Type_ claim.RewardIndexes with
    | none =>
      refine ⟨_, claim.RewardIndexes.length, rfl, hOwner, rfl, ?_, ?_, ?_⟩
      · exact firstRewardIndex_append _ _ _ hfirst
      · simp
      · intro other hother
        exact filter_append_other _ _ _ _ hother
    | some index =>
      obtain ⟨ri, hget, -⟩ := firstRewardIndex_get _ _ _ hfirst
      have hlt : index < claim.RewardIndexes.length := by
        by_contra hnot
        rw [List.getElem?_eq_none (by omega)] at hget
        cases hget
      refine ⟨_, index, rfl, hOwner, rfl, ?_, ?_, ?_⟩
      · exact firstRewardIndex_set _ _ _ _ hfirst
      · simp [hlt]
      · intro other hother
        exact filter_set_other _ _ _ _ _ hfirst hother

/-- The claim just stored for an owner is the claim read back for that owner. -/
theorem GetUSDXMintingClaim_Set (ctx : Context) (claim : USDXMintingClaim)
    (owner : AccAddress) (hOwner : claim.Owner = owner) :
    GetUSDXMintingClaim (SetUSDXMintingClaim ctx claim) owner = some claim := by
  subst hOwner
  simp [GetUSDXMintingClaim, SetUSDXMintingClaim, NewUSDXMintingClaim]

/-- C19: `InitializeUSDXMintingClaim` never loses existing rewards. When the collateral type
of the CDP has a reward period, the call succeeds, and after it the owner has a stored claim
whose `Reward` equals the `Reward` stored before the call (0 of the USDX minting reward
denomination if there was no claim), whose reward index for the type of the CDP (the first
one of that type, which `HasRewardIndex` finds) holds the current global reward factor (0 if
none is stored), and whose reward indexes for all the other collateral types are unchanged.
Nothing but the claim of the owner changes in the context. -/
theorem InitializeUSDXMintingClaim_keeps_rewards (ctx : Context) (cdp : CDP)
    (rewardPeriod : RewardPeriod)
    (hperiod : GetRewardPeriod ctx cdp.Type_ = some rewardPeriod) :
    ∃ ctx' claim index,
      InitializeUSDXMintingClaim ctx cdp = some ctx' ∧
      ctx' = SetUSDXMintingClaim ctx claim ∧
      GetUSDXMintingClaim ctx' cdp.Owner = some claim ∧
      claim.Owner = cdp.Owner ∧
      claim.Reward =
        ((GetUSDXMintingClaim ctx cdp.Owner).map (·.Reward)).getD ⟨USDXMintingRewardDenom, 0⟩ ∧
      claim.HasRewardIndex cdp.Type_ = (index, true) ∧
      claim.RewardIndexes[index]? =
        some (NewRewardIndex cdp.Type_
          ((GetUSDXMintingRewardFactor ctx cdp.Type_).getD ZeroDec)) ∧
      (∀ other, other ≠ cdp.Type_ →
        claim.RewardIndexes.filter (fun ri => decide (ri.CollateralType = other)) =
          (((GetUSDXMintingClaim ctx cdp.Owner).map (·.RewardIndexes)).getD []).filter
            (fun ri => decide (ri.CollateralType = other))) ∧
      (∀ owner, owner ≠ cdp.Owner →
        GetUSDXMintingClaim ctx' owner = GetUSDXMintingClaim ctx owner) := by
  obtain ⟨claim, index, hinit, hOwner, hReward, hfirst, hget, hothers⟩ :=
    InitializeUSDXMintingClaim_result ctx cdp rewardPeriod hperiod
  refine ⟨_, claim, index, hinit, rfl, GetUSDXMintingClaim_Set ctx claim cdp.Owner hOwner,
    hOwner, hReward, ?_, hget, hothers, ?_⟩
  · rw [HasRewardIndex_eq, hfirst]
  · intro owner hne
    have : owner ≠ claim.Owner := by rw [hOwner]; exact hne
    simp [GetUSDXMintingClaim, SetUSDXMintingClaim, Function.update_noteq this]

/-- Witness for C19 on the sample context, where the owner of the sample CDP has a claim of
`7 ukava` with the reward indexes `xrp-a` at `0.5` and `bnb-a` at `1.5`: after the call the
reward is still `7 ukava`. -/
theorem InitializeUSDXMintingClaim_keeps_rewards_witness :
    ∃ ctx' claim, InitializeUSDXMintingClaim sampleContext sampleCDP = some ctx' ∧
      GetUSDXMintingClaim ctx' sampleOwner = some claim ∧ claim.Reward = ⟨"ukava", 7⟩ :=
  match InitializeUSDXMintingClaim_keeps_rewards sampleContext sampleCDP sampleRewardPeriod
      (by decide) with
  | ⟨ctx', claim, _, hinit, _, hget, _, hreward, _⟩ =>
    ⟨ctx', claim, hinit, hget, hreward.trans (by decide)⟩

/-- C20: no new rewards accrue at initialisation. For every context and CDP,
`InitializeUSDXMintingClaim` succeeds, and `SynchronizeUSDXMintingReward` called right after
it for the same CDP succeeds and leaves the context exactly as `InitializeUSDXMintingClaim`
left it; in particular the claim of the owner, with its `Reward`, is unchanged. -/
theorem Synchronize_after_Initialize (ctx : Context) (cdp : CDP) :
    ∃ ctx', InitializeUSDXMintingClaim ctx cdp = some ctx' ∧
      SynchronizeUSDXMintingReward ctx' cdp = some ctx' ∧
      (InitializeUSDXMintingClaim ctx cdp).bind (SynchronizeUSDXMintingReward · cdp) =
        InitializeUSDXMintingClaim ctx cdp := by
  have hgetD : ∀ o : Option Dec,
      (match o with
        | some factor => factor
        | none => ZeroDec) = o.getD ZeroDec := by
    intro o
    cases o <;> rfl
  have key : ∃ ctx', InitializeUSDXMintingClaim ctx cdp = some ctx' ∧
      SynchronizeUSDXMintingReward ctx' cdp = some ctx' := by
    cases hperiod : GetRewardPeriod ctx cdp.Type_ with
    | none =>
      refine ⟨ctx, ?_, ?_⟩
      · unfold InitializeUSDXMintingClaim
        rw [hperiod]
      · unfold SynchronizeUSDXMintingReward
        rw [hperiod]
    | some rewardPeriod =>
      obtain ⟨claim, index, hinit, hOwner, -, hfirst, hget, -⟩ :=
        InitializeUSDXMintingClaim_result ctx cdp rewardPeriod hperiod
      refine ⟨_, hinit, ?_⟩
      have hperiod' : GetRewardPeriod (SetUSDXMintingClaim ctx claim) cdp.Type_ =
          some rewardPeriod := hperiod
      have hfactor : GetUSDXMintingRewardFactor (SetUSDXMintingClaim ctx claim) cdp.Type_ =
          GetUSDXMintingRewardFactor ctx cdp.Type_ := rfl
      unfold SynchronizeUSDXMintingReward
      rw [hperiod', GetUSDXMintingClaim_Set ctx claim cdp.Owner hOwner]
      simp only [hgetD, hfactor, HasRewardIndex_eq, hfirst, hget]
      simp [Dec_Sub_self, Dec.IsZero, NewRewardIndex]
  obtain ⟨ctx', hinit, hsync⟩ := key
  exact ⟨ctx', hinit, hsync, by rw [hinit]; exact hsync⟩

/-! ## Synchronisation of a claim that has a reward index -/

/-- Rounding a scaled value that is not negative gives an integer that is not negative. -/
theorem chopPrecisionAndRound_nonneg (d : Int) (h : 0 ≤ d) : 0 ≤ chopPrecisionAndRound d := by
  unfold chopPrecisionAndRound
  have hquo : 0 ≤ Int.tdiv d precisionReuse := Int.tdiv_nonneg h (by decide)
  simp only [not_lt.mpr h, if_false]
  split_ifs <;> omega

/-- Storing again the claim read for an owner leaves the context as it is. -/
theorem SetUSDXMintingClaim_Get (ctx : Context) (owner : AccAddress)
    (claim : USDXMintingClaim) (hclaim : GetUSDXMintingClaim ctx owner = some claim) :
    SetUSDXMintingClaim ctx claim = ctx := by
  unfold GetUSDXMintingClaim at hclaim
  cases hstored : ctx.usdxMintingClaim owner with
  | none => simp [hstored] at hclaim
  | some stored =>
    simp only [hstored, Option.map_some', Option.some.injEq] at hclaim
    subst hclaim
    unfold SetUSDXMintingClaim NewUSDXMintingClaim
    simp only [Prod.mk.eta, ← hstored, Function.update_eq_self]

/-- The owner of the claim read for an address is that address. -/
theorem GetUSDXMintingClaim_Owner (ctx : Context) (owner : AccAddress)
    (claim : USDXMintingClaim) (hclaim : GetUSDXMintingClaim ctx owner = some claim) :
    claim.Owner = owner := by
  unfold GetUSDXMintingClaim at hclaim
  cases hstored : ctx.usdxMintingClaim owner with
  | none => simp [hstored] at hclaim
  | some stored =>
    simp only [hstored, Option.map_some', Option.some.injEq] at hclaim
    rw [← hclaim]
    rfl


/-- C21, refuted as stated: in the sample context without a reward period for
`bnb-a`, the claim of the sample owner has the reward index `bnb-a` at `1.5` and the stored
global factor of `bnb-a` is `2.0`, the sample CDP has the total principal `1000500`, and
`RoundInt((2.0 - 1.5) * 1000500)` is `500250`; yet after `SynchronizeUSDXMintingReward` the
reward index of the claim is still `1.5` and its reward is still `7 ukava`. -/
theorem SynchronizeUSDXMintingReward_without_period :
    GetUSDXMintingRewardFactor sampleContextNoPeriod sampleCDP.Type_ =
        some ⟨2000000000000000000⟩ ∧
      (GetUSDXMintingClaim sampleContextNoPeriod sampleCDP.Owner).map
          (fun claim => (claim.Reward, claim.HasRewardIndex sampleCDP.Type_,
            claim.RewardIndexes[1]?)) =
        some (⟨"ukava", 7⟩, (1, true), some (NewRewardIndex "bnb-a" ⟨1500000000000000000⟩)) ∧
      ((((⟨2000000000000000000⟩ : Dec).Sub ⟨1500000000000000000⟩).bind fun difference =>
          difference.Mul
            (ToDec (sampleCDP.Principal.Amount + sampleCDP.AccumulatedFees.Amount))).bind
          fun product => product.RoundInt) =
        some 500250 ∧
      ((SynchronizeUSDXMintingReward sampleContextNoPeriod sampleCDP).bind
          (GetUSDXMintingClaim · sampleCDP.Owner)).map
          (fun claim => (claim.Reward, claim.RewardIndexes[1]?)) =
        some (⟨"ukava", 7⟩, some (NewRewardIndex "bnb-a" ⟨1500000000000000000⟩)) := by
  refine ⟨by decide, by decide, by decide, by decide⟩

/-- When the claim of the owner has a reward index for the type of the CDP with a factor
other than the global factor, `SynchronizeUSDXMintingReward` calls
`cdp.GetTotalPrincipal()`, and panics when that call panics. -/
theorem SynchronizeUSDXMintingReward_panics_of_total (ctx : Context) (cdp : CDP)
    (rewardPeriod : RewardPeriod) (claim : USDXMintingClaim) (index : Nat)
    (userIndex : RewardIndex)
    (hperiod : GetRewardPeriod ctx cdp.Type_ = some rewardPeriod)
    (hclaim : GetUSDXMintingClaim ctx cdp.Owner = some claim)
    (hindex : claim.HasRewardIndex cdp.Type_ = (index, true))
    (hget : claim.RewardIndexes[index]? = some userIndex)
    (hne : ((GetUSDXMintingRewardFactor ctx cdp.Type_).getD ZeroDec).i ≠
      userIndex.RewardFactor.i)
    (htotal : cdp.GetTotalPrincipal = none) :
    SynchronizeUSDXMintingReward ctx cdp = none := by
  have hgetD : ∀ o : Option Dec,
      (match o with
        | some factor => factor
        | none => ZeroDec) = o.getD ZeroDec := by
    intro o
    cases o <;> rfl
  generalize hg : (GetUSDXMintingRewardFactor ctx cdp.Type_).getD ZeroDec = globalRewardFactor
    at hne
  unfold SynchronizeUSDXMintingReward
  rw [hperiod]
  simp only [hgetD, hg, hclaim, hindex, Bool.not_true, Bool.false_eq_true, if_false, hget,
    htotal]
  cases hsub : globalRewardFactor.Sub userIndex.RewardFactor with
  | none => rfl
  | some difference =>
    have hzero : ¬ difference.IsZero = true := by
      unfold Dec.Sub at hsub
      simp only at hsub
      split_ifs at hsub
      cases hsub
      simp only [Dec.IsZero, beq_iff_eq]
      omega
    simp only [hzero, Bool.false_eq_true, if_false]

/-- The overflow of the total principal on the sample context: the CDP
`sampleCDPOverflow` has the principal and the fees `2^254 usdx` each, the stored claim of
its owner has the reward index `bnb-a` at `1.5` and the global factor is `2.0`;
`cdp.GetTotalPrincipal()` panics in `sdk.Coin.Add`, and so does
`SynchronizeUSDXMintingReward`. -/
theorem SynchronizeUSDXMintingReward_overflow_panics :
    sampleCDPOverflow.GetTotalPrincipal = none ∧
      SynchronizeUSDXMintingReward sampleContext sampleCDPOverflow = none := by
  have htotal : sampleCDPOverflow.GetTotalPrincipal = none := by
    unfold CDP.GetTotalPrincipal
    exact v0_13.Coin_Add_of_ge _ _ (by norm_num [sampleCDPOverflow])
  exact ⟨htotal,
    SynchronizeUSDXMintingReward_panics_of_total sampleContext sampleCDPOverflow
      sampleRewardPeriod
      (NewUSDXMintingClaim sampleOwner ⟨"ukava", 7⟩
        [NewRewardIndex "xrp-a" ⟨500000000000000000⟩,
          NewRewardIndex "bnb-a" ⟨1500000000000000000⟩])
      1 (NewRewardIndex "bnb-a" ⟨1500000000000000000⟩)
      (by decide) (by decide) (by decide) (by decide) (by decide) htotal⟩

/-- C21, amended: `SynchronizeUSDXMintingReward` adds the accumulated rewards and updates the
index when the collateral type is incentivised and no operation of the SDK overflows. When a
reward period exists for `cdp.Type`, for an owner whose stored claim, held in the reward
denomination, has its (first) reward index for `cdp.Type` at position `index` with a factor
`f_u` not above the global factor `f_g` (0 if none is stored), and for a CDP whose principal
and fees have one denomination and a total `T` that is not negative and below `2^255`, with
the scaled values of `f_g - f_u` and of `(f_g - f_u) * T` below `2^315`, and with the rounded
amount and its sum with the stored reward below `2^255`: the call succeeds; after it the
claim of the owner has the global factor in the reward index for `cdp.Type`; its reward
amount has increased by exactly `RoundInt((f_g - f_u) * T)` with `T` the amount of
`cdp.GetTotalPrincipal()`, which is `Principal + AccumulatedFees`; the owner, the
denomination of the reward and all the other reward indexes are unchanged, and nothing but
the claim of the owner changes in the context. -/
theorem SynchronizeUSDXMintingReward_adds_rewards (ctx : Context) (cdp : CDP)
    (rewardPeriod : RewardPeriod) (claim : USDXMintingClaim) (index : Nat)
    (userIndex : RewardIndex)
    (hperiod : GetRewardPeriod ctx cdp.Type_ = some rewardPeriod)
    (hclaim : GetUSDXMintingClaim ctx cdp.Owner = some claim)
    (hindex : claim.HasRewardIndex cdp.Type_ = (index, true))
    (hget : claim.RewardIndexes[index]? = some userIndex)
    (hfactor : userIndex.RewardFactor.i ≤
      ((GetUSDXMintingRewardFactor ctx cdp.Type_).getD ZeroDec).i)
    (hreward : claim.Reward.Denom = USDXMintingRewardDenom)
    (hdenom : cdp.Principal.Denom = cdp.AccumulatedFees.Denom)
    (hnonneg : 0 ≤ cdp.Principal.Amount + cdp.AccumulatedFees.Amount)
    (hprincipal : cdp.Principal.Amount + cdp.AccumulatedFees.Amount < 2 ^ 255)
    (hsub : ((GetUSDXMintingRewardFactor ctx cdp.Type_).getD ZeroDec).i -
      userIndex.RewardFactor.i < 2 ^ 315)
    (hmul : (((GetUSDXMintingRewardFactor ctx cdp.Type_).getD ZeroDec).i -
      userIndex.RewardFactor.i) *
        (cdp.Principal.Amount + cdp.AccumulatedFees.Amount) < 2 ^ 315)
    (hround : chopPrecisionAndRound
      ((((GetUSDXMintingRewardFactor ctx cdp.Type_).getD ZeroDec).i -
        userIndex.RewardFactor.i) *
          (cdp.Principal.Amount + cdp.AccumulatedFees.Amount)) < 2 ^ 255)
    (hsum : |claim.Reward.Amount + chopPrecisionAndRound
      ((((GetUSDXMintingRewardFactor ctx cdp.Type_).getD ZeroDec).i -
        userIndex.RewardFactor.i) *
          (cdp.Principal.Amount + cdp.AccumulatedFees.Amount))| < 2 ^ 255) :
    ∃ ctx' claim' difference product amount,
      SynchronizeUSDXMintingReward ctx cdp = some ctx' ∧
      GetUSDXMintingClaim ctx' cdp.Owner = some claim' ∧
      ctx' = SetUSDXMintingClaim ctx claim' ∧
      claim'.Owner = claim.Owner ∧
      claim'.HasRewardIndex cdp.Type_ = (index, true) ∧
      claim'.RewardIndexes[index]? =
        some (NewRewardIndex cdp.Type_
          ((GetUSDXMintingRewardFactor ctx cdp.Type_).getD ZeroDec)) ∧
      cdp.GetTotalPrincipal =
        some ⟨cdp.Principal.Denom, cdp.Principal.Amount + cdp.AccumulatedFees.Amount⟩ ∧
      claim'.Reward.Denom = claim.Reward.Denom ∧
      ((GetUSDXMintingRewardFactor ctx cdp.Type_).getD ZeroDec).Sub userIndex.RewardFactor =
        some difference ∧
      difference.Mul (ToDec (cdp.Principal.Amount + cdp.AccumulatedFees.Amount)) =
        some product ∧
      product.RoundInt = some amount ∧
      claim'.Reward.Amount = claim.Reward.Amount + amount ∧
      claim'.RewardIndexes.length = claim.RewardIndexes.length ∧
      ∀ j, j ≠ index → claim'.RewardIndexes[j]? = claim.RewardIndexes[j]? := by
  have hgetD : ∀ o : Option Dec,
      (match o with
        | some factor => factor
        | none => ZeroDec) = o.getD ZeroDec := by
    intro o
    cases o <;> rfl
  have hOwner : claim.Owner = cdp.Owner := GetUSDXMintingClaim_Owner ctx cdp.Owner claim hclaim
  have hfirst : firstRewardIndex cdp.Type_ claim.RewardIndexes = some index := by
    rw [HasRewardIndex_eq] at hindex
    cases hf : firstRewardIndex cdp.Type_ claim.RewardIndexes with
    | none => simp [hf] at hindex
    | some i =>
      simp only [hf, Prod.mk.injEq, and_true] at hindex
      rw [hindex]
  obtain ⟨ri, hget', htype⟩ := firstRewardIndex_get _ _ _ hfirst
  rw [hget] at hget'
  obtain rfl := Option.some.inj hget'
  have hlt : index < claim.RewardIndexes.length := by
    by_contra hnot
    rw [List.getElem?_eq_none (by omega)] at hget
    cases hget
  have htotal : cdp.GetTotalPrincipal =
      some ⟨cdp.Principal.Denom, cdp.Principal.Amount + cdp.AccumulatedFees.Amount⟩ := by
    unfold CDP.GetTotalPrincipal
    exact v0_13.Coin_Add_of_lt _ _ hdenom (by rw [abs_of_nonneg hnonneg]; exact hprincipal)
  generalize hg : (GetUSDXMintingRewardFactor ctx cdp.Type_).getD ZeroDec = globalRewardFactor
    at hfactor hsub hmul hround hsum ⊢
  generalize hT : cdp.Principal.Amount + cdp.AccumulatedFees.Amount = total
    at hnonneg hprincipal hmul hround hsum htotal ⊢
  have hdiff : 0 ≤ globalRewardFactor.i - userIndex.RewardFactor.i := by omega
  have hprod : 0 ≤ (globalRewardFactor.i - userIndex.RewardFactor.i) * total :=
    mul_nonneg hdiff hnonneg
  have hamount : 0 ≤ chopPrecisionAndRound
      ((globalRewardFactor.i - userIndex.RewardFactor.i) * total) :=
    chopPrecisionAndRound_nonneg _ hprod
  have hsubeq : globalRewardFactor.Sub userIndex.RewardFactor =
      some ⟨globalRewardFactor.i - userIndex.RewardFactor.i⟩ :=
    Dec_Sub_of_lt _ _ (by rw [abs_of_nonneg hdiff]; exact hsub)
  have hmuleq : (⟨globalRewardFactor.i - userIndex.RewardFactor.i⟩ : Dec).Mul (ToDec total) =
      some ⟨(globalRewardFactor.i - userIndex.RewardFactor.i) * total⟩ :=
    Dec_Mul_ToDec _ _ (by rw [abs_of_nonneg hprod]; exact hmul)
  have hroundeq : (⟨(globalRewardFactor.i - userIndex.RewardFactor.i) * total⟩ :
      Dec).RoundInt =
      some (chopPrecisionAndRound
        ((globalRewardFactor.i - userIndex.RewardFactor.i) * total)) :=
    Dec_RoundInt_of_lt _ (by rw [abs_of_nonneg hamount]; exact hround)
  generalize chopPrecisionAndRound
      ((globalRewardFactor.i - userIndex.RewardFactor.i) * total) = amount
    at hamount hround hsum hroundeq ⊢
  suffices h : ∃ ctx' claim',
      SynchronizeUSDXMintingReward ctx cdp = some ctx' ∧
      GetUSDXMintingClaim ctx' cdp.Owner = some claim' ∧
      ctx' = SetUSDXMintingClaim ctx claim' ∧
      claim'.Owner = claim.Owner ∧
      claim'.HasRewardIndex cdp.Type_ = (index, true) ∧
      claim'.RewardIndexes[index]? = some (NewRewardIndex cdp.Type_ globalRewardFactor) ∧
      claim'.Reward.Denom = claim.Reward.Denom ∧
      claim'.Reward.Amount = claim.Reward.Amount + amount ∧
      claim'.RewardIndexes.length = claim.RewardIndexes.length ∧
      ∀ j, j ≠ index → claim'.RewardIndexes[j]? = claim.RewardIndexes[j]? by
    obtain ⟨ctx', claim', h1, h2, h3, h4, h5, h6, h7, h8, h9, h10⟩ := h
    exact ⟨ctx', claim', _, _, amount, h1, h2, h3, h4, h5, h6, htotal, h7, hsubeq, hmuleq,
      hroundeq, h8, h9, h10⟩
  unfold SynchronizeUSDXMintingReward
  rw [hperiod]
  simp only [hgetD, hg, hclaim, hindex, Bool.not_true, Bool.false_eq_true, if_false, hget,
    hsubeq, htotal, hmuleq, hroundeq]
  by_cases hzero : (⟨globalRewardFactor.i - userIndex.RewardFactor.i⟩ : Dec).IsZero = true
  · rw [if_pos hzero]
    have hi : globalRewardFactor.i - userIndex.RewardFactor.i = 0 := by
      simpa [Dec.IsZero] using hzero
    have heq : userIndex = NewRewardIndex cdp.Type_ globalRewardFactor := by
      cases userIndex with
      | mk ct rf =>
        cases rf with
        | mk i =>
          cases globalRewardFactor with
          | mk g =>
            simp only [NewRewardIndex, RewardIndex.mk.injEq, Dec.mk.injEq]
            simp only at hi htype
            exact ⟨htype, by omega⟩
    have hzeroAmount : amount = 0 := by
      have h0 : chopPrecisionAndRound 0 = 0 := by decide
      rw [hi, zero_mul] at hroundeq
      have := Dec_RoundInt_of_lt ⟨0⟩ (by rw [h0]; norm_num)
      rw [this, h0] at hroundeq
      exact (Option.some.inj hroundeq).symm
    refine ⟨ctx, claim, rfl, hclaim, (SetUSDXMintingClaim_Get ctx cdp.Owner claim hclaim).symm,
      rfl, hindex, ?_, rfl, ?_, rfl, fun _ _ => rfl⟩
    · rw [hget, heq]
    · rw [hzeroAmount, add_zero]
  · rw [if_neg hzero]
    have hset : firstRewardIndex cdp.Type_
        (claim.RewardIndexes.set index
          { userIndex with RewardFactor := globalRewardFactor }) = some index := by
      have := firstRewardIndex_set cdp.Type_ globalRewardFactor claim.RewardIndexes index hfirst
      simpa [NewRewardIndex, htype] using this
    have hstored : ∀ reward : Coin,
        let claim' : USDXMintingClaim :=
          { Owner := claim.Owner, Reward := reward,
            RewardIndexes := claim.RewardIndexes.set index
              { userIndex with RewardFactor := globalRewardFactor } }
        GetUSDXMintingClaim (SetUSDXMintingClaim ctx claim') cdp.Owner = some claim' ∧
          claim'.HasRewardIndex cdp.Type_ = (index, true) ∧
          claim'.RewardIndexes[index]? = some (NewRewardIndex cdp.Type_ globalRewardFactor) ∧
          claim'.RewardIndexes.length = claim.RewardIndexes.length ∧
          ∀ j, j ≠ index → claim'.RewardIndexes[j]? = claim.RewardIndexes[j]? := by
      intro reward claim'
      refine ⟨GetUSDXMintingClaim_Set ctx claim' cdp.Owner hOwner, ?_, ?_, ?_, ?_⟩
      · rw [HasRewardIndex_eq]
        simp only [claim', hset]
      · simp [claim', hlt, NewRewardIndex, htype]
      · simp [claim']
      · intro j hj
        simp only [claim']
        exact List.getElem?_set_ne (Ne.symm hj)
    by_cases hamt : amount = 0
    · rw [if_pos hamt]
      obtain ⟨h1, h2, h3, h4, h5⟩ := hstored claim.Reward
      exact ⟨_, _, rfl, h1, rfl, rfl, h2, h3, rfl, by simp [hamt], h4, h5⟩
    · rw [if_neg hamt]
      have hcoin : NewCoin USDXMintingRewardDenom amount =
          some ⟨USDXMintingRewardDenom, amount⟩ := by
        have hv : v0_13.ValidateDenom USDXMintingRewardDenom = true := by decide
        simp [NewCoin, hv, not_lt.mpr hamount]
      have hadd : claim.Reward.Add ⟨USDXMintingRewardDenom, amount⟩ =
          some ⟨claim.Reward.Denom, claim.Reward.Amount + amount⟩ :=
        v0_13.Coin_Add_of_lt _ _ hreward hsum
      simp only [hcoin, hadd]
      obtain ⟨h1, h2, h3, h4, h5⟩ := hstored ⟨claim.Reward.Denom, claim.Reward.Amount + amount⟩
      exact ⟨_, _, rfl, h1, rfl, rfl, h2, h3, rfl, rfl, h4, h5⟩

/-- Witness for C21 on the sample context: the claim of the sample owner has the reward
`7 ukava` and the index `bnb-a` at `1.5`, the global factor is `2.0` and the sample CDP has
the total principal `1000500`, so the reward becomes `7 + 500250` and the index `2.0`. -/
theorem SynchronizeUSDXMintingReward_adds_rewards_witness :
    ∃ ctx' claim', SynchronizeUSDXMintingReward sampleContext sampleCDP = some ctx' ∧
      GetUSDXMintingClaim ctx' sampleOwner = some claim' ∧
      claim'.RewardIndexes[1]? = some (NewRewardIndex "bnb-a" ⟨2000000000000000000⟩) ∧
      claim'.Reward.Amount = 500257 :=
  match SynchronizeUSDXMintingReward_adds_rewards sampleContext sampleCDP sampleRewardPeriod
      (NewUSDXMintingClaim sampleOwner ⟨"ukava", 7⟩
        [NewRewardIndex "xrp-a" ⟨500000000000000000⟩,
          NewRewardIndex "bnb-a" ⟨1500000000000000000⟩])
      1 (NewRewardIndex "bnb-a" ⟨1500000000000000000⟩)
      (by decide) (by decide) (by decide) (by decide) (by decide) (by decide) (by decide)
      (by decide) (by set_option maxRecDepth 100000 in decide)
      (by set_option maxRecDepth 100000 in decide)
      (by set_option maxRecDepth 100000 in decide)
      (by set_option maxRecDepth 100000 in decide)
      (by set_option maxRecDepth 100000 in decide) with
  | ⟨ctx', claim', _, _, amount, hsync, hget, _, _, _, hindex, _, _, hsub, hmul, hround,
      hamount, _⟩ =>
    ⟨ctx', claim', hsync, hget, hindex.trans (by decide),
      hamount.trans (by
        have h1 : ((GetUSDXMintingRewardFactor sampleContext sampleCDP.Type_).getD ZeroDec).Sub
            (NewRewardIndex "bnb-a" ⟨1500000000000000000⟩).RewardFactor =
            some ⟨500000000000000000⟩ := by decide
        have h2 : (⟨500000000000000000⟩ : Dec).Mul
            (ToDec (sampleCDP.Principal.Amount + sampleCDP.AccumulatedFees.Amount)) =
            some ⟨500250000000000000000000⟩ := by decide
        have h3 : (⟨500250000000000000000000⟩ : Dec).RoundInt = some 500250 := by decide
        rw [h1] at hsub
        cases hsub
        rw [h2] at hmul
        cases hmul
        rw [h3] at hround
        cases hround
        decide)⟩

/-! ## Collateral types and denominations without a reward period -/

/-- C22: a collateral type or denomination that is not incentivised is ignored. When no
reward period exists for `cdp.Type`, `InitializeUSDXMintingClaim` and
`SynchronizeUSDXMintingReward` return with the context, hence the whole store, unchanged;
when none exists for `denom`, so do `InitializeHardLiquidityBorrowReward` and
`SynchronizeHardLiquidityBorrowReward`. -/
theorem not_incentivised_ignored (ctx : Context) (cdp : CDP) (borrow : Borrow)
    (denom : String) :
    (GetRewardPeriod ctx cdp.Type_ = none →
      InitializeUSDXMintingClaim ctx cdp = some ctx ∧
        SynchronizeUSDXMintingReward ctx cdp = some ctx) ∧
      (GetRewardPeriod ctx denom = none →
        InitializeHardLiquidityBorrowReward ctx borrow denom = some ctx ∧
          SynchronizeHardLiquidityBorrowReward ctx borrow denom = some ctx) := by
  refine ⟨fun h => ⟨?_, ?_⟩, fun h => ⟨?_, ?_⟩⟩
  · unfold InitializeUSDXMintingClaim
    rw [h]
  · unfold SynchronizeUSDXMintingReward
    rw [h]
  · unfold InitializeHardLiquidityBorrowReward
    rw [h]
  · unfold SynchronizeHardLiquidityBorrowReward
    rw [h]

/-- Witness for C22 on the sample context, in which `xrp-a` and `ukava` have no reward
period, although the sample owner has a claim with a reward index for `xrp-a`. -/
theorem not_incentivised_ignored_witness :
    (InitializeUSDXMintingClaim sampleContext sampleCDPNotIncentivised = some sampleContext ∧
        SynchronizeUSDXMintingReward sampleContext sampleCDPNotIncentivised =
          some sampleContext) ∧
      (InitializeHardLiquidityBorrowReward sampleContext sampleBorrow "ukava" =
          some sampleContext ∧
        SynchronizeHardLiquidityBorrowReward sampleContext sampleBorrow "ukava" =
          some sampleContext) :=
  ⟨(not_incentivised_ignored sampleContext sampleCDPNotIncentivised sampleBorrow "ukava").1
      (by decide),
    (not_incentivised_ignored sampleContext sampleCDPNotIncentivised sampleBorrow "ukava").2
      (by decide)⟩

end keeper

namespace validatorvesting

open v0_13 (Time AccAddress)

/-! ## The vote of a validator -/

/-- The search of `FilterByValidatorAddress` finds the first vote whose validator has the
address. -/
theorem FilterByValidatorAddress_eq_find (vis : VoteInfos) (consAddress : ConsAddress) :
    vis.FilterByValidatorAddress consAddress =
      match vis.find? (fun vi => decide (vi.Validator.Address = consAddress)) with
      | some vi => (vi, true)
      | none => (zeroVoteInfo, false) := by
  induction vis with
  | nil => rfl
  | cons vi rest ih =>
    unfold VoteInfos.FilterByValidatorAddress
    by_cases h : consAddress = vi.Validator.Address
    · simp [h]
    · have h' : ¬ vi.Validator.Address = consAddress := fun e => h e.symm
      simp only [h, if_false, List.find?_cons, h', decide_False]
      exact ih

/-- C23: `FilterByValidatorAddress` returns `(vis[i], true)` where `i` is the smallest index
whose `Validator.Address` equals the given consensus address byte for byte: if some element
has the address there is such an index, and for every index `i` that holds the address
while no smaller index does, the result is `(vis[i], true)`. It returns the zero `VoteInfo`
and `false` if and only if no element of the list has the address. -/
theorem FilterByValidatorAddress_spec (vis : VoteInfos) (consAddress : ConsAddress) :
    (∀ (i : Nat) (vi : VoteInfo), vis[i]? = some vi → vi.Validator.Address = consAddress →
        (∀ (j : Nat) (vj : VoteInfo), j < i → vis[j]? = some vj →
          vj.Validator.Address ≠ consAddress) →
        vis.FilterByValidatorAddress consAddress = (vi, true)) ∧
      ((∃ vi ∈ vis, vi.Validator.Address = consAddress) →
        ∃ (i : Nat) (vi : VoteInfo), vis[i]? = some vi ∧ vi.Validator.Address = consAddress ∧
          (∀ (j : Nat) (vj : VoteInfo), j < i → vis[j]? = some vj →
            vj.Validator.Address ≠ consAddress) ∧
          vis.FilterByValidatorAddress consAddress = (vi, true)) ∧
      (vis.FilterByValidatorAddress consAddress = (zeroVoteInfo, false) ↔
        ∀ vi ∈ vis, vi.Validator.Address ≠ consAddress) := by
  induction vis with
  | nil =>
    refine ⟨?_, ?_, ?_⟩
    · intro i vi hi
      simp at hi
    · rintro ⟨vi, hmem, -⟩
      simp at hmem
    · simp [VoteInfos.FilterByValidatorAddress]
  | cons v rest ih =>
    obtain ⟨ih1, ih2, ih3⟩ := ih
    by_cases h : consAddress = v.Validator.Address
    · have hres : VoteInfos.FilterByValidatorAddress (v :: rest) consAddress = (v, true) := by
        unfold VoteInfos.FilterByValidatorAddress
        simp [h]
      refine ⟨?_, ?_, ?_⟩
      · intro i vi hi haddr hsmall
        cases i with
        | zero =>
          simp only [List.getElem?_cons_zero, Option.some.injEq] at hi
          rw [hres, hi]
        | succ n =>
          exact absurd h.symm (hsmall 0 v (Nat.succ_pos n) (by simp))
      · intro _
        refine ⟨0, v, by simp, h.symm, ?_, hres⟩
        intro j vj hj
        omega
      · rw [hres]
        constructor
        · intro heq
          simp at heq
        · intro hall
          exact absurd h.symm (hall v (List.mem_cons_self _ _))
    · have h' : ¬ v.Validator.Address = consAddress := fun e => h e.symm
      have hres : VoteInfos.FilterByValidatorAddress (v :: rest) consAddress =
          VoteInfos.FilterByValidatorAddress rest consAddress := by
        conv_lhs => unfold VoteInfos.FilterByValidatorAddress
        simp [h]
      refine ⟨?_, ?_, ?_⟩
      · intro i vi hi haddr hsmall
        cases i with
        | zero =>
          simp only [List.getElem?_cons_zero, Option.some.injEq] at hi
          rw [← hi] at haddr
          exact absurd haddr h'
        | succ n =>
          rw [hres]
          simp only [List.getElem?_cons_succ] at hi
          refine ih1 n vi hi haddr ?_
          intro j vj hj hget
          exact hsmall (j + 1) vj (by omega) (by simpa using hget)
      · rintro ⟨vi, hmem, haddr⟩
        have hmem' : vi ∈ rest := by
          rcases List.mem_cons.mp hmem with e | e
          · rw [e] at haddr
            exact absurd haddr h'
          · exact e
        obtain ⟨i, vi', hget, haddr', hsmall, hfilter⟩ := ih2 ⟨vi, hmem', haddr⟩
        refine ⟨i + 1, vi', by simpa using hget, haddr', ?_, by rw [hres, hfilter]⟩
        intro j vj hj hgetj
        cases j with
        | zero =>
          simp only [List.getElem?_cons_zero, Option.some.injEq] at hgetj
          rw [← hgetj]
          exact h'
        | succ m =>
          exact hsmall m vj (by omega) (by simpa using hgetj)
      · rw [hres, ih3]
        constructor
        · intro hall vi hmem
          rcases List.mem_cons.mp hmem with e | e
          · rw [e]
            exact h'
          · exact hall vi e
        · intro hall vi hmem
          exact hall vi (List.mem_cons_of_mem _ hmem)

/-- Witness for C23 on the sample votes: the sample validator has the second vote, which is
returned; an address with no vote gives the zero `VoteInfo` and `false`. -/
theorem FilterByValidatorAddress_spec_witness :
    sampleVotes.FilterByValidatorAddress sampleValidator =
        ({ Validator := { Address := sampleValidator, Power := 10 },
            SignedLastBlock := false }, true) ∧
      sampleVotes.FilterByValidatorAddress [] = (zeroVoteInfo, false) :=
  ⟨(FilterByValidatorAddress_spec sampleVotes sampleValidator).1 1 _ (by decide) (by decide)
      (by
        intro j vj hj hget
        obtain rfl : j = 0 := by omega
        obtain rfl : _ = vj := Option.some.inj hget
        decide),
    (FilterByValidatorAddress_spec sampleVotes []).2.2.mpr (by decide)⟩

/-! ## The begin blocker -/

/-- The period loop succeeds when the keeper never panics. -/
theorem endTimesLoop_isSome {σ : Type} (k : Keeper σ) (hk : k.NeverPanics)
    (previousBlockTime currentBlockTime : Time) (key : AccAddress) (endTimes : List Int) :
    ∀ (ctx : Context σ) (i : Nat),
      ∃ ctx', endTimesLoop k previousBlockTime currentBlockTime key ctx endTimes i =
        some ctx' := by
  induction endTimes with
  | nil => exact fun ctx _ => ⟨ctx, rfl⟩
  | cons t rest ih =>
    intro ctx i
    unfold endTimesLoop
    by_cases h : periodEnded currentBlockTime previousBlockTime t = true
    · rw [if_pos h]
      obtain ⟨store, hstore⟩ := Option.isSome_iff_exists.mp (hk.2.2.2.2.1 ctx key i)
      simp only [Keeper.UpdateVestedCoinsProgress, hstore, Option.map_some']
      exact ih _ _
    · rw [if_neg h]
      exact ih _ _

/-- The body of the loop over the account keys succeeds when the keeper never panics. -/
theorem accountStep_isSome {σ : Type} (k : Keeper σ) (hk : k.NeverPanics)
    (voteInfos : VoteInfos) (previousBlockTime currentBlockTime : Time) (ctx : Context σ)
    (key : AccAddress) :
    ∃ ctx', accountStep k voteInfos previousBlockTime currentBlockTime ctx key = some ctx' := by
  obtain ⟨hacc, hvesting, hsign, htimes, _, hdebt⟩ := hk
  obtain ⟨acc, hacc'⟩ := Option.isSome_iff_exists.mp (hacc ctx key)
  obtain ⟨vesting, hvesting'⟩ := Option.isSome_iff_exists.mp (hvesting ctx acc.GetAddress)
  unfold accountStep
  simp only [Keeper.GetAccountFromAuthKeeper, hacc', Keeper.AccountIsVesting, hvesting']
  cases vesting with
  | false => exact ⟨ctx, rfl⟩
  | true =>
    simp only
    generalize (if (!(voteInfos.FilterByValidatorAddress acc.ValidatorAddress).2 ||
      !(voteInfos.FilterByValidatorAddress acc.ValidatorAddress).1.SignedLastBlock) &&
        decide (ctx.BlockHeight > 1) then true else false) = missedBlock
    obtain ⟨store, hstore⟩ :=
      Option.isSome_iff_exists.mp (hsign ctx acc.GetAddress missedBlock)
    simp only [Keeper.UpdateMissingSignCount, hstore, Option.map_some']
    obtain ⟨endTimes, hendTimes⟩ :=
      Option.isSome_iff_exists.mp (htimes { ctx with store := store } key)
    simp only [Keeper.GetPeriodEndTimes, hendTimes]
    obtain ⟨ctx₂, hloop⟩ := endTimesLoop_isSome k ⟨hacc, hvesting, hsign, htimes, ‹_›, hdebt⟩
      previousBlockTime currentBlockTime key endTimes { ctx with store := store } 0
    simp only [hloop]
    obtain ⟨store₂, hstore₂⟩ := Option.isSome_iff_exists.mp (hdebt ctx₂ key currentBlockTime)
    simp only [Keeper.HandleVestingDebt, hstore₂, Option.map_some']
    exact ⟨_, rfl⟩

/-- The loop over the account keys succeeds when the keeper never panics. -/
theorem accountKeysLoop_isSome {σ : Type} (k : Keeper σ) (hk : k.NeverPanics)
    (voteInfos : VoteInfos) (previousBlockTime currentBlockTime : Time)
    (keys : List AccAddress) :
    ∀ ctx : Context σ,
      ∃ ctx', accountKeysLoop k voteInfos previousBlockTime currentBlockTime ctx keys =
        some ctx' := by
  induction keys with
  | nil => exact fun ctx => ⟨ctx, rfl⟩
  | cons key rest ih =>
    intro ctx
    unfold accountKeysLoop
    obtain ⟨ctx₁, hstep⟩ :=
      accountStep_isSome k hk voteInfos previousBlockTime currentBlockTime ctx key
    simp only [hstep]
    exact ih ctx₁

/-- The loop over the account keys leaves the context as it is when it meets no vesting
account. -/
theorem accountKeysLoop_not_vesting {σ : Type} (k : Keeper σ) (voteInfos : VoteInfos)
    (previousBlockTime currentBlockTime : Time) (ctx : Context σ) (keys : List AccAddress)
    (hnone : ∀ key ∈ keys, ∃ acc, k.GetAccountFromAuthKeeper ctx key = some acc ∧
      k.AccountIsVesting ctx acc.GetAddress = some false) :
    accountKeysLoop k voteInfos previousBlockTime currentBlockTime ctx keys = some ctx := by
  induction keys with
  | nil => rfl
  | cons key rest ih =>
    obtain ⟨acc, hacc, hvesting⟩ := hnone key (List.mem_cons_self _ _)
    unfold accountKeysLoop accountStep
    simp only [hacc, hvesting]
    exact ih fun key' hmem => hnone key' (List.mem_cons_of_mem _ hmem)

/-- C25: `BeginBlocker` always records the block time. On the first call, when no previous
block time is stored, the call returns the context in which the previous block time is
`ctx.BlockTime()` and nothing else is changed. When the call meets no vesting account (in
particular when there is no account key) it does the same. In every case the previous block
time stored after the call is `ctx.BlockTime()`, and the call does return when no method of
the keeper panics. -/
theorem BeginBlocker_records_block_time {σ : Type} (k : Keeper σ) (ctx : Context σ)
    (req : RequestBeginBlock) :
    (GetPreviousBlockTime ctx = none →
        BeginBlocker k ctx req = some { ctx with previousBlockTime := some ctx.BlockTime }) ∧
      ((∀ key ∈ k.GetAllAccountKeys ctx, ∃ acc, k.GetAccountFromAuthKeeper ctx key = some acc ∧
          k.AccountIsVesting ctx acc.GetAddress = some false) →
        BeginBlocker k ctx req = some { ctx with previousBlockTime := some ctx.BlockTime }) ∧
      (∀ ctx', BeginBlocker k ctx req = some ctx' →
        GetPreviousBlockTime ctx' = some ctx.BlockTime) ∧
      (k.NeverPanics → ∃ ctx', BeginBlocker k ctx req = some ctx' ∧
        GetPreviousBlockTime ctx' = some ctx.BlockTime) := by
  have hall : ∀ ctx', BeginBlocker k ctx req = some ctx' →
      GetPreviousBlockTime ctx' = some ctx.BlockTime := by
    intro ctx' h
    unfold BeginBlocker at h
    cases hprev : GetPreviousBlockTime ctx with
    | none =>
      simp only [hprev, Option.some.injEq] at h
      rw [← h]
      rfl
    | some previousBlockTime =>
      simp only [hprev] at h
      cases hloop : accountKeysLoop k req.LastCommitInfo.GetVotes previousBlockTime
          ctx.BlockTime ctx (k.GetAllAccountKeys ctx) with
      | none => simp [hloop] at h
      | some ctx₁ =>
        simp only [hloop, Option.some.injEq] at h
        rw [← h]
        rfl
  refine ⟨?_, ?_, hall, ?_⟩
  · intro hprev
    unfold BeginBlocker
    rw [hprev]
    rfl
  · intro hnone
    unfold BeginBlocker
    cases hprev : GetPreviousBlockTime ctx with
    | none => rfl
    | some previousBlockTime =>
      simp only [accountKeysLoop_not_vesting k _ _ _ ctx _ hnone]
      rfl
  · intro hk
    have hsome : ∃ ctx', BeginBlocker k ctx req = some ctx' := by
      unfold BeginBlocker
      cases hprev : GetPreviousBlockTime ctx with
      | none => exact ⟨_, rfl⟩
      | some previousBlockTime =>
        obtain ⟨ctx₁, hloop⟩ := accountKeysLoop_isSome k hk req.LastCommitInfo.GetVotes
          previousBlockTime ctx.BlockTime (k.GetAllAccountKeys ctx) ctx
        simp only [hloop]
        exact ⟨_, rfl⟩
    obtain ⟨ctx', h⟩ := hsome
    exact ⟨ctx', h, hall ctx' h⟩

/-- The sample keeper never panics. -/
theorem sampleKeeper_NeverPanics : sampleKeeper.NeverPanics :=
  ⟨fun _ _ => rfl, fun _ _ => rfl, fun _ _ _ => rfl, fun _ _ => rfl, fun _ _ _ => rfl,
    fun _ _ _ => rfl⟩

/-- Witness for C25 with the sample keeper: on the first call the block time is stored and
the keeper records no call; on a later call, which processes the account of the sample
validator, the block time is stored as well. -/
theorem BeginBlocker_records_block_time_witness :
    BeginBlocker sampleKeeper sampleFirstContext sampleRequest =
        some { sampleFirstContext with previousBlockTime := some sampleLaterBlockTime } ∧
      ∃ ctx', BeginBlocker sampleKeeper sampleContext sampleRequest = some ctx' ∧
        GetPreviousBlockTime ctx' = some sampleLaterBlockTime :=
  ⟨(BeginBlocker_records_block_time sampleKeeper sampleFirstContext sampleRequest).1
      (by decide),
    (BeginBlocker_records_block_time sampleKeeper sampleContext sampleRequest).2.2.2
      sampleKeeper_NeverPanics⟩

/-! ## Missed blocks -/

/-- The period loop changes nothing but the rest of the state. -/
theorem endTimesLoop_frame {σ : Type} (k : Keeper σ) (previousBlockTime currentBlockTime : Time)
    (key : AccAddress) (endTimes : List Int) :
    ∀ (ctx : Context σ) (i : Nat) (ctx' : Context σ),
      endTimesLoop k previousBlockTime currentBlockTime key ctx endTimes i = some ctx' →
      ctx'.blockTime = ctx.blockTime ∧ ctx'.blockHeight = ctx.blockHeight ∧
        ctx'.previousBlockTime = ctx.previousBlockTime := by
  induction endTimes with
  | nil =>
    intro ctx i ctx' h
    simp only [endTimesLoop, Option.some.injEq] at h
    subst h
    exact ⟨rfl, rfl, rfl⟩
  | cons t rest ih =>
    intro ctx i ctx' h
    unfold endTimesLoop at h
    split_ifs at h
    · cases hstore : k.updateVestedCoinsProgress ctx key i with
      | none => simp [Keeper.UpdateVestedCoinsProgress, hstore] at h
      | some store =>
        simp only [Keeper.UpdateVestedCoinsProgress, hstore, Option.map_some'] at h
        have h' := ih _ _ _ h
        exact h'
    · exact ih _ _ _ h

/-- The body of the loop over the account keys, with the steps chained and the flag of the
missed block written out. -/
theorem accountStep_eq_bind {σ : Type} (k : Keeper σ) (voteInfos : VoteInfos)
    (previousBlockTime currentBlockTime : Time) (ctx : Context σ) (key : AccAddress) :
    accountStep k voteInfos previousBlockTime currentBlockTime ctx key =
      (k.GetAccountFromAuthKeeper ctx key).bind fun acc =>
        (k.AccountIsVesting ctx acc.GetAddress).bind fun vesting =>
          if vesting then
            (k.UpdateMissingSignCount ctx acc.GetAddress
              ((!(voteInfos.FilterByValidatorAddress acc.ValidatorAddress).2 ||
                !(voteInfos.FilterByValidatorAddress acc.ValidatorAddress).1.SignedLastBlock) &&
                  decide (ctx.BlockHeight > 1))).bind fun ctx₂ =>
              (k.GetPeriodEndTimes ctx₂ key).bind fun endTimes =>
                (endTimesLoop k previousBlockTime currentBlockTime key ctx₂ endTimes 0).bind
                  fun ctx₃ => k.HandleVestingDebt ctx₃ key currentBlockTime
          else some ctx := by
  unfold accountStep
  cases k.GetAccountFromAuthKeeper ctx key with
  | none => rfl
  | some acc =>
    simp only [Option.some_bind]
    cases k.AccountIsVesting ctx acc.GetAddress with
    | none => rfl
    | some vesting =>
      cases vesting with
      | false => rfl
      | true =>
        simp only [Option.some_bind, if_true]
        have hflag : ∀ b : Bool, (if b = true then true else false) = b := by
          intro b
          cases b <;> rfl
        rw [hflag]
        cases k.UpdateMissingSignCount ctx acc.GetAddress
            ((!(voteInfos.FilterByValidatorAddress acc.ValidatorAddress).2 ||
              !(voteInfos.FilterByValidatorAddress acc.ValidatorAddress).1.SignedLastBlock) &&
                decide (ctx.BlockHeight > 1)) with
        | none => rfl
        | some ctx₂ =>
          simp only [Option.some_bind]
          cases k.GetPeriodEndTimes ctx₂ key with
          | none => rfl
          | some endTimes =>
            simp only [Option.some_bind]
            cases endTimesLoop k previousBlockTime currentBlockTime key ctx₂ endTimes 0 with
            | none => rfl
            | some ctx₃ => rfl

/-- The body of the loop over the account keys changes nothing but the rest of the state. -/
theorem accountStep_frame {σ : Type} (k : Keeper σ) (voteInfos : VoteInfos)
    (previousBlockTime currentBlockTime : Time) (ctx : Context σ) (key : AccAddress)
    (ctx' : Context σ)
    (h : accountStep k voteInfos previousBlockTime currentBlockTime ctx key = some ctx') :
    ctx'.blockTime = ctx.blockTime ∧ ctx'.blockHeight = ctx.blockHeight ∧
      ctx'.previousBlockTime = ctx.previousBlockTime := by
  rw [accountStep_eq_bind] at h
  cases hacc : k.GetAccountFromAuthKeeper ctx key with
  | none => simp [hacc] at h
  | some acc =>
    simp only [hacc, Option.some_bind] at h
    cases hvesting : k.AccountIsVesting ctx acc.GetAddress with
    | none => simp [hvesting] at h
    | some vesting =>
      simp only [hvesting, Option.some_bind] at h
      cases vesting with
      | false =>
        simp only [Bool.false_eq_true, if_false, Option.some.injEq] at h
        subst h
        exact ⟨rfl, rfl, rfl⟩
      | true =>
        simp only [if_true] at h
        generalize ((!(voteInfos.FilterByValidatorAddress acc.ValidatorAddress).2 ||
          !(voteInfos.FilterByValidatorAddress acc.ValidatorAddress).1.SignedLastBlock) &&
            decide (ctx.BlockHeight > 1)) = missedBlock at h
        cases hsign : k.updateMissingSignCount ctx acc.GetAddress missedBlock with
        | none => simp [Keeper.UpdateMissingSignCount, hsign] at h
        | some store =>
          simp only [Keeper.UpdateMissingSignCount, hsign, Option.map_some',
            Option.some_bind] at h
          cases htimes : k.GetPeriodEndTimes { ctx with store := store } key with
          | none => simp [htimes] at h
          | some endTimes =>
            simp only [htimes, Option.some_bind] at h
            cases hloop : endTimesLoop k previousBlockTime currentBlockTime key
                { ctx with store := store } endTimes 0 with
            | none => simp [hloop] at h
            | some ctx₃ =>
              simp only [hloop, Option.some_bind] at h
              obtain ⟨h1, h2, h3⟩ := endTimesLoop_frame k _ _ key endTimes _ _ _ hloop
              cases hdebt : k.handleVestingDebt ctx₃ key currentBlockTime with
              | none => simp [Keeper.HandleVestingDebt, hdebt] at h
              | some store₃ =>
                simp only [Keeper.HandleVestingDebt, hdebt, Option.map_some',
                  Option.some.injEq] at h
                subst h
                exact ⟨h1, h2, h3⟩

/-- C27, refuted as stated: at height 5 the sample validator has a vesting account, and the
votes of the last commit list its address twice, first with `SignedLastBlock == true` and
then with `SignedLastBlock == false`, so that the address is present with
`SignedLastBlock == false`; yet `BeginBlocker` calls `UpdateMissingSignCount` for it with
`missed == false`, since `FilterByValidatorAddress` returns the first vote. -/
theorem BeginBlocker_duplicate_votes_not_missed :
    sampleContext.BlockHeight > 1 ∧
      (∃ vi ∈ sampleDuplicateRequest.LastCommitInfo.GetVotes,
        vi.Validator.Address = sampleValidator ∧ vi.SignedLastBlock = false) ∧
      sampleKeeper.GetAllAccountKeys sampleContext = [sampleValidator] ∧
      sampleKeeper.GetAccountFromAuthKeeper sampleContext sampleValidator =
        some { Address := sampleValidator, ValidatorAddress := sampleValidator } ∧
      sampleKeeper.AccountIsVesting sampleContext sampleValidator = some true ∧
      (BeginBlocker sampleKeeper sampleContext sampleDuplicateRequest).map
          (fun ctx => ctx.store.calls) =
        some [.updateMissingSignCount sampleValidator false,
          .updateVestedCoinsProgress sampleValidator 0,
          .handleVestingDebt sampleValidator sampleLaterBlockTime] := by
  refine ⟨by decide, ⟨sampleVote, by decide, rfl, rfl⟩, rfl, rfl, rfl, by decide⟩

/-- C27, amended: on the first call, when no previous block time is stored, `BeginBlocker`
processes no account. When a previous block time is stored, `BeginBlocker` goes through the
account keys of the keeper in their order; an account that is not vesting is skipped, and for
every vesting validator account `UpdateMissingSignCount` is called, before the period end
times and the debt of the account are handled, with a flag `missed` that depends on the
validator address of the account, the votes of the last commit in the request and the height
of the block only: `missed == true` if and only if the block height is greater than 1 and
the validator address is either absent from the votes or its vote, the first for the address,
which is the one `FilterByValidatorAddress` returns, has `SignedLastBlock == false`. When no
address has two different votes, this is the case exactly when the height is greater than 1
and the address is absent or some vote for it has `SignedLastBlock == false`. At a height of
at most 1 every call is made with `missed == false`. -/
theorem BeginBlocker_missed_iff {σ : Type} (k : Keeper σ) (ctx : Context σ)
    (req : RequestBeginBlock) :
    ∃ missed : ConsAddress → Bool,
      (GetPreviousBlockTime ctx = none →
        BeginBlocker k ctx req = some (SetPreviousBlockTime ctx ctx.BlockTime)) ∧
      (∀ previousBlockTime, GetPreviousBlockTime ctx = some previousBlockTime →
        BeginBlocker k ctx req =
          Option.map (fun ctx₁ => SetPreviousBlockTime ctx₁ ctx.BlockTime)
            (List.foldlM
              (fun ctx₁ key =>
                (k.GetAccountFromAuthKeeper ctx₁ key).bind fun acc =>
                  (k.AccountIsVesting ctx₁ acc.GetAddress).bind fun vesting =>
                    if vesting then
                      (k.UpdateMissingSignCount ctx₁ acc.GetAddress
                        (missed acc.ValidatorAddress)).bind fun ctx₂ =>
                        (k.GetPeriodEndTimes ctx₂ key).bind fun endTimes =>
                          (endTimesLoop k previousBlockTime ctx.BlockTime key ctx₂
                            endTimes 0).bind
                            fun ctx₃ => k.HandleVestingDebt ctx₃ key ctx.BlockTime
                    else some ctx₁)
              ctx (k.GetAllAccountKeys ctx))) ∧
      (∀ addr, missed addr = true ↔
        ctx.BlockHeight > 1 ∧
          ((∀ vi ∈ req.LastCommitInfo.GetVotes, vi.Validator.Address ≠ addr) ∨
            ∃ vi, VoteInfos.FilterByValidatorAddress req.LastCommitInfo.GetVotes addr =
                (vi, true) ∧
              vi.SignedLastBlock = false)) ∧
      ((∀ vi ∈ req.LastCommitInfo.GetVotes, ∀ vj ∈ req.LastCommitInfo.GetVotes,
          vi.Validator.Address = vj.Validator.Address → vi = vj) →
        ∀ addr, missed addr = true ↔
          ctx.BlockHeight > 1 ∧
            ((∀ vi ∈ req.LastCommitInfo.GetVotes, vi.Validator.Address ≠ addr) ∨
              ∃ vi ∈ req.LastCommitInfo.GetVotes, vi.Validator.Address = addr ∧
                vi.SignedLastBlock = false)) ∧
      (ctx.BlockHeight ≤ 1 → ∀ addr, missed addr = false) := by
  refine ⟨fun addr =>
    (!(VoteInfos.FilterByValidatorAddress req.LastCommitInfo.GetVotes addr).2 ||
      !(VoteInfos.FilterByValidatorAddress req.LastCommitInfo.GetVotes addr).1.SignedLastBlock) &&
        decide (ctx.BlockHeight > 1), ?_, ?_, ?_, ?_, ?_⟩
  · intro hprev
    unfold BeginBlocker
    rw [hprev]
  · intro previousBlockTime hprev
    have hloop : ∀ (keys : List AccAddress) (ctx₀ : Context σ),
        ctx₀.blockHeight = ctx.blockHeight →
        accountKeysLoop k req.LastCommitInfo.GetVotes previousBlockTime ctx.BlockTime ctx₀ keys =
          List.foldlM
            (fun ctx₁ key =>
              (k.GetAccountFromAuthKeeper ctx₁ key).bind fun acc =>
                (k.AccountIsVesting ctx₁ acc.GetAddress).bind fun vesting =>
                  if vesting then
                    (k.UpdateMissingSignCount ctx₁ acc.GetAddress
                      ((!(VoteInfos.FilterByValidatorAddress req.LastCommitInfo.GetVotes
                        acc.ValidatorAddress).2 ||
                        !(VoteInfos.FilterByValidatorAddress req.LastCommitInfo.GetVotes
                          acc.ValidatorAddress).1.SignedLastBlock) &&
                          decide (ctx.BlockHeight > 1))).bind fun ctx₂ =>
                      (k.GetPeriodEndTimes ctx₂ key).bind fun endTimes =>
                        (endTimesLoop k previousBlockTime ctx.BlockTime key ctx₂
                          endTimes 0).bind
                          fun ctx₃ => k.HandleVestingDebt ctx₃ key ctx.BlockTime
                  else some ctx₁)
            ctx₀ keys := by
      intro keys
      induction keys with
      | nil =>
        intro ctx₀ _
        rfl
      | cons key rest ih =>
        intro ctx₀ hheight
        have hh : ctx₀.BlockHeight = ctx.BlockHeight := hheight
        unfold accountKeysLoop
        rw [List.foldlM_cons]
        have hstep := accountStep_eq_bind k req.LastCommitInfo.GetVotes previousBlockTime ctx.BlockTime ctx₀ key
        rw [hh] at hstep
        rw [← hstep]
        cases hres : accountStep k req.LastCommitInfo.GetVotes previousBlockTime ctx.BlockTime ctx₀ key with
        | none => rfl
        | some ctx₁ =>
          have hframe := accountStep_frame k req.LastCommitInfo.GetVotes previousBlockTime ctx.BlockTime ctx₀
            key ctx₁ hres
          exact ih ctx₁ (hframe.2.1.trans hheight)
    rw [← hloop (k.GetAllAccountKeys ctx) ctx rfl]
    unfold BeginBlocker
    rw [hprev]
    simp only []
    cases accountKeysLoop k req.LastCommitInfo.GetVotes previousBlockTime ctx.BlockTime ctx
        (k.GetAllAccountKeys ctx) with
    | none => rfl
    | some ctx₁ => rfl
  · intro addr
    have hfind := FilterByValidatorAddress_eq_find req.LastCommitInfo.GetVotes addr
    cases hf : List.find? (fun vi : VoteInfo => decide (vi.Validator.Address = addr))
        req.LastCommitInfo.GetVotes with
    | none =>
      rw [hf] at hfind
      have habsent : ∀ vi ∈ req.LastCommitInfo.GetVotes, vi.Validator.Address ≠ addr := by
        intro vi hmem
        have := List.find?_eq_none.mp hf vi hmem
        simpa using this
      simp only [hfind, Bool.not_false, Bool.true_or, Bool.true_and, decide_eq_true_eq]
      exact ⟨fun h => ⟨h, Or.inl habsent⟩, fun h => h.1⟩
    | some vote =>
      rw [hf] at hfind
      have hmem : vote ∈ req.LastCommitInfo.GetVotes := List.mem_of_find?_eq_some hf
      have haddr : vote.Validator.Address = addr := by
        have := List.find?_some hf
        simpa using this
      simp only [hfind, Bool.not_true, Bool.false_or, Bool.and_eq_true, Bool.not_eq_true',
        decide_eq_true_eq, Prod.mk.injEq, and_true]
      constructor
      · rintro ⟨hsigned, hheight⟩
        exact ⟨hheight, Or.inr ⟨vote, rfl, hsigned⟩⟩
      · rintro ⟨hheight, habsent | ⟨vi, hvi, hsigned⟩⟩
        · exact absurd haddr (habsent vote hmem)
        · rw [hvi]
          exact ⟨hsigned, hheight⟩
  · intro hsame addr
    have hfind := FilterByValidatorAddress_eq_find req.LastCommitInfo.GetVotes addr
    cases hf : List.find? (fun vi : VoteInfo => decide (vi.Validator.Address = addr))
        req.LastCommitInfo.GetVotes with
    | none =>
      rw [hf] at hfind
      have habsent : ∀ vi ∈ req.LastCommitInfo.GetVotes, vi.Validator.Address ≠ addr := by
        intro vi hmem
        have := List.find?_eq_none.mp hf vi hmem
        simpa using this
      simp only [hfind, Bool.not_false, Bool.true_or, Bool.true_and, decide_eq_true_eq]
      exact ⟨fun h => ⟨h, Or.inl habsent⟩, fun h => h.1⟩
    | some vote =>
      rw [hf] at hfind
      have hmem : vote ∈ req.LastCommitInfo.GetVotes := List.mem_of_find?_eq_some hf
      have haddr : vote.Validator.Address = addr := by
        have := List.find?_some hf
        simpa using this
      simp only [hfind, Bool.not_true, Bool.false_or, Bool.and_eq_true, Bool.not_eq_true',
        decide_eq_true_eq]
      constructor
      · rintro ⟨hsigned, hheight⟩
        exact ⟨hheight, Or.inr ⟨vote, hmem, haddr, hsigned⟩⟩
      · rintro ⟨hheight, habsent | ⟨vi, hvi, haddr', hsigned⟩⟩
        · exact absurd haddr (habsent vote hmem)
        · rw [hsame vote hmem vi hvi (haddr.trans haddr'.symm)]
          exact ⟨hsigned, hheight⟩
  · intro hle addr
    have : ¬ ctx.BlockHeight > 1 := not_lt.mpr hle
    simp [this]

/-- Witness for C27 with the sample keeper: at height 5 the sample validator, whose vote in
the sample commit has `SignedLastBlock == false`, is counted as having missed the block;
`BeginBlocker` makes the calls for its account with that flag and stores the block time. -/
theorem BeginBlocker_missed_iff_witness :
    ∃ missed : ConsAddress → Bool, missed sampleValidator = true ∧
      BeginBlocker sampleKeeper sampleContext sampleRequest =
        ((((sampleKeeper.UpdateMissingSignCount sampleContext sampleValidator
          (missed sampleValidator)).bind fun ctx₂ =>
            (sampleKeeper.GetPeriodEndTimes ctx₂ sampleValidator).bind fun endTimes =>
              (endTimesLoop sampleKeeper sampleNextBlockTime sampleLaterBlockTime
                sampleValidator ctx₂ endTimes 0).bind
                fun ctx₃ => sampleKeeper.HandleVestingDebt ctx₃ sampleValidator
                  sampleLaterBlockTime)).map
          fun ctx₁ => SetPreviousBlockTime ctx₁ sampleLaterBlockTime) :=
  match BeginBlocker_missed_iff sampleKeeper sampleContext sampleRequest with
  | ⟨missed, _, hbegin, hiff, _, _⟩ =>
    ⟨missed, (hiff sampleValidator).mpr ⟨by decide, Or.inr ⟨sampleVote, by decide, rfl⟩⟩, by
      rw [hbegin sampleNextBlockTime rfl]
      have hkeys : sampleKeeper.GetAllAccountKeys sampleContext = [sampleValidator] := rfl
      rw [hkeys, List.foldlM_cons]
      cases hres : (sampleKeeper.UpdateMissingSignCount sampleContext sampleValidator
          (missed sampleValidator)).bind fun ctx₂ =>
            (sampleKeeper.GetPeriodEndTimes ctx₂ sampleValidator).bind fun endTimes =>
              (endTimesLoop sampleKeeper sampleNextBlockTime sampleLaterBlockTime
                sampleValidator ctx₂ endTimes 0).bind
                fun ctx₃ => sampleKeeper.HandleVestingDebt ctx₃ sampleValidator
                  sampleLaterBlockTime with
      | none =>
        have : (sampleKeeper.GetAccountFromAuthKeeper sampleContext sampleValidator).bind
            (fun acc =>
              (sampleKeeper.AccountIsVesting sampleContext acc.GetAddress).bind fun vesting =>
                if vesting then
                  (sampleKeeper.UpdateMissingSignCount sampleContext acc.GetAddress
                    (missed acc.ValidatorAddress)).bind fun ctx₂ =>
                    (sampleKeeper.GetPeriodEndTimes ctx₂ sampleValidator).bind fun endTimes =>
                      (endTimesLoop sampleKeeper sampleNextBlockTime sampleContext.BlockTime
                        sampleValidator ctx₂ endTimes 0).bind
                        fun ctx₃ => sampleKeeper.HandleVestingDebt ctx₃ sampleValidator
                          sampleContext.BlockTime
                else some sampleContext) = none := hres
        simp [this]
      | some ctx₁ =>
        have : (sampleKeeper.GetAccountFromAuthKeeper sampleContext sampleValidator).bind
            (fun acc =>
              (sampleKeeper.AccountIsVesting sampleContext acc.GetAddress).bind fun vesting =>
                if vesting then
                  (sampleKeeper.UpdateMissingSignCount sampleContext acc.GetAddress
                    (missed acc.ValidatorAddress)).bind fun ctx₂ =>
                    (sampleKeeper.GetPeriodEndTimes ctx₂ sampleValidator).bind fun endTimes =>
                      (endTimesLoop sampleKeeper sampleNextBlockTime sampleContext.BlockTime
                        sampleValidator ctx₂ endTimes 0).bind
                        fun ctx₃ => sampleKeeper.HandleVestingDebt ctx₃ sampleValidator
                          sampleContext.BlockTime
                else some sampleContext) = some ctx₁ := hres
        simp [this]
        rfl⟩


/-! ## A vesting period end is processed once -/

end validatorvesting

namespace incentive

open v0_13 (Time Coin Coins AccAddress)
open keeper (Dec ZeroDec RewardPeriod RewardIndex RewardIndexes NewRewardIndex
  USDXMintingClaim)

/-! ## Import does not keep the reward factors of the claims -/

/-- After the zeroing every reward factor is zero. -/
theorem zeroRewardFactors_zero (rewardIndexes : RewardIndexes) :
    ∀ ri ∈ zeroRewardFactors rewardIndexes, ri.RewardFactor = ZeroDec := by
  intro ri hmem
  obtain ⟨ri₀, -, rfl⟩ := List.mem_map.mp hmem
  by_cases h : ri₀.RewardFactor = ZeroDec
  · simp [h]
  · simp [h]

/-- A claim found in the store after a write is the claim written or was there before. -/
theorem mem_setClaim {α : Type} (owner : α → AccAddress) (claim x : α) (l : List α)
    (hmem : x ∈ setClaim owner claim l) : x = claim ∨ x ∈ l := by
  induction l with
  | nil =>
    simp only [setClaim, List.mem_singleton] at hmem
    exact Or.inl hmem
  | cons stored rest ih =>
    unfold setClaim at hmem
    split_ifs at hmem with h1 h2
    · rcases List.mem_cons.mp hmem with h | h
      · exact Or.inl h
      · exact Or.inr (List.mem_cons_of_mem _ h)
    · rcases List.mem_cons.mp hmem with h | h
      · exact Or.inl h
      · exact Or.inr h
    · rcases List.mem_cons.mp hmem with h | h
      · exact Or.inr (h ▸ List.mem_cons_self _ _)
      · rcases ih h with h' | h'
        · exact Or.inl h'
        · exact Or.inr (List.mem_cons_of_mem _ h')

/-- A loop of writes that do not touch the USDX minting claims leaves them as they are. -/
theorem foldl_usdxMintingClaims {β : Type} (f : Context → β → Context)
    (hf : ∀ ctx b, (f ctx b).usdxMintingClaims = ctx.usdxMintingClaims) (l : List β)
    (ctx : Context) : (l.foldl f ctx).usdxMintingClaims = ctx.usdxMintingClaims := by
  induction l generalizing ctx with
  | nil => rfl
  | cons b rest ih => rw [List.foldl_cons, ih, hf]

/-- The first loop of the import leaves the USDX minting claims as they are. -/
theorem usdxMintingRewardPeriodsLoop_claims (periods : List RewardPeriod) :
    ∀ ctx ctx', usdxMintingRewardPeriodsLoop ctx periods = some ctx' →
      ctx'.usdxMintingClaims = ctx.usdxMintingClaims := by
  induction periods with
  | nil =>
    intro ctx ctx' h
    simp only [usdxMintingRewardPeriodsLoop, Option.some.injEq] at h
    rw [← h]
  | cons rp rest ih =>
    intro ctx ctx' h
    unfold usdxMintingRewardPeriodsLoop at h
    split_ifs at h
    rw [ih _ _ h]
    rfl

/-- The claim loop of the import stores claims whose reward factors are all zero. -/
theorem claimsLoop_zero (claims : List USDXMintingClaim) :
    ∀ ctx : Context,
      ∀ x ∈ (claims.foldl
          (fun ctx claim =>
            SetUSDXMintingClaim ctx
              { claim with RewardIndexes := zeroRewardFactors claim.RewardIndexes })
          ctx).usdxMintingClaims,
        x ∈ ctx.usdxMintingClaims ∨ ∀ ri ∈ x.RewardIndexes, ri.RewardFactor = ZeroDec := by
  induction claims with
  | nil =>
    intro ctx x hmem
    exact Or.inl hmem
  | cons claim rest ih =>
    intro ctx x hmem
    rw [List.foldl_cons] at hmem
    rcases ih _ x hmem with h | h
    · rcases mem_setClaim _ _ _ _ h with h' | h'
      · right
        rw [h']
        exact zeroRewardFactors_zero claim.RewardIndexes
      · exact Or.inl h'
    · exact Or.inr h

/-- Whatever the functions outside the sources do, every USDX minting claim in the store
after `InitGenesis` was in the store before it or has all its reward factors at zero; after
an import into an empty store, every claim has all its reward factors at zero. -/
theorem InitGenesis_claims_zero (out : Outside) (ctx ctx' : Context) (gs : GenesisState)
    (h : InitGenesis out ctx gs = some ctx') :
    ∀ x ∈ ctx'.usdxMintingClaims,
      x ∈ ctx.usdxMintingClaims ∨ ∀ ri ∈ x.RewardIndexes, ri.RewardFactor = ZeroDec := by
  unfold InitGenesis at h
  split_ifs at h
  cases hloop : usdxMintingRewardPeriodsLoop ctx gs.Params.USDXMintingRewardPeriods with
  | none => simp [hloop] at h
  | some ctx₁ =>
    simp only [hloop, Option.some.injEq] at h
    have h₁ := usdxMintingRewardPeriodsLoop_claims _ _ _ hloop
    intro x hmem
    rw [← h, foldl_usdxMintingClaims _ ?_] at hmem
    · rcases claimsLoop_zero _ _ x hmem with hx | hx
      · left
        rw [foldl_usdxMintingClaims _ ?_, foldl_usdxMintingClaims _ ?_,
          foldl_usdxMintingClaims _ ?_, foldl_usdxMintingClaims _ ?_] at hx
        · change x ∈ (List.foldl _ (List.foldl _ (List.foldl _ ctx₁ _) _) _).usdxMintingClaims
            at hx
          rw [foldl_usdxMintingClaims _ ?_, foldl_usdxMintingClaims _ ?_,
            foldl_usdxMintingClaims _ ?_, h₁] at hx
          · exact hx
          all_goals exact fun _ _ => rfl
        all_goals exact fun _ _ => rfl
      · exact Or.inr hx
    · exact fun _ _ => rfl


/-- C24, the failing input evaluated: the sample store has one USDX minting claim, with the
reward index `bnb-a` at `2.0`. `ExportGenesis` leaves the store as it is and returns the
sample genesis state, in which the claim has its reward factor `2.0`. `InitGenesis` on the
empty store with that genesis state succeeds and brings back the parameters, the accrual
time and the global reward factor of `bnb-a`, but stores the claim with the reward factor
0. The imported store is therefore not the exported store: the export followed by the import
is not a round trip. -/
theorem genesis_round_trip_loses_claim_factors :
    ExportGenesis sampleOutside sampleStore = some (sampleStore, sampleGenesisState) ∧
      sampleStore.usdxMintingClaims =
        [{ Owner := keeper.sampleOwner
           Reward := ⟨"ukava", 7⟩
           RewardIndexes := [NewRewardIndex "bnb-a" ⟨2000000000000000000⟩] }] ∧
      (InitGenesis sampleOutside (emptyStore sampleStore) sampleGenesisState).map
          (fun ctx => (GetParams ctx, GetPreviousUSDXMintingAccrualTime ctx "bnb-a",
            GetUSDXMintingRewardFactor ctx "bnb-a", ctx.hardLiquidityProviderClaims)) =
        some (GetParams sampleStore, GetPreviousUSDXMintingAccrualTime sampleStore "bnb-a",
          GetUSDXMintingRewardFactor sampleStore "bnb-a",
          sampleStore.hardLiquidityProviderClaims) ∧
      (InitGenesis sampleOutside (emptyStore sampleStore) sampleGenesisState).map
          (fun ctx => ctx.usdxMintingClaims) =
        some [{ Owner := keeper.sampleOwner
                Reward := ⟨"ukava", 7⟩
                RewardIndexes := [NewRewardIndex "bnb-a" ⟨0⟩] }] ∧
      InitGenesis sampleOutside (emptyStore sampleStore) sampleGenesisState ≠
        some sampleStore := by
  have himport : (InitGenesis sampleOutside (emptyStore sampleStore) sampleGenesisState).map
      (fun ctx => ctx.usdxMintingClaims) =
        some [{ Owner := keeper.sampleOwner
                Reward := ⟨"ukava", 7⟩
                RewardIndexes := [NewRewardIndex "bnb-a" ⟨0⟩] }] := by
    decide
  refine ⟨rfl, rfl, by decide, himport, ?_⟩
  intro h
  rw [h] at himport
  exact absurd himport (by decide)

end incentive
